import Mathlib

set_option maxRecDepth 100000

/-!
# Verification of the TripSplit server-side expense settlement engine

Shallow embedding of the TripSplit backend (Node/Express + Prisma) in Lean 4.

Money is modelled as exact rationals (`ℚ`): the JavaScript source computes on
IEEE doubles but every persisted amount is a two-decimal value, and all code
paths verified here round through integer cents (`Math.round(x*100)`), which we
model with Mathlib's `round` (round half towards +∞, matching `Math.round`).
Integer cent amounts are modelled as `ℤ`.

Sources embedded (paths relative to the repository root):
* `backend/src/controllers/expenseController.js` — allocator and expense engine
* `backend/src/controllers/tripController.js` — balance calculator and
  settlement planner
* `controllers/paymentController.js` — payment lifecycle
* `controllers/friendsController.js` — friends and friend invites
* `backend/src/services/ocrService.js` — rule-based receipt parser
-/

namespace TripSplit

/-! ## Money primitive (`round2`, `toCents`, `fromCents`)

From `expenseController.js`:
```js
const round2 = (n) => Math.round((n + Number.EPSILON) * 100) / 100;
function toCents(n) { return Math.round((n + Number.EPSILON) * 100); }
function fromCents(c) { return c / 100; }
```
`Number.EPSILON` is a float-error compensation term; in the exact rational
model it is 0.  `Math.round` rounds half towards +∞, as does Mathlib `round`.
-/

def round2 (q : ℚ) : ℚ := (round (100 * q) : ℤ) / 100

def toCents (q : ℚ) : ℤ := round (100 * q)

def fromCents (c : ℤ) : ℚ := (c : ℚ) / 100

/-- An amount that is a whole number of cents. -/
def IsCents (q : ℚ) : Prop := ∃ k : ℤ, q = (k : ℚ) / 100

instance : DecidablePred IsCents := fun q =>
  decidable_of_iff (q * 100 = ((q * 100 : ℚ).num : ℚ)) (by
    constructor
    · intro h
      exact ⟨(q * 100).num, by rw [← h]; ring⟩
    · rintro ⟨k, rfl⟩
      norm_num)

/-! ## Allocator (`allocateProportionally`)

From `expenseController.js` lines 77–111.  The JS `Map` is modelled as an
association list in insertion order; `raw.sort((a, b) => b.rem - a.rem)` is a
stable sort descending by remainder (V8 `Array#sort` is stable), modelled by a
stable insertion sort. -/

structure RawAlloc where
  userId : String
  flr : ℤ
  rem : ℚ
deriving Repr, DecidableEq

/-- Stable insertion of one element into a list sorted descending by `rem`:
the element goes after every earlier element with `rem` ≥ its own. -/
def insertRemDesc (x : RawAlloc) : List RawAlloc → List RawAlloc
  | [] => [x]
  | y :: ys => if x.rem > y.rem then x :: y :: ys else y :: insertRemDesc x ys

/-- Stable sort, descending by `rem` (model of `raw.sort((a,b) => b.rem - a.rem)`). -/
def sortRemDesc (l : List RawAlloc) : List RawAlloc :=
  l.foldl (fun acc x => insertRemDesc x acc) []

/-- The distribution loop:
```js
for (let i = 0; i < raw.length; i++) {
  const add = remaining > 0 ? 1 : 0;
  out.set(raw[i].userId, raw[i].floor + add);
  remaining -= add;
}
```
Returns the output entries (in loop order) and the final `remaining`. -/
def distributeRemaining : ℤ → List RawAlloc → List (String × ℤ) × ℤ
  | remaining, [] => ([], remaining)
  | remaining, r :: rs =>
      let add : ℤ := if remaining > 0 then 1 else 0
      let rest := distributeRemaining (remaining - add) rs
      ((r.userId, r.flr + add) :: rest.1, rest.2)

/-- `allocateProportionally(subtotalCentsByUser, allocCents)` from
`expenseController.js` lines 77–111, on entries in `Map` iteration order. -/
def allocateProportionally (entries : List (String × ℤ)) (allocCents : ℤ) :
    List (String × ℤ) :=
  let totalSubtotalCents := (entries.map Prod.snd).sum
  if allocCents = 0 ∨ totalSubtotalCents = 0 then
    entries.map (fun e => (e.1, (0 : ℤ)))
  else
    let raw := entries.map (fun e =>
      let exact : ℚ := (allocCents * e.2 : ℤ) / (totalSubtotalCents : ℚ)
      RawAlloc.mk e.1 ⌊exact⌋ (exact - ⌊exact⌋))
    let used := (raw.map RawAlloc.flr).sum
    let remaining := allocCents - used
    let sorted := sortRemDesc raw
    let dist := distributeRemaining remaining sorted
    if dist.2 ≠ 0 then
      match dist.1 with
      | [] => dist.1
      | (u, v) :: rest => (u, v + dist.2) :: rest
    else dist.1

/-- `Map.get(k) || 0` on the association lists produced above. -/
def getCentsD (m : List (String × ℤ)) (k : String) : ℤ :=
  match m.find? (fun e => e.1 = k) with
  | some e => e.2
  | none => 0

/-- `Map.set(k, v)`: update in place if the key exists (JS `Map` keeps the
original insertion position), else append. -/
def mapSet : List (String × ℤ) → String → ℤ → List (String × ℤ)
  | [], u, v => [(u, v)]
  | e :: rest, u, v =>
      if e.1 = u then (e.1, v) :: rest else e :: mapSet rest u v

/-! ## Expense engine (`createExpense`)

From `expenseController.js` lines 115–301.  The two zod payload shapes
(`splitPayloadSchema` / `itemsPayloadSchema`) become two structures; zod
validation becomes a decidable precondition; a rejected request is `none`. -/

structure SplitInput where
  userId : String
  share : ℚ
deriving Repr, DecidableEq

structure SimplePayload where
  title : String
  amount : ℚ
  splits : List SplitInput
deriving Repr, DecidableEq

inductive TipInput
  | percent (value : ℚ)
  | amount (value : ℚ)
deriving Repr, DecidableEq

structure ItemInput where
  name : String
  price : ℚ
  assignedUserIds : List String
deriving Repr, DecidableEq

structure ItemizedPayload where
  title : String
  tax : Option ℚ
  tip : Option TipInput
  items : List ItemInput
deriving Repr, DecidableEq

structure SplitRow where
  userId : String
  share : ℚ
deriving Repr, DecidableEq

/-- A persisted `Expense` row together with its `ExpenseSplit` rows. -/
structure Expense where
  paidById : String
  title : String
  amount : ℚ
  subtotal : ℚ
  tax : ℚ
  tip : ℚ
  total : ℚ
  splits : List SplitRow
deriving Repr, DecidableEq

/-- `splitPayloadSchema`: non-empty title, positive amount, at least one
split, every share positive. -/
def simpleSchemaOk (p : SimplePayload) : Prop :=
  p.title ≠ "" ∧ 0 < p.amount ∧ p.splits ≠ [] ∧ ∀ s ∈ p.splits, 0 < s.share

instance (p : SimplePayload) : Decidable (simpleSchemaOk p) := by
  unfold simpleSchemaOk; infer_instance

/-- `tipSchema`: the tip value, when present, is non-negative. -/
def tipSchemaOk : Option TipInput → Prop
  | none => True
  | some (TipInput.percent v) => 0 ≤ v
  | some (TipInput.amount v) => 0 ≤ v

instance : DecidablePred tipSchemaOk := fun t =>
  match t with
  | none => Decidable.isTrue trivial
  | some (TipInput.percent v) => inferInstanceAs (Decidable (0 ≤ v))
  | some (TipInput.amount v) => inferInstanceAs (Decidable (0 ≤ v))

/-- `itemsPayloadSchema`: non-empty title, optional non-negative tax,
optional tip with non-negative value, at least one item, every item with a
non-empty name, positive price and at least one assignee. -/
def itemizedSchemaOk (p : ItemizedPayload) : Prop :=
  p.title ≠ "" ∧ (∀ t ∈ p.tax, 0 ≤ t) ∧ tipSchemaOk p.tip ∧
  p.items ≠ [] ∧
  ∀ i ∈ p.items, i.name ≠ "" ∧ 0 < i.price ∧ i.assignedUserIds ≠ []

instance (p : ItemizedPayload) : Decidable (itemizedSchemaOk p) := by
  unfold itemizedSchemaOk; infer_instance

/-- Path A (`"splits" in parsed`), lines 133–168: validate the share total
against the amount with a ±0.01 tolerance, then persist
`amount = total = round2(amount)`, `subtotal = tax = tip = 0`, and one
`round2`-ed split row per entry. -/
def createExpenseSimple (members : List String) (paidById : String)
    (p : SimplePayload) : Option Expense :=
  if paidById ∉ members then none
  else if ¬ simpleSchemaOk p then none
  else
    let sumShares := (p.splits.map SplitInput.share).sum
    if |sumShares - p.amount| > 1 / 100 then none
    else some
      { paidById := paidById
        title := p.title
        amount := round2 p.amount
        subtotal := 0
        tax := 0
        tip := 0
        total := round2 p.amount
        splits := p.splits.map (fun s => ⟨s.userId, round2 s.share⟩) }

/-- The inner assignee loop of the itemized path (lines 210–217): hand the
first `rem` assignees one extra cent, accumulating into the per-user map. -/
def distributeItemShares (base : ℤ) :
    List String → ℤ → List (String × ℤ) → List (String × ℤ)
  | [], _, m => m
  | u :: us, rem, m =>
      let add : ℤ := if rem > 0 then 1 else 0
      distributeItemShares base us (rem - add)
        (mapSet m u (getCentsD m u + (base + add)))

/-- The item loop of lines 203–218: per item, split `toCents(price)` evenly
with base + remainder among the assignees. -/
def accumulateItems : List ItemInput → List (String × ℤ) → List (String × ℤ)
  | [], m => m
  | it :: its, m =>
      let priceCents := toCents it.price
      let n : ℤ := it.assignedUserIds.length
      let base : ℤ := ⌊(priceCents : ℚ) / (n : ℚ)⌋
      let rem := priceCents - base * n
      accumulateItems its (distributeItemShares base it.assignedUserIds rem m)

/-- Tip resolution of lines 179–185. -/
def tipDollars (tip : Option TipInput) (subtotal : ℚ) : ℚ :=
  match tip with
  | some (TipInput.amount v) => round2 v
  | some (TipInput.percent v) => round2 (v / 100 * subtotal)
  | none => 0

/-- Stable insertion for the delta-fix sort of lines 236–239
(`splits.sort((a,b) => sub(b) - sub(a))`, descending by item subtotal). -/
def insertSubDesc (subMap : List (String × ℤ)) (x : SplitRow) :
    List SplitRow → List SplitRow
  | [] => [x]
  | y :: ys =>
      if getCentsD subMap x.userId > getCentsD subMap y.userId then
        x :: y :: ys
      else y :: insertSubDesc subMap x ys

def sortSplitsBySubDesc (subMap : List (String × ℤ)) (l : List SplitRow) :
    List SplitRow :=
  l.foldl (fun acc x => insertSubDesc subMap x acc) []

/-- The subtotal/tax/tip/total of the itemized path (lines 175–186). -/
def itemizedTotals (p : ItemizedPayload) : ℚ × ℚ × ℚ × ℚ :=
  let tax := round2 (p.tax.getD 0)
  let subtotal := round2 ((p.items.map ItemInput.price).sum)
  let tip := tipDollars p.tip subtotal
  let total := round2 (subtotal + tax + tip)
  (subtotal, tax, tip, total)

/-- The penny-delta fix of lines 230–241: if the split cents do not sum to
the total cents, sort by item subtotal descending and add the delta to the
first (largest-subtotal) split. -/
def applyDeltaFix (subMap : List (String × ℤ)) (splits0 : List SplitRow)
    (totalCents : ℤ) : List SplitRow :=
  let sumFinalCents := (splits0.map (fun s => toCents s.share)).sum
  let delta := totalCents - sumFinalCents
  if delta ≠ 0 ∧ splits0 ≠ [] then
    match sortSplitsBySubDesc subMap splits0 with
    | [] => ([] : List SplitRow)
    | s :: rest => SplitRow.mk s.userId (fromCents (toCents s.share + delta)) :: rest
  else splits0

/-- The final split rows of the itemized path (lines 200–241): per-user item
cents, proportional tax and tip allocations, and the penny-delta fix. -/
def itemizedSplits (p : ItemizedPayload) : List SplitRow :=
  let total := (itemizedTotals p).2.2.2
  let tax := (itemizedTotals p).2.1
  let tip := (itemizedTotals p).2.2.1
  let subMap := accumulateItems p.items []
  let taxAlloc := allocateProportionally subMap (toCents tax)
  let tipAlloc := allocateProportionally subMap (toCents tip)
  let splits0 := subMap.map (fun e =>
    SplitRow.mk e.1 (fromCents (e.2 + getCentsD taxAlloc e.1 + getCentsD tipAlloc e.1)))
  applyDeltaFix subMap splits0 (toCents total)

/-- Path B (itemized), lines 174–297. -/
def createExpenseItemized (members : List String) (paidById : String)
    (p : ItemizedPayload) : Option Expense :=
  if paidById ∉ members then none
  else if ¬ itemizedSchemaOk p then none
  else if ¬ ∀ i ∈ p.items, ∀ u ∈ i.assignedUserIds, u ∈ members then none
  else
    some
      { paidById := paidById
        title := p.title
        amount := (itemizedTotals p).2.2.2
        subtotal := (itemizedTotals p).1
        tax := (itemizedTotals p).2.1
        tip := (itemizedTotals p).2.2.1
        total := (itemizedTotals p).2.2.2
        splits := (itemizedSplits p).map
          (fun s => SplitRow.mk s.userId (round2 s.share)) }

/-- The union payload of `createExpenseSchema`, discriminated (as in the
source) by the presence of `splits` vs `items`. -/
inductive ExpensePayload
  | simple (p : SimplePayload)
  | itemized (p : ItemizedPayload)
deriving Repr, DecidableEq

/-- `POST /trips/:id/expenses` (`createExpense`). -/
def createExpense (members : List String) (paidById : String) :
    ExpensePayload → Option Expense
  | ExpensePayload.simple p => createExpenseSimple members paidById p
  | ExpensePayload.itemized p => createExpenseItemized members paidById p

/-! ## Payments

A persisted `Payment` row (Prisma model).  `status` is a string column; the
controller writes only `"pending"`, `"confirmed"` and `"declined"`. -/

structure Payment where
  tripId : String
  fromUserId : String
  toUserId : String
  amount : ℚ
  method : Option String
  status : String
  declineNote : Option String
deriving Repr, DecidableEq

/-! ## Balance calculator (`calculateBalancesWithPayments`)

From `tripController.js` lines 104–153.  The JS `balances` object keyed by
member id, in member order, is an association list; the
`balances[u] !== undefined` guards become no-op updates for absent keys. -/

/-- `if (balances[u] !== undefined) balances[u] += d` — bump the entry for
`u` when present, otherwise do nothing. -/
def bumpIfPresent (m : List (String × ℚ)) (u : String) (d : ℚ) :
    List (String × ℚ) :=
  m.map (fun e => if e.1 = u then (e.1, e.2 + d) else e)

/-- The expense step: credit the payer with `expense.amount`, debit every
split holder with the split share. -/
def applyExpense (bal : List (String × ℚ)) (e : Expense) : List (String × ℚ) :=
  e.splits.foldl (fun b s => bumpIfPresent b s.userId (-s.share))
    (bumpIfPresent bal e.paidById e.amount)

/-- The payment step: only `status === "confirmed"` payments count; the
sender is credited and the receiver debited. -/
def applyPayment (bal : List (String × ℚ)) (p : Payment) : List (String × ℚ) :=
  if p.status ≠ "confirmed" then bal
  else bumpIfPresent (bumpIfPresent bal p.fromUserId p.amount) p.toUserId (-p.amount)

/-- `calculateBalancesWithPayments(members, expenses, payments)`. -/
def calculateBalancesWithPayments (members : List String)
    (expenses : List Expense) (payments : List Payment) :
    List (String × ℚ) :=
  let init := members.map (fun u => (u, (0 : ℚ)))
  let afterExpenses := expenses.foldl applyExpense init
  let afterPayments := payments.foldl applyPayment afterExpenses
  afterPayments.map (fun e => (e.1, round2 e.2))

/-! Reference fold of spec §4.H, written from the words of the claim: start
every member at 0; per expense add its **total** to the payer and subtract
each split share from that split's user; per **confirmed** payment add the
amount to `fromUser` and subtract it from `toUser`; round each balance to
cents at the end.  (A user outside the member map has no balance, so updates
to such users touch nothing.) -/

def specApplyExpense (bal : List (String × ℚ)) (e : Expense) :
    List (String × ℚ) :=
  e.splits.foldl (fun b s => bumpIfPresent b s.userId (-s.share))
    (bumpIfPresent bal e.paidById e.total)

def specApplyPayment (bal : List (String × ℚ)) (p : Payment) :
    List (String × ℚ) :=
  if p.status = "confirmed" then
    bumpIfPresent (bumpIfPresent bal p.fromUserId p.amount) p.toUserId (-p.amount)
  else bal

/-- The §4.H reference balance fold. -/
def specBalances (members : List String) (expenses : List Expense)
    (payments : List Payment) : List (String × ℚ) :=
  let init := members.map (fun u => (u, (0 : ℚ)))
  let afterExpenses := expenses.foldl specApplyExpense init
  let afterPayments := payments.foldl specApplyPayment afterExpenses
  afterPayments.map (fun e => (e.1, round2 e.2))

/-! ## Settlement planner (`getTripBalances`, lines 359–403)

Partition the balance entries at ±0.01, sort each side descending by
amount (stable), then greedily match largest debtor against largest
creditor, emitting only matches above 0.01. -/

structure Party where
  pid : String
  amount : ℚ
deriving Repr, DecidableEq

structure Settlement where
  fromId : String
  toId : String
  amount : ℚ
deriving Repr, DecidableEq

/-- Debtors in balance-entry order: `balance < -0.01`, amount `|balance|`. -/
def debtorsOf (bal : List (String × ℚ)) : List Party :=
  bal.filterMap (fun e =>
    if e.2 < -(1 / 100) then some ⟨e.1, |e.2|⟩ else none)

/-- Creditors in balance-entry order: `balance > 0.01`. -/
def creditorsOf (bal : List (String × ℚ)) : List Party :=
  bal.filterMap (fun e =>
    if e.2 > 1 / 100 then some ⟨e.1, e.2⟩ else none)

/-- Stable insertion, descending by amount
(model of `sort((a, b) => b.amount - a.amount)`). -/
def insertAmtDesc (x : Party) : List Party → List Party
  | [] => [x]
  | y :: ys => if x.amount > y.amount then x :: y :: ys else y :: insertAmtDesc x ys

def sortAmtDesc (l : List Party) : List Party :=
  l.foldl (fun acc x => insertAmtDesc x acc) []

/-- The greedy settlement loop (lines 377–403).  Each iteration reduces both
heads by `min`; a transfer is emitted only when that min exceeds 0.01; a head
reduced below 0.01 is advanced past.  The thresholds are compared on exact
rationals here; the source compares IEEE doubles, which can land on either
side of `0.01` when the exact value is a one-cent tie (on doubles
`0.04 - 0.03 > 0.01` holds while `0.03 - 0.02 < 0.01` does).  Comparisons
whose exact value is at least a cent away from the threshold, or an exact
tie of identically computed values, agree between the two readings. -/
def greedySettle : List Party → List Party → List Settlement
  | [], _ => []
  | _ :: _, [] => []
  | d :: ds, c :: cs =>
      let m := min d.amount c.amount
      let emitted : List Settlement :=
        if m > 1 / 100 then [⟨d.pid, c.pid, round2 m⟩] else []
      if hd : d.amount - m < 1 / 100 then
        if hc : c.amount - m < 1 / 100 then emitted ++ greedySettle ds cs
        else emitted ++ greedySettle ds (⟨c.pid, c.amount - m⟩ :: cs)
      else
        if hc : c.amount - m < 1 / 100 then
          emitted ++ greedySettle (⟨d.pid, d.amount - m⟩ :: ds) cs
        else
          emitted ++ greedySettle (⟨d.pid, d.amount - m⟩ :: ds)
            (⟨c.pid, c.amount - m⟩ :: cs)
termination_by ds cs => ds.length + cs.length
decreasing_by
  · simp only [List.length_cons]; omega
  · simp only [List.length_cons]; omega
  · simp only [List.length_cons]; omega
  · exfalso
    rcases le_total d.amount c.amount with h | h
    · exact hd (by show d.amount - min d.amount c.amount < 1 / 100
                   rw [min_eq_left h]; norm_num)
    · exact hc (by show c.amount - min d.amount c.amount < 1 / 100
                   rw [min_eq_right h]; norm_num)

/-- The settlement list computed by `GET /trips/:id/balances` from a balance
map. -/
def planSettlements (bal : List (String × ℚ)) : List Settlement :=
  greedySettle (sortAmtDesc (debtorsOf bal)) (sortAmtDesc (creditorsOf bal))

/-- Sum of transfer amounts sent by `u`. -/
def sentBy (ts : List Settlement) (u : String) : ℚ :=
  ((ts.filter (fun t => t.fromId = u)).map Settlement.amount).sum

/-- Sum of transfer amounts received by `u`. -/
def receivedBy (ts : List Settlement) (u : String) : ℚ :=
  ((ts.filter (fun t => t.toId = u)).map Settlement.amount).sum

/-- Balance of a user after applying the planner's transfers as additional
confirmed payments (claim C6's reading: each transfer credits the debtor and
debits the creditor). -/
def balanceAfterTransfers (b : ℚ) (ts : List Settlement) (u : String) : ℚ :=
  b + sentBy ts u - receivedBy ts u

/-! ## Persisted trip state and endpoint steps

Used to express reachability (any sequence of expense creations, payment
creations and payment transitions on one trip). -/

structure TripState where
  members : List String
  expenses : List Expense
  payments : List (String × Payment)
deriving Repr, DecidableEq

/-- The balances the trip views compute for a persisted state. -/
def tripBalances (st : TripState) : List (String × ℚ) :=
  calculateBalancesWithPayments st.members st.expenses
    (st.payments.map Prod.snd)

/-! ## Payment state machine (`paymentController.js`)

`confirmPayment`, `declinePayment` (lines 97–186) and `deletePayment`
(lines 189–220).  The store of persisted payments is an association list
`paymentId → Payment`; a controller outcome is the resulting store plus the
HTTP-level verdict. -/

inductive PayOutcome
  | ok
  | notFound
  | forbidden
  | badRequest
deriving Repr, DecidableEq

def findPayment (s : List (String × Payment)) (pid : String) : Option Payment :=
  (s.find? (fun e => e.1 = pid)).map Prod.snd

def storePayment (s : List (String × Payment)) (pid : String) (p : Payment) :
    List (String × Payment) :=
  s.map (fun e => if e.1 = pid then (e.1, p) else e)

/-- `POST /payments/:id/confirm`: only the receiver, only while pending. -/
def confirmPayment (s : List (String × Payment)) (paymentId userId : String) :
    PayOutcome × List (String × Payment) :=
  match findPayment s paymentId with
  | none => (PayOutcome.notFound, s)
  | some p =>
      if p.toUserId ≠ userId then (PayOutcome.forbidden, s)
      else if p.status ≠ "pending" then (PayOutcome.badRequest, s)
      else (PayOutcome.ok, storePayment s paymentId { p with status := "confirmed" })

/-- `POST /payments/:id/decline`: only the receiver, only while pending;
an optional note of at most 200 characters is stored as the decline note. -/
def declinePayment (s : List (String × Payment)) (paymentId userId : String)
    (note : Option String) : PayOutcome × List (String × Payment) :=
  if ¬ ∀ n ∈ note, n.length ≤ 200 then (PayOutcome.badRequest, s)
  else
    match findPayment s paymentId with
    | none => (PayOutcome.notFound, s)
    | some p =>
        if p.toUserId ≠ userId then (PayOutcome.forbidden, s)
        else if p.status ≠ "pending" then (PayOutcome.badRequest, s)
        else
          (PayOutcome.ok,
           storePayment s paymentId
             { p with status := "declined", declineNote := note })

/-- `DELETE /payments/:id`: only the sender, only while pending. -/
def deletePayment (s : List (String × Payment)) (paymentId userId : String) :
    PayOutcome × List (String × Payment) :=
  match findPayment s paymentId with
  | none => (PayOutcome.notFound, s)
  | some p =>
      if p.fromUserId ≠ userId then (PayOutcome.forbidden, s)
      else if p.status ≠ "pending" then (PayOutcome.badRequest, s)
      else (PayOutcome.ok, s.filter (fun e => e.1 ≠ paymentId))

/-- `POST /trips/:id/payments` (`createPayment`): the caller pays; the
receiver is resolved by id or username over the user table; both must be
members; self-pay and non-positive amounts are rejected.  A fresh row enters
with `status = "pending"`. -/
def createPayment (s : List (String × Payment)) (users : List (String × String))
    (members : List String) (tripId fromUserId : String)
    (toUserId? toUsername? : Option String) (amount : ℚ)
    (method : Option String) (newId : String) :
    PayOutcome × List (String × Payment) :=
  if amount ≤ 0 then (PayOutcome.badRequest, s)
  else if fromUserId ∉ members then (PayOutcome.forbidden, s)
  else
    let toUser : Option String :=
      match toUserId? with
      | some uid => (users.find? (fun e => e.1 = uid)).map Prod.fst
      | none =>
          match toUsername? with
          | some uname => (users.find? (fun e => e.2 = uname)).map Prod.fst
          | none => none
    match toUser with
    | none => (PayOutcome.notFound, s)
    | some toId =>
        if toId = fromUserId then (PayOutcome.badRequest, s)
        else if toId ∉ members then (PayOutcome.badRequest, s)
        else
          (PayOutcome.ok,
           s ++ [(newId,
             { tripId := tripId, fromUserId := fromUserId, toUserId := toId
               amount := amount, method := method, status := "pending"
               declineNote := none })])

/-- Reachable persisted states of one trip, for a fixed user table: any
sequence of expense creations, payment creations and payment transitions
applied through the controllers. -/
inductive Reachable (users : List (String × String)) : TripState → Prop
  | init (members : List String) :
      Reachable users ⟨members, [], []⟩
  | expense (st : TripState) (caller : String) (p : ExpensePayload) (e : Expense) :
      Reachable users st →
      createExpense st.members caller p = some e →
      Reachable users { st with expenses := st.expenses ++ [e] }
  | payment (st : TripState) (tripId fromUserId : String)
      (toUserId? toUsername? : Option String) (amount : ℚ)
      (method : Option String) (newId : String)
      (s' : List (String × Payment)) :
      Reachable users st →
      createPayment st.payments users st.members tripId fromUserId
        toUserId? toUsername? amount method newId = (PayOutcome.ok, s') →
      Reachable users { st with payments := s' }
  | confirm (st : TripState) (pid caller : String)
      (s' : List (String × Payment)) :
      Reachable users st →
      confirmPayment st.payments pid caller = (PayOutcome.ok, s') →
      Reachable users { st with payments := s' }
  | decline (st : TripState) (pid caller : String) (note : Option String)
      (s' : List (String × Payment)) :
      Reachable users st →
      declinePayment st.payments pid caller note = (PayOutcome.ok, s') →
      Reachable users { st with payments := s' }
  | delete (st : TripState) (pid caller : String)
      (s' : List (String × Payment)) :
      Reachable users st →
      deletePayment st.payments pid caller = (PayOutcome.ok, s') →
      Reachable users { st with payments := s' }

/-! ## Friends (`friendsController.js`)

`addFriend` (lines 28–106): sending a friend request when the target already
has a pending invite towards the caller auto-accepts that invite and creates
the two symmetric `Friend` rows in one transaction. -/

structure FriendInvite where
  senderId : String
  receiverId : String
  status : String
deriving Repr, DecidableEq

structure FriendsState where
  users : List (String × String)
  friends : List (String × String)
  invites : List (String × FriendInvite)
deriving Repr, DecidableEq

inductive FriendOutcome
  | accepted
  | inviteSent
  | notFound
  | badRequest
  | conflict
deriving Repr, DecidableEq

/-- The `findFirst` predicate of lines 50–57: a pending invite in either
direction between the two users. -/
def pendingBetween (callerId targetId : String) (e : String × FriendInvite) :
    Bool :=
  (e.2.senderId = callerId ∧ e.2.receiverId = targetId ∧ e.2.status = "pending") ∨
  (e.2.senderId = targetId ∧ e.2.receiverId = callerId ∧ e.2.status = "pending")

/-- `POST /friends` (`addFriend`). -/
def addFriend (st : FriendsState) (callerId username : String)
    (newInviteId : String) : FriendOutcome × FriendsState :=
  match (st.users.find? (fun e => e.2 = username)).map Prod.fst with
  | none => (FriendOutcome.notFound, st)
  | some targetId =>
      if targetId = callerId then (FriendOutcome.badRequest, st)
      else if (st.friends.find? (fun e =>
          e.1 = callerId ∧ e.2 = targetId)).isSome then
        (FriendOutcome.conflict, st)
      else
        match st.invites.find? (pendingBetween callerId targetId) with
        | some (inviteId, inv) =>
            if inv.senderId = targetId then
              (FriendOutcome.accepted,
               { st with
                  invites := st.invites.map (fun e =>
                    if e.1 = inviteId then (e.1, { e.2 with status := "accepted" })
                    else e)
                  friends := st.friends ++
                    [(callerId, targetId), (targetId, callerId)] })
            else (FriendOutcome.conflict, st)
        | none =>
            (FriendOutcome.inviteSent,
             { st with
                invites := st.invites ++
                  [(newInviteId,
                    { senderId := callerId, receiverId := targetId
                      status := "pending" })] })

/-! ## Receipt parser (`ocrService.js`)

The rule-based parser is transliterated over `List Char`; each JS regex
becomes an explicit scanner documented with the regex it implements.  A JS
global `String.replace` finds leftmost, non-overlapping matches on the
original string (greedy quantifiers with backtracking) and resumes scanning
right after each match; `scanRepl` below reproduces that, threading the
previous original character for word-boundary (`\b`) tests. -/

/-- JS `\w` (ASCII word character). -/
def isWordC (c : Char) : Bool := c.isAlpha || c.isDigit || c == '_'

/-- JS `\s` on the character sets appearing in receipts
(space, tab, newline, carriage return, vertical tab, form feed, NBSP). -/
def isSpaceJS (c : Char) : Bool :=
  c == ' ' || c == '\t' || c == '\n' || c == '\r' ||
  c == Char.ofNat 11 || c == Char.ofNat 12 || c == Char.ofNat 160

def isWordO : Option Char → Bool
  | none => false
  | some c => isWordC c

/-- JS `\b`: exactly one of the two neighbouring characters is a word
character (out of range counts as non-word). -/
def jsBoundary (a b : Option Char) : Bool := xor (isWordO a) (isWordO b)

/-- One pass of a global regex replace.  `f prev suffix` returns
`some (replacement, n)` when a match of length `n ≥ 1` starts at `suffix`
(`prev` is the original character before it), else `none`. -/
def scanRepl (f : Option Char → List Char → Option (List Char × Nat)) :
    Option Char → List Char → List Char
  | _, [] => []
  | prev, c :: cs =>
      match f prev (c :: cs) with
      | some (rep, n) =>
          let n' := max n 1
          rep ++ scanRepl f (some (((c :: cs).take n').getLastD c))
            ((c :: cs).drop n')
      | none => c :: scanRepl f (some c) cs
termination_by _ l => l.length
decreasing_by
  · simp only [List.length_drop, List.length_cons]
    omega
  · simp only [List.length_cons]
    omega

def runRepl (f : Option Char → List Char → Option (List Char × Nat))
    (s : List Char) : List Char :=
  scanRepl f none s

/-- Collect every match of a global regex (used for `String.match(/…/g)`). -/
def scanCollect (f : Option Char → List Char → Option (List Char × Nat)) :
    Option Char → List Char → List (List Char)
  | _, [] => []
  | prev, c :: cs =>
      match f prev (c :: cs) with
      | some (_, n) =>
          let n' := max n 1
          ((c :: cs).take n') :: scanCollect f
            (some (((c :: cs).take n').getLastD c)) ((c :: cs).drop n')
      | none => scanCollect f (some c) cs
termination_by _ l => l.length
decreasing_by
  · simp only [List.length_drop, List.length_cons]
    omega
  · simp only [List.length_cons]
    omega

def runCollect (f : Option Char → List Char → Option (List Char × Nat))
    (s : List Char) : List (List Char) :=
  scanCollect f none s

/-! ### A small pattern language for the keyword regexes

Covers alternations of case-insensitive literals with `\s*` / `\s+` gaps,
with optional `\b` at either end. -/

inductive PTok
  | lit (c : Char)
  | sp0
  | sp1
deriving Repr, DecidableEq

def litTok (s : String) : List PTok := s.data.map PTok.lit

/-- Match a pattern at the head of `s`, returning the consumed length.
Spaces are matched greedily; no pattern below needs space backtracking. -/
def matchPat : List PTok → List Char → Option Nat
  | [], _ => some 0
  | PTok.lit _ :: _, [] => none
  | PTok.lit c :: ps, x :: xs =>
      if x.toLower == c.toLower then (matchPat ps xs).map (· + 1) else none
  | PTok.sp0 :: ps, xs =>
      let n := (xs.takeWhile isSpaceJS).length
      (matchPat ps (xs.drop n)).map (· + n)
  | PTok.sp1 :: ps, xs =>
      let n := (xs.takeWhile isSpaceJS).length
      if n = 0 then none else (matchPat ps (xs.drop n)).map (· + n)

/-- Search for a pattern anywhere in `s`, with optional `\b` required before
and/or after the match. -/
def searchPatAux (bBefore bAfter : Bool) (p : List PTok) :
    Option Char → List Char → Bool
  | _, [] => false
  | prev, c :: cs =>
      (match matchPat p (c :: cs) with
       | some n =>
           (!bBefore || jsBoundary prev (some c)) &&
           (!bAfter ||
             jsBoundary (((c :: cs).take n).getLast?) ((c :: cs).drop n).head?)
       | none => false) ||
      searchPatAux bBefore bAfter p (some c) cs

def searchPat (bBefore bAfter : Bool) (p : List PTok) (s : List Char) : Bool :=
  searchPatAux bBefore bAfter p none s

/-- Case-insensitive substring test (`/word/i`). -/
def containsCI (w : String) (s : List Char) : Bool :=
  searchPat false false (litTok w) s

/-- Case-insensitive whole-word test (`/\bword\b/i`). -/
def containsWordCI (w : String) (s : List Char) : Bool :=
  searchPat true true (litTok w) s

/-! ### Per-line OCR normalization (`normalizeOcrLine`) -/

/-- Take the full run of ASCII digits. -/
def digitRun (s : List Char) : List Char × List Char :=
  (s.takeWhile Char.isDigit, s.dropWhile Char.isDigit)

/-- Take the full run of JS whitespace. -/
def spaceRun (s : List Char) : List Char × List Char :=
  (s.takeWhile isSpaceJS, s.dropWhile isSpaceJS)

/-- Rule 1: `/\bSales\s+[I1l][a-z]{2}\b/gi → "Sales Tax"`. -/
def mSalesGarble (prev : Option Char) (s : List Char) :
    Option (List Char × Nat) := do
  guard (jsBoundary prev s.head?)
  let n5 ← matchPat (litTok "sales") s
  let rest := s.drop n5
  let sp := spaceRun rest
  guard (sp.1.length ≥ 1)
  match sp.2 with
  | g :: a :: b :: rest2 =>
      guard (g == 'I' || g == 'i' || g == '1' || g == 'l' || g == 'L')
      guard (a.isAlpha && b.isAlpha)
      guard (!(isWordO rest2.head?))
      pure ("Sales Tax".data, n5 + sp.1.length + 3)
  | _ => none

/-- Rule 2: `/\bSales\s+1ax\b/gi → "Sales Tax"`. -/
def mSales1ax (prev : Option Char) (s : List Char) :
    Option (List Char × Nat) := do
  guard (jsBoundary prev s.head?)
  let n5 ← matchPat (litTok "sales") s
  let rest := s.drop n5
  let sp := spaceRun rest
  guard (sp.1.length ≥ 1)
  match sp.2 with
  | g :: a :: b :: rest2 =>
      guard (g == '1' && (a == 'a' || a == 'A') && (b == 'x' || b == 'X'))
      guard (!(isWordO rest2.head?))
      pure ("Sales Tax".data, n5 + sp.1.length + 3)
  | _ => none

/-- The `\d{1,3}(?:[. ]\d{2})` body of rule 3, greedy in the leading digit
count; returns the matched characters. -/
def mNineBody (s : List Char) : Option (List Char) :=
  (List.range' 1 3).reverse.firstM (fun dlen => do
    let ds := s.take dlen
    guard (ds.length = dlen && ds.all Char.isDigit)
    guard (!((s.drop dlen).head?.elim false Char.isDigit) || dlen = 3)
    match s.drop dlen with
    | sep :: a :: b :: _ =>
        guard ((sep == '.' || sep == ' ') && a.isDigit && b.isDigit)
        pure (ds ++ [sep, a, b])
    | _ => none)

/-- Rule 3: `/(^|\s)9(\d{1,3}(?:[. ]\d{2}))(\s|$)/g → p1 ++ "$" ++ num ++ p3`. -/
def mNineFix (prev : Option Char) (s : List Char) :
    Option (List Char × Nat) :=
  let core : List Char → Option (List Char × Nat) := fun t =>
    match t with
    | '9' :: rest => do
        let body ← mNineBody rest
        let tail := rest.drop body.length
        match tail.head? with
        | none => pure ('$' :: body, 1 + body.length)
        | some c =>
            if isSpaceJS c then pure ('$' :: body ++ [c], 1 + body.length + 1)
            else none
    | _ => none
  match prev, s with
  | none, _ =>
      (core s).map (fun r => (r.1, r.2))
  | some _, c :: rest =>
      if isSpaceJS c then (core rest).map (fun r => (c :: r.1, r.2 + 1))
      else none
  | some _, [] => none

/-- Rule 4: `/(^|\s)S(\d)/g → p1 ++ "$" ++ digit`. -/
def mSFix (prev : Option Char) (s : List Char) : Option (List Char × Nat) :=
  let core : List Char → Option (List Char × Nat) := fun t =>
    match t with
    | 'S' :: d :: _ => if d.isDigit then some (['$', d], 2) else none
    | _ => none
  match prev, s with
  | none, _ => core s
  | some _, c :: rest =>
      if isSpaceJS c then (core rest).map (fun r => (c :: r.1, r.2 + 1))
      else none
  | some _, [] => none

/-- Rule 5: `/\$\s*[Oo](?=[. ]\d{2})/g → "$0"`. -/
def mDollarO (_ : Option Char) (s : List Char) : Option (List Char × Nat) :=
  match s with
  | '$' :: rest =>
      let sp := spaceRun rest
      (match sp.2 with
       | o :: sep :: a :: b :: _ =>
           if (o == 'O' || o == 'o') && (sep == '.' || sep == ' ') &&
               a.isDigit && b.isDigit then
             some ("$0".data, 1 + sp.1.length + 1)
           else none
       | _ => none)
  | _ => none

/-- Rule 6: `/\$(\d{1,4})\s+(\d{2})(?!\d)/g → "$" ++ d1 ++ "." ++ d2`. -/
def mDollarSpaceCents (_ : Option Char) (s : List Char) :
    Option (List Char × Nat) :=
  match s with
  | '$' :: rest =>
      let d1 := digitRun rest
      if d1.1.length < 1 || d1.1.length > 4 then none
      else
        let sp := spaceRun d1.2
        if sp.1.length = 0 then none
        else
          let d2 := digitRun sp.2
          if d2.1.length = 2 then
            some ('$' :: d1.1 ++ '.' :: d2.1,
              1 + d1.1.length + sp.1.length + 2)
          else none
  | _ => none

/-- Digits of a natural number, two-decimal fixed form `n/100` (the
`candidate.toFixed(2)` of rule 7). -/
def natFixed2 (n : Nat) : List Char :=
  (toString (n / 100)).data ++ '.' ::
    (if n % 100 < 10 then '0' :: (toString (n % 100)).data
     else (toString (n % 100)).data)

def digitsToNat (ds : List Char) : Nat :=
  ds.foldl (fun acc c => acc * 10 + (c.toNat - '0'.toNat)) 0

/-- Rule 7: `/\$(\d{3,6})(?![.\d])/g` with the conditional
`candidate = n/100 ∈ [0.50, 1000.00) → "$" ++ candidate.toFixed(2)`
replacement (else the match is kept as-is). -/
def mDollarNoDecimal (_ : Option Char) (s : List Char) :
    Option (List Char × Nat) :=
  match s with
  | '$' :: rest =>
      let d := digitRun rest
      if d.1.length < 3 || d.1.length > 6 then none
      else if d.2.head? == some '.' then none
      else
        let n := digitsToNat d.1
        if 50 ≤ n ∧ n < 100000 then
          some ('$' :: natFixed2 n, 1 + d.1.length)
        else
          some ('$' :: d.1, 1 + d.1.length)
  | _ => none

/-- Rule 8: `/\$\s+/g → "$"`. -/
def mDollarSpace (_ : Option Char) (s : List Char) : Option (List Char × Nat) :=
  match s with
  | '$' :: rest =>
      let sp := spaceRun rest
      if sp.1.length = 0 then none else some (['$'], 1 + sp.1.length)
  | _ => none

/-- Rule 9: `/(\d),(\d{2})(?!\d)/g → d ++ "." ++ d2`. -/
def mCommaDecimal (_ : Option Char) (s : List Char) :
    Option (List Char × Nat) :=
  match s with
  | d :: ',' :: rest =>
      if d.isDigit then
        let d2 := digitRun rest
        if d2.1.length = 2 then some (d :: '.' :: d2.1, 4) else none
      else none
  | _ => none

/-- Rule 10: `/(\d),(\d{3})(\.\d{2})/g → d ++ d3 ++ "." ++ d2`. -/
def mCommaThousands (_ : Option Char) (s : List Char) :
    Option (List Char × Nat) :=
  match s with
  | d :: ',' :: rest =>
      if d.isDigit then
        let d3 := digitRun rest
        if d3.1.length = 3 then
          match d3.2 with
          | '.' :: a :: b :: _ =>
              if a.isDigit && b.isDigit then
                some (d :: d3.1 ++ '.' :: [a, b], 8)
              else none
          | _ => none
        else none
      else none
  | _ => none

/-- `normalizeOcrLine` from `ocrService.js` lines 39–84: the ten
replacements, in source order. -/
def normalizeOcrLine (s : List Char) : List Char :=
  let s := runRepl mSalesGarble s
  let s := runRepl mSales1ax s
  let s := runRepl mNineFix s
  let s := runRepl mSFix s
  let s := runRepl mDollarO s
  let s := runRepl mDollarSpaceCents s
  let s := runRepl mDollarNoDecimal s
  let s := runRepl mDollarSpace s
  let s := runRepl mCommaDecimal s
  runRepl mCommaThousands s

/-! ### `normalizeReceiptText` -/

/-- Replace maximal runs of JS whitespace by a single space (`\s+ → " "`);
the flag records whether a whitespace run is already being collapsed. -/
def collapseSpacesAux : Bool → List Char → List Char
  | _, [] => []
  | inRun, c :: cs =>
      if isSpaceJS c then
        if inRun then collapseSpacesAux true cs
        else ' ' :: collapseSpacesAux true cs
      else c :: collapseSpacesAux false cs

def collapseSpaces (s : List Char) : List Char := collapseSpacesAux false s

def trimSpaces (s : List Char) : List Char :=
  ((s.dropWhile isSpaceJS).reverse.dropWhile isSpaceJS).reverse

/-- Split on `/\r?\n/`. -/
def splitLinesJS (s : List Char) : List (List Char) :=
  (s.splitOn '\n').map (fun l =>
    match l.getLast? with
    | some '\r' => l.dropLast
    | _ => l)

/-- `normalizeReceiptText` (lines 11–26): split into lines, map `|` and NBSP
to spaces, collapse whitespace, trim, apply `normalizeOcrLine`, and drop
empty lines. -/
def normalizeReceiptText (raw : String) : List (List Char) :=
  ((splitLinesJS raw.data).map (fun l =>
    normalizeOcrLine (trimSpaces (collapseSpaces
      (l.map (fun c =>
        if c == '|' then ' ' else if c.toNat = 160 then ' ' else c)))))).filter
    (fun l => !l.isEmpty)

/-! ### Money parsing (`normalizeMoneyString`, `parseMoneyFromLine`) -/

/-- `/\$[Oo](?=\.\d{2})/g → "$0"` (the belt-and-suspenders O→0 fix). -/
def mDollarOStrict (_ : Option Char) (s : List Char) :
    Option (List Char × Nat) :=
  match s with
  | '$' :: o :: '.' :: a :: b :: _ =>
      if (o == 'O' || o == 'o') && a.isDigit && b.isDigit then
        some ("$0".data, 2)
      else none
  | _ => none

/-- `/(\$?\s*\d+)\s(\d{2}\b)/g → g1 ++ "." ++ d2`:
optional `$`, any spaces, a digit run, one space, exactly two digits with a
word boundary after. -/
def mSpaceCents (_ : Option Char) (s : List Char) :
    Option (List Char × Nat) :=
  let fromDollar : Bool := s.head? == some '$'
  let t := if fromDollar then s.drop 1 else s
  let sp := spaceRun t
  let d1 := digitRun sp.2
  if d1.1.length = 0 then none
  else
    match d1.2 with
    | c :: rest =>
        if isSpaceJS c then
          let d2 := digitRun rest
          if d2.1.length = 2 && !(isWordO d2.2.head?) then
            let g1 := (if fromDollar then ['$'] else []) ++ sp.1 ++ d1.1
            some (g1 ++ '.' :: d2.1, g1.length + 1 + 2)
          else none
        else none
    | [] => none

/-- `normalizeMoneyString` (lines 89–105): `null` on percent lines, then the
two repairs above, then strip commas. -/
def normalizeMoneyString (s : List Char) : Option (List Char) :=
  if s.any (fun c => c == '%') then none
  else
    let s := runRepl mDollarOStrict s
    let s := runRepl mSpaceCents s
    some (s.filter (fun c => !(c == ',')))

/-- `/\d\.\d{2}\b/`: a digit, a dot, two digits, then a word boundary. -/
def hasDecimalCents (s : List Char) : Bool :=
  (List.range s.length).any (fun i =>
    match s.drop i with
    | a :: '.' :: b :: c :: rest =>
        a.isDigit && b.isDigit && c.isDigit && !(isWordO rest.head?)
    | _ => false)

/-- `looksLikeLongNumericCode` (lines 107–118). -/
def looksLikeLongNumericCode (line : List Char) : Bool :=
  let s := trimSpaces line
  if s.isEmpty then false
  else if s.any (fun c => c == '$') || hasDecimalCents s then false
  else
    let groups := ((s.map (fun c => if c.isDigit then 'd' else ' ')).splitOn ' ').filter
      (fun g => !g.isEmpty)
    let totalDigits := (s.filter Char.isDigit).length
    if groups.length ≥ 3 && totalDigits ≥ 8 then true
    else
      let stripped := s.filter (fun c => !(isSpaceJS c))
      decide (stripped.length ≥ 8) && stripped.all Char.isDigit

/-- Regex `-?\$?\d+(?:\.\d{2})` applied globally: optional minus, optional
`$`, a digit run, a dot and two digits. -/
def mDecAmount (_ : Option Char) (s : List Char) :
    Option (List Char × Nat) :=
  let hasMinus : Bool := s.head? == some '-'
  let t1 := if hasMinus then s.drop 1 else s
  let hasDollar : Bool := t1.head? == some '$'
  let t2 := if hasDollar then t1.drop 1 else t1
  let d := digitRun t2
  if d.1.length = 0 then none
  else
    match d.2 with
    | '.' :: a :: b :: _ =>
        if a.isDigit && b.isDigit then
          let m := (if hasMinus then ['-'] else []) ++
            (if hasDollar then ['$'] else []) ++ d.1 ++ ['.', a, b]
          some (m, m.length)
        else none
    | _ => none

/-- Regex `-?\$\d+` applied globally: optional minus, mandatory `$`, a digit
run. -/
def mIntAmount (_ : Option Char) (s : List Char) :
    Option (List Char × Nat) :=
  let hasMinus : Bool := s.head? == some '-'
  let t1 := if hasMinus then s.drop 1 else s
  match t1 with
  | '$' :: rest =>
      let d := digitRun rest
      if d.1.length = 0 then none
      else
        let m := (if hasMinus then ['-'] else []) ++ '$' :: d.1
        some (m, m.length)
  | _ => none

/-- `Number()` on the matched amount text (after `.replace("$", "")`):
optional sign, integer digits, optional two-decimal fraction. -/
def parseAmount (m : List Char) : ℚ :=
  let m := m.filter (fun c => !(c == '$'))
  let neg : Bool := m.head? == some '-'
  let t := if neg then m.drop 1 else m
  let d := digitRun t
  let intPart : ℚ := (digitsToNat d.1 : ℚ)
  let v : ℚ :=
    match d.2 with
    | '.' :: a :: b :: _ =>
        intPart + ((digitsToNat [a, b] : ℚ) / 100)
    | _ => intPart
  if neg then -v else v

/-- `parseMoneyFromLine` (lines 120–145). -/
def parseMoneyFromLine (line : List Char) : Option ℚ :=
  if looksLikeLongNumericCode line then none
  else
    let normalized := normalizeOcrLine line
    match normalizeMoneyString normalized with
    | none => none
    | some s =>
        let dec := runCollect mDecAmount s
        match dec.getLast? with
        | some last => some (parseAmount last)
        | none =>
            let ints := runCollect mIntAmount s
            match ints.getLast? with
            | some last => some (parseAmount last)
            | none => none

/-- `isMoneyOnly` (lines 147–153): the whole (trimmed) money-normalized line
is `\$?\d+\.\d{2}`. -/
def isMoneyOnly (line : List Char) : Bool :=
  if looksLikeLongNumericCode line then false
  else
    match normalizeMoneyString (normalizeOcrLine line) with
    | none => false
    | some s =>
        let t := trimSpaces s
        let t1 := if t.head? == some '$' then t.drop 1 else t
        let d := digitRun t1
        d.1.length ≥ 1 &&
          (match d.2 with
           | ['.', a, b] => a.isDigit && b.isDigit
           | _ => false)

/-! ### Keyword tests (`KEYWORDS`, lines 158–164) -/

/-- `/sales\s*[il1][a-z]{2}/i` (an OCR garble of "Sales Tax"). -/
def hasSalesGarbleLoose (s : List Char) : Bool :=
  (List.range s.length).any (fun i =>
    let t := s.drop i
    match matchPat (litTok "sales") t with
    | some n =>
        let rest := (t.drop n).dropWhile isSpaceJS
        (match rest with
         | g :: a :: b :: _ =>
             (g == 'i' || g == 'I' || g == 'l' || g == 'L' || g == '1') &&
             a.isAlpha && b.isAlpha
         | _ => false)
    | none => false)

def kwSubtotal (s : List Char) : Bool :=
  containsCI "subtotal" s ||
  searchPat false false (litTok "sub" ++ PTok.sp0 :: litTok "total") s

def kwTax (s : List Char) : Bool :=
  containsCI "tax" s ||
  searchPat false false (litTok "sales" ++ PTok.sp0 :: litTok "tax") s ||
  containsWordCI "vat" s ||
  searchPat true true (litTok "state" ++ PTok.sp0 :: litTok "tax") s ||
  hasSalesGarbleLoose s

def kwTip (s : List Char) : Bool :=
  containsCI "tip" s || containsCI "gratuity" s ||
  searchPat false false (litTok "service" ++ PTok.sp0 :: litTok "charge") s ||
  containsCI "surcharge" s ||
  searchPat false false (litTok "charge" ++ PTok.sp0 :: litTok "fee") s

def kwTotal (s : List Char) : Bool :=
  searchPat false false (litTok "amount" ++ PTok.sp0 :: litTok "due") s ||
  searchPat false false (litTok "balance" ++ PTok.sp0 :: litTok "due") s ||
  searchPat false false (litTok "grand" ++ PTok.sp0 :: litTok "total") s ||
  containsWordCI "total" s

/-! ### Junk classification (lines 169–227) -/

/-- `looksLikeReceiptMeta`: the big `\b(...)\b/i` alternation. -/
def looksLikeReceiptMeta (s : List Char) : Bool :=
  [litTok "server:", litTok "check" ++ PTok.sp0 :: litTok "#",
   litTok "ordered:", litTok "transaction", litTok "authorization",
   litTok "authorisation", litTok "approval", litTok "payment",
   litTok "application", litTok "device",
   litTok "card" ++ PTok.sp0 :: litTok "reader", litTok "rrn",
   litTok "terminal", litTok "approved", litTok "declined", litTok "visa",
   litTok "mastercard", litTok "amex", litTok "discover", litTok "debit",
   litTok "credit", litTok "contactless", litTok "chip", litTok "pin",
   litTok "a000", litTok "sale", litTok "shift", litTok "bbpos",
   litTok "wifi", litTok "password", litTok "authorizing",
   litTok "retain this copy", litTok "statement validation",
   litTok "reference id", litTok "auth id", litTok "mid:", litTok "aid:",
   litTok "clover"].any (fun p => searchPat true true p s)

/-- `"how're we doing"` without a literal apostrophe in this file. -/
def howreStr : String :=
  "how" ++ String.singleton (Char.ofNat 39) ++ "re we doing"

/-- `looksLikeSurveyOrPromo`: lowercased substring tests. -/
def looksLikeSurveyOrPromo (s : List Char) : Bool :=
  containsCI "feedback" s || containsCI "survey" s ||
  containsCI "unique code" s || containsCI howreStr s ||
  containsCI "how are we doing" s || containsCI "let us know" s ||
  containsCI "tell us" s || containsCI "join our team" s ||
  containsCI "www." s || containsCI "http" s

/-- `/\b\(?\d{3}\)?[-\s]?\d{3}[-\s]?\d{4}\b/` (`looksLikePhone`). -/
def phoneAt (prev : Option Char) (t : List Char) : Bool :=
  (jsBoundary prev t.head?) &&
  (let t1 := if t.head? == some '(' then t.drop 1 else t
   let a := t1.take 3
   if !(decide (a.length = 3) && a.all Char.isDigit) then false
   else
     let t2 := t1.drop 3
     let t2 := if t2.head? == some ')' then t2.drop 1 else t2
     let t2 := if t2.head?.elim false (fun c => c == '-' || isSpaceJS c)
       then t2.drop 1 else t2
     let b := t2.take 3
     if !(decide (b.length = 3) && b.all Char.isDigit) then false
     else
       let t3 := t2.drop 3
       let t3 := if t3.head?.elim false (fun c => c == '-' || isSpaceJS c)
         then t3.drop 1 else t3
       let c4 := t3.take 4
       decide (c4.length = 4) && c4.all Char.isDigit &&
         !(isWordO ((t3.drop 4).head?)))

def looksLikePhoneAux : Option Char → List Char → Bool
  | _, [] => false
  | prev, c :: cs => phoneAt prev (c :: cs) || looksLikePhoneAux (some c) cs

def looksLikePhone (s : List Char) : Bool := looksLikePhoneAux none s

/-- The street-word alternative of `looksLikeAddress`. -/
def streetWord (s : List Char) : Bool :=
  ["st", "street", "ave", "avenue", "rd", "road", "blvd", "boulevard", "dr",
   "drive", "way", "ln", "lane", "pike", "suite", "ste"].any
    (fun w => containsWordCI w s)

/-- `/\b[a-z\s]+,\s*[a-z]{2}\s*\d{5}\b/` on the lowercased line. -/
def cityStateZipAt (prev : Option Char) (t : List Char) : Bool :=
  (jsBoundary prev t.head?) &&
  (let run := t.takeWhile (fun c => (c.isAlpha && c.isLower) || isSpaceJS c)
   if run.length = 0 then false
   else
     match t.drop run.length with
     | ',' :: rest =>
         let rest := rest.dropWhile isSpaceJS
         (match rest with
          | a :: b :: rest2 =>
              if a.isAlpha && a.isLower && b.isAlpha && b.isLower then
                let rest3 := rest2.dropWhile isSpaceJS
                let d := digitRun rest3
                decide (d.1.length = 5) && !(isWordO d.2.head?)
              else false
          | _ => false)
     | _ => false)

def cityStateZipAux : Option Char → List Char → Bool
  | _, [] => false
  | prev, c :: cs => cityStateZipAt prev (c :: cs) || cityStateZipAux (some c) cs

/-- `looksLikeAddress` (lines 195–201), evaluated on the lowercased line. -/
def looksLikeAddress (line : List Char) : Bool :=
  let s := line.map Char.toLower
  let street := streetWord s
  let cityStateZip := cityStateZipAux none s
  let d := digitRun s
  let startsWithNum :=
    1 ≤ d.1.length && d.1.length ≤ 6 && d.2.head?.elim false isSpaceJS
  (startsWithNum && street) || cityStateZip

/-- `isMetaLine` (lines 203–227). -/
def isMetaLine (line : List Char) : Bool :=
  let s := trimSpaces line
  if s.isEmpty then true
  else if looksLikeReceiptMeta s then true
  else if looksLikeAddress s then true
  else if looksLikeSurveyOrPromo s then true
  else if looksLikePhone s then true
  else if decide (1 ≤ s.length ∧ s.length ≤ 2) && s.all Char.isDigit then true
  else if
    (let stripped := s.filter (fun c => !(isSpaceJS c))
     decide (stripped.length ≥ 6) && !stripped.isEmpty &&
       stripped.all Char.isDigit) then true
  else if
    -- `/\border\b.*[:#]/i`
    (List.range s.length).any (fun i =>
      (match matchPat (litTok "order") (s.drop i) with
       | some n =>
           jsBoundary ((s.take i).getLast?) ((s.drop i).head?) &&
           jsBoundary (((s.drop i).take n).getLast?) ((s.drop (i + n)).head?) &&
           (s.drop (i + n)).any (fun c => c == ':' || c == '#')
       | none => false)) then true
  else if
    -- `/\bcashier[:\s]/i`
    (List.range s.length).any (fun i =>
      (match matchPat (litTok "cashier") (s.drop i) with
       | some n =>
           jsBoundary ((s.take i).getLast?) ((s.drop i).head?) &&
           (s.drop (i + n)).head?.elim false (fun c => c == ':' || isSpaceJS c)
       | none => false)) then true
  else if containsWordCI "transaction" s then true
  else if
    -- `/^\d{1,2}[\/\-]\d{1,2}[\/\-]\d{2,4}/`
    (let d1 := digitRun s
     decide (1 ≤ d1.1.length ∧ d1.1.length ≤ 2) &&
     (match d1.2 with
      | c :: rest =>
          if c == '/' || c == '-' then
            let d2 := digitRun rest
            decide (1 ≤ d2.1.length ∧ d2.1.length ≤ 2) &&
            (match d2.2 with
             | c2 :: rest2 =>
                 (c2 == '/' || c2 == '-') &&
                 decide ((digitRun rest2).1.length ≥ 2)
             | [] => false)
          else false
      | [] => false)) then true
  else if
    -- `/^\d{1,2}:\d{2}\s*(am|pm)?$/i`
    (let d1 := digitRun s
     decide (1 ≤ d1.1.length ∧ d1.1.length ≤ 2) &&
     (match d1.2 with
      | ':' :: rest =>
          let d2 := digitRun rest
          decide (d2.1.length = 2) &&
          (let after := d2.2.dropWhile isSpaceJS
           after.isEmpty ||
           (match after.map Char.toLower with
            | ['a', 'm'] => true
            | ['p', 'm'] => true
            | _ => false))
      | _ => false)) then true
  else false

/-- `isLikelyLabelLine` (lines 232–240). -/
def isLikelyLabelLine (line : List Char) : Bool :=
  let low := line.map Char.toLower
  kwSubtotal low || kwTax low || kwTotal low || kwTip low

/-- `isLikelyItemNameLine` (lines 242–250). -/
def isLikelyItemNameLine (line : List Char) : Bool :=
  let s := trimSpaces line
  if s.isEmpty || isMetaLine s then false
  else if !(s.any Char.isAlpha) then false
  else if decide (1 ≤ s.length ∧ s.length ≤ 3) && s.all Char.isDigit then false
  else if isLikelyLabelLine s then false
  else if (parseMoneyFromLine s).isSome then false
  else true

/-- `detectScrambledLines` (lines 252–262). -/
def detectScrambledLines (lines : List (List Char)) : Bool :=
  let firstLabelIdx := (lines.findIdx? isLikelyLabelLine).getD lines.length
  let firstItemIdx := (lines.findIdx? isLikelyItemNameLine).getD lines.length
  decide (firstLabelIdx < firstItemIdx) && decide (firstItemIdx < lines.length)

/-- `sortScrambledLines` (lines 264–280): header, items, totals. -/
def sortScrambledLines (lines : List (List Char)) : List (List Char) :=
  let acc := lines.foldl (fun (acc : List (List Char) × List (List Char) × List (List Char)) line =>
    if isLikelyLabelLine line then (acc.1, acc.2.1, line :: acc.2.2)
    else if looksLikeAddress line || looksLikePhone line ||
        looksLikeReceiptMeta line || isMetaLine line then
      (line :: acc.1, acc.2.1, acc.2.2)
    else if isLikelyItemNameLine line then (acc.1, line :: acc.2.1, acc.2.2)
    else (acc.1, acc.2.1, line :: acc.2.2)) ([], [], [])
  acc.1.reverse ++ acc.2.1.reverse ++ acc.2.2.reverse

/-- `/^\d{1,2}$/` on a line. -/
def isQtyOnly (s : List Char) : Bool :=
  decide (1 ≤ s.length ∧ s.length ≤ 2) && s.all Char.isDigit

/-- `mergeQtyLines` (lines 289–303). -/
def mergeQtyLines : List (List Char) → List (List Char)
  | [] => []
  | [x] => [x]
  | x :: y :: rest =>
      if isQtyOnly x && isLikelyItemNameLine y then
        (x ++ ' ' :: y) :: mergeQtyLines rest
      else x :: mergeQtyLines (y :: rest)

/-- `/^(?:\W|_)+$/`: the whole line is non-word characters or underscores. -/
def isAllNonWord (s : List Char) : Bool :=
  !s.isEmpty && s.all (fun c => !(isWordC c) || c == '_')

/-- `findContentStartIndex` (lines 308–318). -/
def findContentStartIndex (lines : List (List Char)) : Nat :=
  let limit := min lines.length 40
  ((List.range limit).find? (fun i =>
    let line := lines.getD i []
    !line.isEmpty && !looksLikeReceiptMeta line && !isAllNonWord line &&
      decide ((trimSpaces line).length ≥ 3) && line.any Char.isAlpha)).getD 0

/-- A merchant candidate line inside `extractMerchantName`: non-meta,
non-money, length 3–48, with a letter. -/
def merchantCandidate (line : List Char) : Option (List Char) :=
  let cand := trimSpaces line
  if cand.isEmpty || isMetaLine cand then none
  else if (parseMoneyFromLine cand).isSome then none
  else if decide (3 ≤ cand.length ∧ cand.length ≤ 48) && cand.any Char.isAlpha
    then some cand
  else none

/-- The backward scan of `extractMerchantName`: `j` from `i-1` down to
`i-6` (and ≥ 0). -/
def merchantBackScan (lines : List (List Char)) (i : Nat) : Option (List Char) :=
  ((List.range 6).filterMap (fun back =>
    if back < i then merchantCandidate (lines.getD (i - 1 - back) [])
    else none)).head?

/-- `extractMerchantName` (lines 323–343). -/
def extractMerchantName (lines : List (List Char)) : Option (List Char) :=
  let firstLoop :=
    ((List.range (min lines.length 25)).filterMap (fun i =>
      if looksLikeAddress (lines.getD i []) then merchantBackScan lines i
      else none)).head?
  match firstLoop with
  | some m => some m
  | none =>
      ((lines.take 20).filterMap merchantCandidate).head?

/-! ### Transaction date (lines 345–361) -/

def monthNames : List String :=
  ["jan", "feb", "mar", "apr", "may", "jun", "jul", "aug", "sep", "sept",
   "oct", "nov", "dec"]

/-- `SLASH_RE` at one position: `\b\d{1,2}[\/\-]\d{1,2}[\/\-]\d{2,4}\b`;
returns the matched text. -/
def slashDateAt (prev : Option Char) (t : List Char) : Option (List Char) := do
  guard (jsBoundary prev t.head?)
  let d1 := digitRun t
  guard (1 ≤ d1.1.length ∧ d1.1.length ≤ 2)
  match d1.2 with
  | c :: rest =>
      guard (c == '/' || c == '-')
      let d2 := digitRun rest
      guard (1 ≤ d2.1.length ∧ d2.1.length ≤ 2)
      match d2.2 with
      | c2 :: rest2 =>
          guard (c2 == '/' || c2 == '-')
          let d3 := digitRun rest2
          guard (2 ≤ d3.1.length ∧ d3.1.length ≤ 4)
          guard (!(isWordO d3.2.head?))
          pure (d1.1 ++ c :: d2.1 ++ c2 :: d3.1)
      | [] => none
  | [] => none

/-- Month alternation with the rest of the pattern; returns
(matched month text, remaining suffix). -/
def matchMonth (t : List Char) (rest : List Char → Option (List Char)) :
    Option (List Char × List Char) :=
  monthNames.firstM (fun mon =>
    match matchPat (litTok mon) t with
    | some n =>
        match rest (t.drop n) with
        | some tail => some (t.take n, tail)
        | none => none
    | none => none)

/-- `MON_RE` at one position:
`\b\d{1,2}\s*-?\s*(jan|…|dec)\s*-?\s*\d{4}\b`; returns the matched text. -/
def monDateAt (prev : Option Char) (t : List Char) : Option (List Char) := do
  guard (jsBoundary prev t.head?)
  let d1 := digitRun t
  guard (1 ≤ d1.1.length ∧ d1.1.length ≤ 2)
  let s1 := spaceRun d1.2
  let (h1, afterH1) :=
    match s1.2 with
    | '-' :: r => (['-'], r)
    | _ => ([], s1.2)
  let s2 := spaceRun afterH1
  let m ← matchMonth s2.2 (fun r =>
    let s3 := spaceRun r
    let (h2, afterH2) :=
      match s3.2 with
      | '-' :: r2 => (['-'], r2)
      | _ => ([], s3.2)
    let s4 := spaceRun afterH2
    let d2 := digitRun s4.2
    if decide (d2.1.length = 4) && !(isWordO d2.2.head?) then
      some (s3.1 ++ h2 ++ s4.1 ++ d2.1)
    else none)
  pure (d1.1 ++ s1.1 ++ h1 ++ s2.1 ++ m.1 ++ m.2)

/-- `SPACE_MON_RE` at one position: `\b\d{1,2}\s+(jan|…|dec)\s+\d{4}\b`. -/
def spaceMonDateAt (prev : Option Char) (t : List Char) : Option (List Char) := do
  guard (jsBoundary prev t.head?)
  let d1 := digitRun t
  guard (1 ≤ d1.1.length ∧ d1.1.length ≤ 2)
  let s1 := spaceRun d1.2
  guard (s1.1.length ≥ 1)
  let m ← matchMonth s1.2 (fun r =>
    let s2 := spaceRun r
    if s2.1.length ≥ 1 then
      let d2 := digitRun s2.2
      if decide (d2.1.length = 4) && !(isWordO d2.2.head?) then
        some (s2.1 ++ d2.1)
      else none
    else none)
  pure (d1.1 ++ s1.1 ++ m.1 ++ m.2)

/-- Leftmost match of a positional matcher over a line. -/
def firstMatchAux (f : Option Char → List Char → Option (List Char)) :
    Option Char → List Char → Option (List Char)
  | _, [] => none
  | prev, c :: cs =>
      match f prev (c :: cs) with
      | some m => some m
      | none => firstMatchAux f (some c) cs

def firstMatch (f : Option Char → List Char → Option (List Char))
    (s : List Char) : Option (List Char) :=
  firstMatchAux f none s

/-- `extractTransactionDate` (lines 345–361): per line, try
`SPACE_MON_RE`, then `SLASH_RE`, then `MON_RE` (whose result has its
whitespace stripped). -/
def extractTransactionDate (lines : List (List Char)) : Option (List Char) :=
  (lines.filterMap (fun s =>
    match firstMatch spaceMonDateAt s with
    | some m => some m
    | none =>
        match firstMatch slashDateAt s with
        | some m => some m
        | none =>
            (firstMatch monDateAt s).map (fun m =>
              m.filter (fun c => !(isSpaceJS c))))).head?

/-! ### Totals extraction (`extractTotals`, lines 366–446) -/

structure MoneyVal where
  idx : Nat
  val : ℚ
deriving Repr, DecidableEq

structure TotalsOut where
  subtotal : Option ℚ
  tax : Option ℚ
  tip : Option ℚ
  total : Option ℚ
deriving Repr, DecidableEq

/-- The positive money values found per line
(`Number(v.toFixed(2))` is `round2`). -/
def moneyValsOf (lines : List (List Char)) : List MoneyVal :=
  (List.range lines.length).filterMap (fun i =>
    match parseMoneyFromLine (lines.getD i []) with
    | some v => if v > 0 then some ⟨i, round2 v⟩ else none
    | none => none)

/-- `findKeywordIdx`: index of the first line matching a keyword family. -/
def findKeywordIdx (kw : List Char → Bool) (lines : List (List Char)) :
    Option Nat :=
  lines.findIdx? kw

/-- `moneyOnLine`. -/
def moneyOnLine (lines : List (List Char)) : Option Nat → Option ℚ
  | none => none
  | some idx =>
      if idx < lines.length then (parseMoneyFromLine (lines.getD idx [])).map round2
      else none

/-- `firstMoneyAfter(kIdx, maxLook = 8)`. -/
def firstMoneyAfter (moneyVals : List MoneyVal) : Option Nat → Option ℚ
  | none => none
  | some kIdx =>
      ((moneyVals.filter (fun m => kIdx < m.idx && m.idx ≤ kIdx + 8)).map
        MoneyVal.val).head?

/-- `if (subtotal === null && total !== null) { maybe … }`. -/
def extractTotalsFallback (subtotal0 tax0 tip0 total1 : Option ℚ) : TotalsOut :=
  match subtotal0, total1 with
  | none, some t =>
      let maybe := t - (tax0.getD 0) - (tip0.getD 0)
      if maybe > 0 then ⟨some (round2 maybe), tax0, tip0, total1⟩
      else ⟨none, tax0, tip0, total1⟩
  | s, t => ⟨s, tax0, tip0, t⟩

/-- The `last4` decomposition and final fallback of `extractTotals`
(lines 422–445). -/
def extractTotalsLast4 (lines : List (List Char)) (moneyVals : List MoneyVal)
    (subtotal0 tax0 tip0 total1 : Option ℚ) : TotalsOut :=
  let tail := (moneyVals.drop (moneyVals.length - 10)).map MoneyVal.val
  let last4 := tail.drop (tail.length - 4)
  match last4 with
  | [a, b, c, d] =>
      if |d - (total1.getD 0)| ≤ 3 / 100 ∧ |a + b + c - d| ≤ 5 / 100 then
        let hasFee := lines.any kwTip
        let hasTax := lines.any kwTax
        if hasFee && hasTax then
          ⟨some (subtotal0.getD a), some (tax0.getD c), some (tip0.getD b),
            total1⟩
        else
          ⟨some (subtotal0.getD a), some (tax0.getD b), some (tip0.getD c),
            total1⟩
      else extractTotalsFallback subtotal0 tax0 tip0 total1
  | _ => extractTotalsFallback subtotal0 tax0 tip0 total1

/-- `extractTotals`. -/
def extractTotals (lines : List (List Char)) : TotalsOut :=
  let moneyVals := moneyValsOf lines
  if moneyVals.isEmpty then ⟨none, none, none, none⟩
  else
    let subtotalIdx := findKeywordIdx kwSubtotal lines
    let taxIdx := findKeywordIdx kwTax lines
    let tipIdx := findKeywordIdx kwTip lines
    let totalIdx := findKeywordIdx kwTotal lines
    let total0 := (moneyOnLine lines totalIdx).orElse
      (fun _ => firstMoneyAfter moneyVals totalIdx)
    let subtotal0 := (moneyOnLine lines subtotalIdx).orElse
      (fun _ => firstMoneyAfter moneyVals subtotalIdx)
    let tax0 := (moneyOnLine lines taxIdx).orElse
      (fun _ => firstMoneyAfter moneyVals taxIdx)
    let tip0 := (moneyOnLine lines tipIdx).orElse
      (fun _ => firstMoneyAfter moneyVals tipIdx)
    let tail := (moneyVals.drop (moneyVals.length - 10)).map MoneyVal.val
    let total1 :=
      match total0, tail with
      | none, t :: ts => some (ts.foldl max t)
      | t, _ => t
    let last3 := tail.drop (tail.length - 3)
    match last3 with
    | [a, b, c] =>
        if |c - (total1.getD 0)| ≤ 3 / 100 ∧ |a + b - c| ≤ 5 / 100 then
          ⟨some (subtotal0.getD a), some (tax0.getD b), tip0, total1⟩
        else
          extractTotalsLast4 lines moneyVals subtotal0 tax0 tip0 total1
    | _ => extractTotalsLast4 lines moneyVals subtotal0 tax0 tip0 total1

/-! ### Items extraction (`extractItems`, lines 451–526) -/

structure ReceiptItem where
  name : List Char
  price : ℚ
deriving Repr, DecidableEq

/-- `isGoodItemName` (lines 451–463). -/
def isGoodItemName (line : List Char) : Bool :=
  let s := trimSpaces line
  if s.isEmpty then false
  else if isMetaLine s then false
  else if looksLikeReceiptMeta s then false
  else if looksLikeAddress s then false
  else if ["subtotal", "tax", "total", "balance due", "amount due", "debit",
      "credit", "visa", "mastercard", "amex", "discover"].any
      (fun w => searchPat true true (litTok w) s) then false
  else if looksLikeSurveyOrPromo s then false
  else if s.any (fun c => c == '?') then false
  else if !(s.any Char.isAlpha) then false
  else if decide (s.length < 3 ∨ s.length > 64) then false
  else true

/-- `lastIndexOf` on the tail values. -/
def lastIdxOf (l : List ℚ) (v : ℚ) : Option Nat :=
  ((List.range l.length).filter (fun i => l.getD i 0 = v)).getLast?

/-- De-duplication by `(lowercased name, price.toFixed(2))`, keeping
first occurrences (lines 519–525). -/
def dedupeItems (items : List ReceiptItem) : List ReceiptItem :=
  (items.foldl (fun (acc : List ReceiptItem × List (List Char × ℚ)) it =>
    let key := (it.name.map Char.toLower, round2 it.price)
    if acc.2.contains key then acc
    else (acc.1 ++ [it], key :: acc.2)) ([], [])).1

/-- `extractItems`. -/
def extractItems (lines : List (List Char)) : List ReceiptItem :=
  let totals := extractTotals lines
  let subtotalVal : Option ℚ :=
    match totals.subtotal with
    | some s => if s = 0 then none else some (round2 s)
    | none => none
  let money := moneyValsOf lines
  if money.isEmpty then []
  else
    let tailMoney := money.drop (money.length - 12)
    let firstTailIdx := (tailMoney.head?.map MoneyVal.idx).getD 0
    let subtotalKeywordIdx := lines.findIdx? kwSubtotal
    let nameEndIdx :=
      match subtotalKeywordIdx with
      | some k => min firstTailIdx k
      | none => firstTailIdx
    let nameArea := lines.take nameEndIdx
    let names := (nameArea.filter isGoodItemName).map trimSpaces
    if names.isEmpty then []
    else
      let tailVals := tailMoney.map MoneyVal.val
      let cutoff :=
        match subtotalVal with
        | some sv =>
            match lastIdxOf tailVals sv with
            | some subIdx => subIdx
            | none => tailVals.length
        | none => tailVals.length
      let itemPrices := (tailVals.take cutoff).filter (fun v => v ≥ 5 / 100)
      let n := min names.length itemPrices.length
      if n = 0 then []
      else
        let namesToUse :=
          if names.length = n then names else names.drop (names.length - n)
        let items := (List.range n).filterMap (fun i =>
          let name := namesToUse.getD i []
          let price := itemPrices.getD i 0
          if !name.isEmpty && price > 0 then some (ReceiptItem.mk name price)
          else none)
        dedupeItems items

/-! ### Confidence scoring (`scoreParse`, lines 531–553) and main parser -/

structure ParsedReceipt where
  merchantName : Option (List Char)
  transactionDate : Option (List Char)
  items : List ReceiptItem
  subtotal : ℚ
  tax : ℚ
  tip : ℚ
  total : ℚ
  rawLineCount : Nat
  parsedLineCount : Nat
  confidence : ℚ
  warnings : List String
  source : String
deriving Repr, DecidableEq

/-- `diff.toFixed(2)` for the mismatch warning text. -/
def qToFixed2Str (q : ℚ) : String :=
  let n := round (100 * q)
  let fmt : Nat → String := fun m =>
    toString (m / 100) ++ "." ++
      (if m % 100 < 10 then "0" ++ toString (m % 100) else toString (m % 100))
  if n < 0 then "-" ++ fmt (-n).toNat else fmt n.toNat

/-- `scoreParse`: weighted presence score and warnings. -/
def scoreParse (r : ParsedReceipt) : ℚ × List String :=
  let score : ℚ :=
    (if r.merchantName.isSome then 2 / 10 else 0) +
    (if r.total > 0 then 35 / 100 else 0) +
    (if r.subtotal > 0 then 15 / 100 else 0) +
    (if !r.items.isEmpty then 25 / 100 else 0) +
    (if r.tax > 0 then 5 / 100 else 0) +
    (if r.tip > 0 then 5 / 100 else 0)
  let scoreAndWarn : ℚ × List String :=
    if r.total ≠ 0 ∧ r.subtotal ≠ 0 then
      let expected := r.subtotal + r.tax + r.tip
      let diff := |expected - r.total|
      if diff ≤ 6 / 100 then (score + 1 / 10, [])
      else (score, ["Totals mismatch ($" ++ qToFixed2Str diff ++ ")"])
    else (score, [])
  let warnings := scoreAndWarn.2 ++
    (if r.items.isEmpty then ["No items detected."] else []) ++
    (if r.total = 0 then ["No total detected."] else [])
  (min 1 (max 0 scoreAndWarn.1), warnings)

/-- `parseReceiptRuleBased` (lines 558–605). -/
def parseReceiptRuleBased (rawText : String) : ParsedReceipt :=
  let lines0 := normalizeReceiptText rawText
  let lines1 :=
    if detectScrambledLines lines0 then sortScrambledLines lines0 else lines0
  let lines := mergeQtyLines lines1
  let startIdx := findContentStartIndex lines
  let lastMoneyIdx :=
    (((List.range lines.length).reverse.find? (fun i =>
      (parseMoneyFromLine (lines.getD i [])).isSome ||
        isMoneyOnly (lines.getD i []))).getD (lines.length - 1))
  let safeEnd := max startIdx (lastMoneyIdx + 1)
  let mainLines := (lines.take safeEnd).drop startIdx
  let merchantName := extractMerchantName mainLines
  let transactionDate := extractTransactionDate lines
  let totals := extractTotals mainLines
  let items := extractItems mainLines
  let base : ParsedReceipt :=
    { merchantName := merchantName
      transactionDate := transactionDate
      items := items
      subtotal := totals.subtotal.getD 0
      tax := totals.tax.getD 0
      tip := totals.tip.getD 0
      total := totals.total.getD 0
      rawLineCount := lines.length
      parsedLineCount := mainLines.length
      confidence := 0
      warnings := []
      source := "rules" }
  let cw := scoreParse base
  { base with confidence := cw.1, warnings := cw.2 }

/-- The OCR text of spec scenario 6 (claim C9). -/
def c9Input : String :=
  "Pizza  $10.99\nSoda  $2.50\nSubtotal  $13.49\nTax  $1.20\nTotal  $14.69"

/-! # Theorems -/

attribute [local semireducible] Rat.add Rat.mul Rat.sub Rat.inv in
/-- C7: for the itemized expense with one item of price 10.00 assigned to
A, B, C in order and tax 0.05 with no tip, the engine produces per-user item
subtotals 334/333/333 cents (extra cent to the first assignee), tax
allocations 2/2/1 cents (largest remainder to A then B), and final shares
3.36/3.35/3.34 summing to the total 10.05. -/
theorem claim_C7 :
    accumulateItems [ItemInput.mk "Bread" 10 ["A", "B", "C"]] [] =
      [("A", 334), ("B", 333), ("C", 333)] ∧
    allocateProportionally [("A", 334), ("B", 333), ("C", 333)] 5 =
      [("A", 2), ("B", 2), ("C", 1)] ∧
    createExpenseItemized ["A", "B", "C"] "A"
        (ItemizedPayload.mk "Bread run" (some (5 / 100)) none
          [ItemInput.mk "Bread" 10 ["A", "B", "C"]]) =
      some (Expense.mk "A" "Bread run" (1005 / 100) 10 (5 / 100) 0 (1005 / 100)
        [SplitRow.mk "A" (336 / 100), SplitRow.mk "B" (335 / 100),
         SplitRow.mk "C" (334 / 100)]) ∧
    (336 : ℚ) / 100 + 335 / 100 + 334 / 100 = 1005 / 100 := by
  decide

unseal scanRepl scanCollect in
attribute [local semireducible] Rat.add Rat.mul Rat.sub Rat.inv in
/-- C9 (counterexample): on the scenario-6 OCR input the rule-based parser
does not return the claimed result: the items list is empty rather than
[Pizza 10.99, Soda 2.50], confidence is below 0.8 and a warning is raised. -/
theorem claim_C9_counterexample :
    ¬ ((parseReceiptRuleBased c9Input).items =
        [ReceiptItem.mk "Pizza".data (1099 / 100),
         ReceiptItem.mk "Soda".data (250 / 100)] ∧
       (parseReceiptRuleBased c9Input).confidence ≥ 8 / 10 ∧
       (parseReceiptRuleBased c9Input).warnings = []) := by
  decide

unseal scanRepl scanCollect in
attribute [local semireducible] Rat.add Rat.mul Rat.sub Rat.inv in
/-- C9 (amended): on the scenario-6 OCR input the parser finds the totals
(subtotal 13.49, tax 1.20, tip 0, total 14.69) but NO items — item names
sharing a line with their price are never extracted — so it returns an empty
items list, confidence 0.65 and the warning "No items detected.". -/
theorem claim_C9_amended :
    (parseReceiptRuleBased c9Input).items = [] ∧
    (parseReceiptRuleBased c9Input).subtotal = 1349 / 100 ∧
    (parseReceiptRuleBased c9Input).tax = 120 / 100 ∧
    (parseReceiptRuleBased c9Input).tip = 0 ∧
    (parseReceiptRuleBased c9Input).total = 1469 / 100 ∧
    (parseReceiptRuleBased c9Input).confidence = 13 / 20 ∧
    (parseReceiptRuleBased c9Input).warnings = ["No items detected."] := by
  decide

attribute [local semireducible] Rat.add Rat.mul Rat.sub Rat.inv in
/-- C1 (counterexample): the simple-split expense with amount 1.00 and
shares 0.334/0.333/0.333 is accepted (the unrounded shares sum to 1.00) but
persists split rows of 0.33 each, summing to 0.99 against a persisted total
of 1.00 — the difference is a full cent, not 0. -/
theorem claim_C1_counterexample :
    ((createExpenseSimple ["p", "u1", "u2", "u3"] "p"
        (SimplePayload.mk "t" 1
          [SplitInput.mk "u1" (334 / 1000), SplitInput.mk "u2" (333 / 1000),
           SplitInput.mk "u3" (333 / 1000)])).map
      (fun e => ((e.splits.map SplitRow.share).sum, e.total))) =
      some (99 / 100, 1) ∧ (99 : ℚ) / 100 ≠ 1 := by
  decide

/-- C2 (counterexample): with a single zero weight and pool 5 the allocator
assigns 0, so the output sum is 0, not the pool — the claimed unconditional
sum-equals-pool guarantee fails when all weights are zero and the pool is
positive. -/
theorem claim_C2_counterexample :
    allocateProportionally [("u", 0)] 5 = [("u", 0)] ∧
    ((allocateProportionally [("u", 0)] 5).map Prod.snd).sum = 0 ∧
    (0 : ℤ) ≠ 5 := by
  decide

attribute [local semireducible] Rat.add Rat.mul Rat.sub Rat.inv in
/-- C8 (counterexample): the simple-split path performs no membership check
on split user ids: a payload naming `x`, not a member of the one-member trip
`["p"]`, is accepted and the split row for `x` is persisted. -/
theorem claim_C8_counterexample :
    ((createExpenseSimple ["p"] "p"
        (SimplePayload.mk "t" 5 [SplitInput.mk "x" 5])).map
      (fun e => e.splits)) = some [SplitRow.mk "x" 5] ∧
    "x" ∉ ["p"] := by
  decide

attribute [local semireducible] Rat.add Rat.mul Rat.sub Rat.inv in
/-- C4 (counterexample): a reachable state — one accepted simple-split
expense of amount 1.00 with persisted shares 0.33/0.33/0.33 — has per-user
balances summing to +0.01, not 0. -/
theorem claim_C4_counterexample :
    Reachable [] (TripState.mk ["p", "u1", "u2", "u3"]
      [Expense.mk "p" "t" 1 0 0 0 1
        [SplitRow.mk "u1" (33 / 100), SplitRow.mk "u2" (33 / 100),
         SplitRow.mk "u3" (33 / 100)]] []) ∧
    ((tripBalances (TripState.mk ["p", "u1", "u2", "u3"]
      [Expense.mk "p" "t" 1 0 0 0 1
        [SplitRow.mk "u1" (33 / 100), SplitRow.mk "u2" (33 / 100),
         SplitRow.mk "u3" (33 / 100)]] [])).map Prod.snd).sum = 1 / 100 ∧
    (1 : ℚ) / 100 ≠ 0 := by
  refine ⟨?_, by decide, by norm_num⟩
  exact Reachable.expense (TripState.mk ["p", "u1", "u2", "u3"] [] []) "p"
    (ExpensePayload.simple (SimplePayload.mk "t" 1
      [SplitInput.mk "u1" (334 / 1000), SplitInput.mk "u2" (333 / 1000),
       SplitInput.mk "u3" (333 / 1000)]))
    (Expense.mk "p" "t" 1 0 0 0 1
      [SplitRow.mk "u1" (33 / 100), SplitRow.mk "u2" (33 / 100),
       SplitRow.mk "u3" (33 / 100)])
    (Reachable.init ["p", "u1", "u2", "u3"]) (by decide)

/-! ### Allocator lemmas -/

theorem insertRemDesc_perm (x : RawAlloc) (l : List RawAlloc) :
    (insertRemDesc x l).Perm (x :: l) := by
  induction l with
  | nil => simp [insertRemDesc]
  | cons y ys ih =>
      simp only [insertRemDesc]
      split
      · exact List.Perm.refl _
      · exact (ih.cons y).trans (List.Perm.swap x y ys)

theorem sortRemDesc_perm_aux (l : List RawAlloc) :
    ∀ acc : List RawAlloc,
      (l.foldl (fun a x => insertRemDesc x a) acc).Perm (acc ++ l) := by
  induction l with
  | nil => intro acc; simp
  | cons x xs ih =>
      intro acc
      simp only [List.foldl_cons]
      refine (ih (insertRemDesc x acc)).trans ?_
      refine ((insertRemDesc_perm x acc).append_right xs).trans ?_
      simpa using List.perm_middle.symm

theorem sortRemDesc_perm (l : List RawAlloc) : (sortRemDesc l).Perm l := by
  simpa using sortRemDesc_perm_aux l []

theorem distributeRemaining_keys (r : ℤ) (l : List RawAlloc) :
    (distributeRemaining r l).1.map Prod.fst = l.map RawAlloc.userId := by
  induction l generalizing r with
  | nil => simp [distributeRemaining]
  | cons x xs ih => simp [distributeRemaining, ih]

theorem distributeRemaining_sum (r : ℤ) (l : List RawAlloc) :
    ((distributeRemaining r l).1.map Prod.snd).sum =
      (l.map RawAlloc.flr).sum + (r - (distributeRemaining r l).2) := by
  induction l generalizing r with
  | nil => simp [distributeRemaining]
  | cons x xs ih =>
      simp only [distributeRemaining, List.map_cons, List.sum_cons]
      rw [ih]
      ring

theorem distributeRemaining_snd_eq_zero (r : ℤ) (l : List RawAlloc)
    (h0 : 0 ≤ r) (h1 : r ≤ l.length) : (distributeRemaining r l).2 = 0 := by
  induction l generalizing r with
  | nil =>
      simp only [distributeRemaining]
      simp only [List.length_nil, Nat.cast_zero] at h1
      omega
  | cons x xs ih =>
      simp only [distributeRemaining]
      by_cases hr : r > 0
      · simp only [hr, if_pos]
        refine ih (r - 1) (by omega) ?_
        simp only [List.length_cons, Nat.cast_add, Nat.cast_one] at h1 ⊢
        omega
      · simp only [hr, if_neg, not_false_iff]
        refine ih (r - 0) (by omega) ?_
        simp only [List.length_cons] at h1 ⊢
        push_cast at h1 ⊢
        omega

theorem distributeRemaining_mem (r : ℤ) (l : List RawAlloc) :
    ∀ e ∈ (distributeRemaining r l).1,
      ∃ a ∈ l, e.1 = a.userId ∧ (e.2 = a.flr ∨ e.2 = a.flr + 1) := by
  induction l generalizing r with
  | nil => simp [distributeRemaining]
  | cons x xs ih =>
      intro e he
      simp only [distributeRemaining, List.mem_cons] at he
      rcases he with rfl | he
      · refine ⟨x, List.mem_cons_self x xs, rfl, ?_⟩
        by_cases hr : r > 0
        · simp [hr]
        · simp [hr]
      · obtain ⟨a, ha, h1, h2⟩ := ih _ e he
        exact ⟨a, List.mem_cons_of_mem x ha, h1, h2⟩

theorem sum_floor_le (qs : List ℚ) :
    (((qs.map (fun q => ⌊q⌋)).sum : ℤ) : ℚ) ≤ qs.sum := by
  induction qs with
  | nil => simp
  | cons q rest ih =>
      simp only [List.map_cons, List.sum_cons, Int.cast_add]
      exact add_le_add (Int.floor_le q) ih

theorem sum_lt_floor_add_length (qs : List ℚ) (h : qs ≠ []) :
    qs.sum < (((qs.map (fun q => ⌊q⌋)).sum : ℤ) : ℚ) + qs.length := by
  induction qs with
  | nil => exact absurd rfl h
  | cons q rest ih =>
      simp only [List.map_cons, List.sum_cons, List.length_cons, Int.cast_add,
        Nat.cast_add, Nat.cast_one]
      rcases eq_or_ne rest [] with rfl | hne
      · simpa using Int.lt_floor_add_one q
      · have ihr := ih hne
        have hq := Int.lt_floor_add_one q
        linarith

theorem sum_div_const (entries : List (String × ℤ)) (alloc : ℤ) (T : ℚ) :
    ((entries.map (fun e => ((alloc * e.2 : ℤ) : ℚ) / T)).sum) =
      ((alloc : ℚ) * (((entries.map Prod.snd).sum : ℤ) : ℚ)) / T := by
  induction entries with
  | nil => simp
  | cons x xs ih =>
      simp only [List.map_cons, List.sum_cons, ih]
      push_cast
      ring

theorem map_fst_zero_keys (l : List (String × ℤ)) :
    (l.map (fun e => (e.1, (0 : ℤ)))).map Prod.fst = l.map Prod.fst := by
  induction l with
  | nil => rfl
  | cons x xs ih => simpa using ih

theorem map_snd_zero_sum (l : List (String × ℤ)) :
    ((l.map (fun e => (e.1, (0 : ℤ)))).map Prod.snd).sum = 0 := by
  induction l with
  | nil => rfl
  | cons x xs ih => simpa using ih

/-- C2 (amended): for non-negative weights and a non-negative pool the
allocator returns exactly the input keys with non-negative values; the
output sum equals the pool whenever the weight sum is non-zero (or the pool
is 0); and when the pool is 0 or the weight sum is 0 every key is assigned 0
(so for a positive pool with all-zero weights the output sums to 0, not to
the pool). -/
theorem claim_C2_amended (entries : List (String × ℤ)) (pool : ℤ)
    (hpool : 0 ≤ pool) (hw : ∀ e ∈ entries, 0 ≤ e.2) :
    ((allocateProportionally entries pool).map Prod.fst).Perm
      (entries.map Prod.fst) ∧
    (∀ e ∈ allocateProportionally entries pool, 0 ≤ e.2) ∧
    (((entries.map Prod.snd).sum ≠ 0 ∨ pool = 0) →
      ((allocateProportionally entries pool).map Prod.snd).sum = pool) ∧
    ((pool = 0 ∨ (entries.map Prod.snd).sum = 0) →
      ∀ e ∈ allocateProportionally entries pool, e.2 = 0) := by
  by_cases hz : pool = 0 ∨ (entries.map Prod.snd).sum = 0
  · refine ⟨?_, ?_, ?_, ?_⟩ <;>
      simp only [allocateProportionally, if_pos hz]
    · rw [map_fst_zero_keys]
    · intro e he
      obtain ⟨a, _, rfl⟩ := List.mem_map.mp he
      exact le_refl _
    · intro hc
      rw [map_snd_zero_sum]
      rcases hz with rfl | hT0
      · rfl
      · rcases hc with hT | rfl
        · exact absurd hT0 hT
        · rfl
    · intro _ e he
      obtain ⟨a, _, rfl⟩ := List.mem_map.mp he
      rfl
  · have hp0 : pool ≠ 0 := fun h => hz (Or.inl h)
    have hT0 : (entries.map Prod.snd).sum ≠ 0 := fun h => hz (Or.inr h)
    have hne : entries ≠ [] := by
      rintro rfl
      simp at hT0
    have hsum_nn : 0 ≤ (entries.map Prod.snd).sum := by
      apply List.sum_nonneg
      intro x hx
      simp only [List.mem_map] at hx
      obtain ⟨a, ha, rfl⟩ := hx
      exact hw a ha
    have hTpos : 0 < (entries.map Prod.snd).sum :=
      lt_of_le_of_ne hsum_nn (Ne.symm hT0)
    simp only [allocateProportionally, if_neg hz]
    set raw : List RawAlloc := entries.map (fun e =>
      RawAlloc.mk e.1 ⌊((pool * e.2 : ℤ) : ℚ) / (((entries.map Prod.snd).sum : ℤ) : ℚ)⌋
        (((pool * e.2 : ℤ) : ℚ) / (((entries.map Prod.snd).sum : ℤ) : ℚ) -
          ⌊((pool * e.2 : ℤ) : ℚ) / (((entries.map Prod.snd).sum : ℤ) : ℚ)⌋)) with hraw
    set used : ℤ := (raw.map RawAlloc.flr).sum with hused
    set remaining : ℤ := pool - used with hrem
    set sorted : List RawAlloc := sortRemDesc raw with hsorted
    have hqs : (entries.map (fun e =>
        ((pool * e.2 : ℤ) : ℚ) / (((entries.map Prod.snd).sum : ℤ) : ℚ))).sum = (pool : ℚ) := by
      rw [sum_div_const]
      rw [div_eq_iff (by exact_mod_cast hT0)]
    -- floor bounds transported to raw
    have hflr : (raw.map RawAlloc.flr) = (entries.map (fun e =>
        ((pool * e.2 : ℤ) : ℚ) / (((entries.map Prod.snd).sum : ℤ) : ℚ))).map (fun q => ⌊q⌋) := by
      rw [hraw]
      simp [List.map_map, Function.comp]
    have hused_le : (used : ℚ) ≤ (pool : ℚ) := by
      rw [hused, hflr, ← hqs]
      exact sum_floor_le _
    have hpool_lt : (pool : ℚ) < (used : ℚ) + entries.length := by
      rw [hused, hflr, ← hqs]
      have := sum_lt_floor_add_length (entries.map (fun e =>
        ((pool * e.2 : ℤ) : ℚ) / (((entries.map Prod.snd).sum : ℤ) : ℚ)))
        (by simpa using hne)
      simpa using this
    have hrem_nonneg : 0 ≤ remaining := by
      rw [hrem]
      have : (used : ℚ) ≤ (pool : ℚ) := hused_le
      exact_mod_cast sub_nonneg.mpr (by exact_mod_cast this)
    have hsorted_len : sorted.length = entries.length := by
      rw [hsorted]
      rw [(sortRemDesc_perm raw).length_eq]
      rw [hraw, List.length_map]
    have hrem_le : remaining ≤ (sorted.length : ℤ) := by
      rw [hsorted_len, hrem]
      have : (pool : ℚ) - (used : ℚ) < entries.length := by linarith
      have h2 : pool - used < (entries.length : ℤ) := by exact_mod_cast this
      omega
    have hrem0 : (distributeRemaining remaining sorted).2 = 0 :=
      distributeRemaining_snd_eq_zero remaining sorted hrem_nonneg hrem_le
    simp only [hrem0, ne_eq, not_true_eq_false, if_false, not_false_eq_true]
    refine ⟨?_, ?_, ?_, ?_⟩
    · -- keys
      have hk := distributeRemaining_keys remaining sorted
      rw [hk]
      have hperm := (sortRemDesc_perm raw).map RawAlloc.userId
      rw [← hsorted] at hperm
      refine hperm.trans ?_
      rw [hraw, List.map_map]
      exact List.Perm.refl _
    · -- non-negativity
      intro e he
      obtain ⟨a, ha, hfst, hsnd⟩ := distributeRemaining_mem remaining sorted e he
      have haraw : a ∈ raw := (sortRemDesc_perm raw).mem_iff.mp (hsorted ▸ ha)
      rw [hraw] at haraw
      simp only [List.mem_map] at haraw
      obtain ⟨en, hen, rfl⟩ := haraw
      have hfl : 0 ≤ ⌊((pool * en.2 : ℤ) : ℚ) / (((entries.map Prod.snd).sum : ℤ) : ℚ)⌋ := by
        apply Int.floor_nonneg.mpr
        apply div_nonneg
        · exact_mod_cast mul_nonneg hpool (hw en hen)
        · exact_mod_cast le_of_lt hTpos
      rcases hsnd with h | h
      · rw [h]
        exact hfl
      · rw [h]
        exact add_nonneg hfl zero_le_one
    · -- sum = pool
      intro _
      rw [distributeRemaining_sum, hrem0]
      have hsum_eq : (sorted.map RawAlloc.flr).sum = used := by
        rw [hused, hsorted]
        exact ((sortRemDesc_perm raw).map RawAlloc.flr).sum_eq
      rw [hsum_eq, hrem]
      ring
    · -- all-zero clause is vacuous here
      intro hcontra
      exact absurd hcontra hz

/-- Witness for C2 (amended) at a concrete input. -/
theorem claim_C2_amended_witness :
    ((0 : ℤ) ≤ 10 ∧ ∀ e ∈ [("a", (1 : ℤ)), ("b", 2)], 0 ≤ e.2) ∧
    (((allocateProportionally [("a", 1), ("b", 2)] 10).map Prod.fst).Perm
        ([("a", (1 : ℤ)), ("b", 2)].map Prod.fst) ∧
      (∀ e ∈ allocateProportionally [("a", 1), ("b", 2)] 10, 0 ≤ e.2) ∧
      ((([("a", (1 : ℤ)), ("b", 2)].map Prod.snd).sum ≠ 0 ∨ (10 : ℤ) = 0) →
        ((allocateProportionally [("a", 1), ("b", 2)] 10).map Prod.snd).sum = 10) ∧
      (((10 : ℤ) = 0 ∨ ([("a", (1 : ℤ)), ("b", 2)].map Prod.snd).sum = 0) →
        ∀ e ∈ allocateProportionally [("a", 1), ("b", 2)] 10, e.2 = 0)) :=
  ⟨⟨by decide, by decide⟩,
   claim_C2_amended [("a", 1), ("b", 2)] 10 (by decide) (by decide)⟩

/-! ### Money lemmas -/

theorem round2_fromCents (k : ℤ) : round2 (fromCents k) = fromCents k := by
  unfold round2 fromCents
  have h : (100 : ℚ) * ((k : ℚ) / 100) = (k : ℚ) := by ring
  rw [h, round_intCast]

theorem toCents_fromCents (k : ℤ) : toCents (fromCents k) = k := by
  unfold toCents fromCents
  have h : (100 : ℚ) * ((k : ℚ) / 100) = (k : ℚ) := by ring
  rw [h, round_intCast]

theorem round2_eq_fromCents (q : ℚ) :
    round2 q = fromCents (round (100 * q)) := rfl

theorem toCents_round2 (q : ℚ) : toCents (round2 q) = round (100 * q) := by
  rw [round2_eq_fromCents, toCents_fromCents]

theorem fromCents_toCents_round2 (q : ℚ) :
    fromCents (toCents (round2 q)) = round2 q := by
  rw [toCents_round2, round2_eq_fromCents]

theorem round2_of_isCents {q : ℚ} (h : IsCents q) : round2 q = q := by
  obtain ⟨k, rfl⟩ := h
  exact round2_fromCents k

theorem fromCents_add (a b : ℤ) :
    fromCents (a + b) = fromCents a + fromCents b := by
  unfold fromCents
  push_cast
  ring

/-- Summation of `round2`-ed shares when every share is a whole number of
cents: the persisted values sum to the cent total. -/
theorem splits_cents_sum (l : List SplitRow)
    (h : ∀ s ∈ l, ∃ k : ℤ, s.share = fromCents k) :
    (l.map (fun s => round2 s.share)).sum =
      fromCents ((l.map (fun s => toCents s.share)).sum) := by
  induction l with
  | nil => simp [fromCents]
  | cons s rest ih =>
      obtain ⟨k, hk⟩ := h s (List.mem_cons_self s rest)
      simp only [List.map_cons, List.sum_cons]
      rw [ih (fun t ht => h t (List.mem_cons_of_mem s ht)), hk,
        round2_fromCents, toCents_fromCents, fromCents_add]

/-! ### Itemized split-sum lemmas -/

theorem insertSubDesc_perm (m : List (String × ℤ)) (x : SplitRow)
    (l : List SplitRow) : (insertSubDesc m x l).Perm (x :: l) := by
  induction l with
  | nil => simp [insertSubDesc]
  | cons y ys ih =>
      simp only [insertSubDesc]
      split
      · exact List.Perm.refl _
      · exact (ih.cons y).trans (List.Perm.swap x y ys)

theorem sortSplitsBySubDesc_perm_aux (m : List (String × ℤ))
    (l : List SplitRow) :
    ∀ acc : List SplitRow,
      (l.foldl (fun a x => insertSubDesc m x a) acc).Perm (acc ++ l) := by
  induction l with
  | nil => intro acc; simp
  | cons x xs ih =>
      intro acc
      simp only [List.foldl_cons]
      refine (ih (insertSubDesc m x acc)).trans ?_
      refine ((insertSubDesc_perm m x acc).append_right xs).trans ?_
      simpa using List.perm_middle.symm

theorem sortSplitsBySubDesc_perm (m : List (String × ℤ)) (l : List SplitRow) :
    (sortSplitsBySubDesc m l).Perm l := by
  simpa using sortSplitsBySubDesc_perm_aux m l []

theorem mapSet_length_pos (m : List (String × ℤ)) (u : String) (v : ℤ) :
    0 < (mapSet m u v).length := by
  cases m with
  | nil => simp [mapSet]
  | cons e rest =>
      simp only [mapSet]
      split <;> simp

theorem mapSet_length_ge (m : List (String × ℤ)) (u : String) (v : ℤ) :
    m.length ≤ (mapSet m u v).length := by
  induction m with
  | nil => simp [mapSet]
  | cons e rest ih =>
      simp only [mapSet]
      split
      · simp
      · simpa using ih

theorem distributeItemShares_length_ge (base : ℤ) (us : List String) :
    ∀ (r : ℤ) (m : List (String × ℤ)),
      m.length ≤ (distributeItemShares base us r m).length := by
  induction us with
  | nil => intro r m; simp [distributeItemShares]
  | cons u rest ih =>
      intro r m
      simp only [distributeItemShares]
      exact le_trans (mapSet_length_ge m u _) (ih _ _)

theorem distributeItemShares_length_pos (base : ℤ) (u : String)
    (us : List String) (r : ℤ) (m : List (String × ℤ)) :
    0 < (distributeItemShares base (u :: us) r m).length := by
  simp only [distributeItemShares]
  exact lt_of_lt_of_le (mapSet_length_pos m u _)
    (distributeItemShares_length_ge _ us _ _)

theorem accumulateItems_length_ge (its : List ItemInput) :
    ∀ m : List (String × ℤ), m.length ≤ (accumulateItems its m).length := by
  induction its with
  | nil => intro m; simp [accumulateItems]
  | cons it rest ih =>
      intro m
      simp only [accumulateItems]
      exact le_trans (distributeItemShares_length_ge _ _ _ _) (ih _)

theorem accumulateItems_ne_nil (it : ItemInput) (its : List ItemInput)
    (h : it.assignedUserIds ≠ []) : accumulateItems (it :: its) [] ≠ [] := by
  have hlen : 0 < (accumulateItems (it :: its) []).length := by
    simp only [accumulateItems]
    refine lt_of_lt_of_le ?_ (accumulateItems_length_ge its _)
    cases hus : it.assignedUserIds with
    | nil => exact absurd hus h
    | cons u us => exact distributeItemShares_length_pos _ _ _ _ _
  intro hcontra
  rw [hcontra] at hlen
  simp at hlen

/-- The delta fix makes the split cents sum exactly to the target cents,
preserving the whole-cent form of every share. -/
theorem applyDeltaFix_sum (m : List (String × ℤ)) (l : List SplitRow)
    (tc : ℤ) (hne : l ≠ [])
    (hform : ∀ s ∈ l, ∃ k : ℤ, s.share = fromCents k) :
    ((applyDeltaFix m l tc).map (fun s => toCents s.share)).sum = tc ∧
    ∀ s ∈ applyDeltaFix m l tc, ∃ k : ℤ, s.share = fromCents k := by
  simp only [applyDeltaFix]
  set sumFinal := (l.map (fun s => toCents s.share)).sum with hsumFinal
  by_cases hfix : tc - sumFinal ≠ 0 ∧ l ≠ []
  · rw [if_pos hfix]
    have hperm := sortSplitsBySubDesc_perm m l
    cases hsort : sortSplitsBySubDesc m l with
    | nil =>
        rw [hsort] at hperm
        exact absurd hperm.symm.eq_nil hne
    | cons s rest =>
        rw [hsort] at hperm
        have hsums : toCents s.share +
            (rest.map (fun t => toCents t.share)).sum = sumFinal := by
          have h := (hperm.map (fun t => toCents t.share)).sum_eq
          simpa using h
        constructor
        · simp only [List.map_cons, List.sum_cons, toCents_fromCents]
          omega
        · intro t ht
          rcases List.mem_cons.mp ht with rfl | ht2
          · exact ⟨_, rfl⟩
          · exact hform t (hperm.subset (List.mem_cons_of_mem s ht2))
  · rw [if_neg hfix]
    have hd0 : tc - sumFinal = 0 := by
      rcases not_and_or.mp hfix with h | h
      · simpa using h
      · exact absurd hne h
    exact ⟨by omega, hform⟩

/-- `itemizedSplits` unfolded to its delta-fix form. -/
theorem itemizedSplits_def (p : ItemizedPayload) :
    itemizedSplits p = applyDeltaFix (accumulateItems p.items [])
      ((accumulateItems p.items []).map (fun e =>
        SplitRow.mk e.1 (fromCents (e.2 +
          getCentsD (allocateProportionally (accumulateItems p.items [])
            (toCents (itemizedTotals p).2.1)) e.1 +
          getCentsD (allocateProportionally (accumulateItems p.items [])
            (toCents (itemizedTotals p).2.2.1)) e.1))))
      (toCents (itemizedTotals p).2.2.2) := rfl

/-- The cent sum of the final itemized splits equals the cent value of the
total, and every split share is a whole number of cents. -/
theorem itemizedSplits_sum (p : ItemizedPayload)
    (hne : accumulateItems p.items [] ≠ []) :
    ((itemizedSplits p).map (fun s => toCents s.share)).sum =
      toCents (itemizedTotals p).2.2.2 ∧
    (∀ s ∈ itemizedSplits p, ∃ k : ℤ, s.share = fromCents k) := by
  rw [itemizedSplits_def]
  refine applyDeltaFix_sum _ _ _ ?_ ?_
  · simpa using hne
  · intro s hs
    obtain ⟨a, _, rfl⟩ := List.mem_map.mp hs
    exact ⟨_, rfl⟩

theorem round2_err (x : ℚ) : |round2 x - x| ≤ 1 / 200 := by
  have h := abs_sub_round (100 * x)
  unfold round2
  have h2 : (round (100 * x) : ℚ) / 100 - x =
      ((round (100 * x) : ℚ) - 100 * x) / 100 := by
    ring
  rw [h2, abs_div]
  rw [show |(100 : ℚ)| = 100 from by norm_num]
  rw [div_le_iff (by norm_num : (0 : ℚ) < 100)]
  have h3 : |(round (100 * x) : ℚ) - 100 * x| =
      |100 * x - (round (100 * x) : ℚ)| := abs_sub_comm _ _
  linarith

theorem sum_round2_err : ∀ l : List SplitInput,
    |(l.map (fun s => round2 s.share)).sum -
      (l.map SplitInput.share).sum| ≤ (l.length : ℚ) / 200 := by
  intro l
  induction l with
  | nil => simp
  | cons s ss ih =>
      simp only [List.map_cons, List.sum_cons, List.length_cons]
      have h1 := round2_err s.share
      have h2 : round2 s.share + (ss.map (fun t => round2 t.share)).sum -
          (s.share + (ss.map SplitInput.share).sum) =
          (round2 s.share - s.share) +
          ((ss.map (fun t => round2 t.share)).sum -
            (ss.map SplitInput.share).sum) := by
        ring
      rw [h2]
      refine le_trans (abs_add _ _) ?_
      push_cast
      linarith [ih]

attribute [local semireducible] Rat.add Rat.mul Rat.sub Rat.inv in
/-- C1 (amended): itemized expenses persist splits summing exactly to the
persisted total.  Simple-split expenses only guarantee
`|Σ splits − total| ≤ 0.01 + (n+1)·0.005` for `n` split rows: the ±0.01
tolerance is checked on the raw shares, after which each share and the
amount are rounded to cents (half a cent of drift each).  When the amount
and all shares are already whole cents the bound tightens to 0.01; without
that, even 0.01 fails: amount 1.00 with shares 0.335/0.335/0.335 is
accepted and persists 0.34 × 3 = 1.02 against total 1.00. -/
theorem claim_C1_amended :
    (∀ (members : List String) (paidById : String) (p : ItemizedPayload)
      (e : Expense), createExpenseItemized members paidById p = some e →
      (e.splits.map SplitRow.share).sum = e.total) ∧
    (∀ (members : List String) (paidById : String) (p : SimplePayload)
      (e : Expense), createExpenseSimple members paidById p = some e →
      |(e.splits.map SplitRow.share).sum - e.total| ≤
        1 / 100 + ((p.splits.length : ℚ) + 1) / 200) ∧
    (∀ (members : List String) (paidById : String) (p : SimplePayload)
      (e : Expense), createExpenseSimple members paidById p = some e →
      IsCents p.amount → (∀ s ∈ p.splits, IsCents s.share) →
      |(e.splits.map SplitRow.share).sum - e.total| ≤ 1 / 100) ∧
    ((createExpenseSimple ["p", "u1", "u2", "u3"] "p"
        (SimplePayload.mk "t" 1
          [SplitInput.mk "u1" (335 / 1000), SplitInput.mk "u2" (335 / 1000),
           SplitInput.mk "u3" (335 / 1000)])).map
      (fun e => ((e.splits.map SplitRow.share).sum, e.total)) =
      some (102 / 100, 1) ∧ ¬ |(102 : ℚ) / 100 - 1| ≤ 1 / 100) := by
  refine ⟨?_, ?_, ?_, by decide, by decide⟩
  · intro members paidById p e hcreate
    unfold createExpenseItemized at hcreate
    split at hcreate
    · exact absurd hcreate (by simp)
    · split at hcreate
      · exact absurd hcreate (by simp)
      · split at hcreate
        · exact absurd hcreate (by simp)
        · rename_i hmem hschema hassign
          rw [not_not] at hschema
          obtain ⟨_, _, _, hitems, hall⟩ := hschema
          have hne : accumulateItems p.items [] ≠ [] := by
            cases hits : p.items with
            | nil => exact absurd hits hitems
            | cons it its =>
                refine accumulateItems_ne_nil it its ?_
                exact (hall it (hits ▸ List.mem_cons_self it its)).2.2
          obtain ⟨hsum, hform⟩ := itemizedSplits_sum p hne
          injection hcreate with he
          rw [← he]
          simp only [List.map_map]
          have : ((itemizedSplits p).map
              (SplitRow.share ∘ fun s => SplitRow.mk s.userId (round2 s.share))).sum =
              ((itemizedSplits p).map (fun s => round2 s.share)).sum := rfl
          rw [this, splits_cents_sum _ hform, hsum]
          exact fromCents_toCents_round2 _
  · intro members paidById p e hcreate
    simp only [createExpenseSimple] at hcreate
    split at hcreate
    · exact absurd hcreate (by simp)
    · split at hcreate
      · exact absurd hcreate (by simp)
      · split at hcreate
        · exact absurd hcreate (by simp)
        · rename_i hmem hschema htol
          rw [not_lt] at htol
          injection hcreate with he
          rw [← he]
          simp only [List.map_map]
          have hmap : (p.splits.map
              (SplitRow.share ∘ fun s => SplitRow.mk s.userId (round2 s.share))).sum =
              (p.splits.map (fun s => round2 s.share)).sum := rfl
          rw [hmap]
          have t1 := sum_round2_err p.splits
          have t3 := round2_err p.amount
          have habc := abs_sub_le
            ((p.splits.map (fun s => round2 s.share)).sum)
            ((p.splits.map SplitInput.share).sum) (round2 p.amount)
          have hbc := abs_sub_le ((p.splits.map SplitInput.share).sum)
            p.amount (round2 p.amount)
          have hcomm : |p.amount - round2 p.amount| =
              |round2 p.amount - p.amount| := abs_sub_comm _ _
          linarith [htol]
  · intro members paidById p e hcreate hca hcs
    simp only [createExpenseSimple] at hcreate
    split at hcreate
    · exact absurd hcreate (by simp)
    · split at hcreate
      · exact absurd hcreate (by simp)
      · split at hcreate
        · exact absurd hcreate (by simp)
        · rename_i hmem hschema htol
          rw [not_lt] at htol
          injection hcreate with he
          rw [← he]
          simp only [List.map_map]
          have hmap : (p.splits.map
              (SplitRow.share ∘ fun s => SplitRow.mk s.userId (round2 s.share))).sum =
              (p.splits.map (fun s => round2 s.share)).sum := rfl
          rw [hmap]
          have hshares : (p.splits.map (fun s => round2 s.share)).sum =
              (p.splits.map SplitInput.share).sum := by
            apply congrArg List.sum
            apply List.map_congr_left
            intro s hs
            exact round2_of_isCents (hcs s hs)
          rw [hshares, round2_of_isCents hca]
          exact htol

attribute [local semireducible] Rat.add Rat.mul Rat.sub Rat.inv in
/-- C1 (amended, witness): a concrete itemized expense whose persisted
splits sum exactly to the total, and a concrete simple-split expense within
the tolerance-plus-rounding bound — and, being whole-cent, within 0.01. -/
theorem claim_C1_amended_witness :
    (createExpenseItemized ["A", "B"] "A"
        (ItemizedPayload.mk "t" none none [ItemInput.mk "X" 1 ["A", "B"]]) =
      some (Expense.mk "A" "t" 1 1 0 0 1
        [SplitRow.mk "A" (1 / 2), SplitRow.mk "B" (1 / 2)]) ∧
     ((Expense.mk "A" "t" 1 1 0 0 1
        [SplitRow.mk "A" (1 / 2), SplitRow.mk "B" (1 / 2)]).splits.map
          SplitRow.share).sum =
       (Expense.mk "A" "t" 1 1 0 0 1
        [SplitRow.mk "A" (1 / 2), SplitRow.mk "B" (1 / 2)]).total) ∧
    (createExpenseSimple ["A", "B"] "A"
        (SimplePayload.mk "t" 1
          [SplitInput.mk "A" (1 / 2), SplitInput.mk "B" (1 / 2)]) =
      some (Expense.mk "A" "t" 1 0 0 0 1
        [SplitRow.mk "A" (1 / 2), SplitRow.mk "B" (1 / 2)]) ∧
     |((Expense.mk "A" "t" 1 0 0 0 1
        [SplitRow.mk "A" (1 / 2), SplitRow.mk "B" (1 / 2)]).splits.map
          SplitRow.share).sum -
       (Expense.mk "A" "t" 1 0 0 0 1
        [SplitRow.mk "A" (1 / 2), SplitRow.mk "B" (1 / 2)]).total| ≤
       1 / 100 + (((SimplePayload.mk "t" (1 : ℚ)
          [SplitInput.mk "A" (1 / 2),
           SplitInput.mk "B" (1 / 2)]).splits.length : ℚ) + 1) / 200) ∧
    (IsCents (SimplePayload.mk "t" (1 : ℚ)
        [SplitInput.mk "A" (1 / 2), SplitInput.mk "B" (1 / 2)]).amount ∧
     (∀ s ∈ (SimplePayload.mk "t" (1 : ℚ)
        [SplitInput.mk "A" (1 / 2), SplitInput.mk "B" (1 / 2)]).splits,
       IsCents s.share) ∧
     |((Expense.mk "A" "t" 1 0 0 0 1
        [SplitRow.mk "A" (1 / 2), SplitRow.mk "B" (1 / 2)]).splits.map
          SplitRow.share).sum -
       (Expense.mk "A" "t" 1 0 0 0 1
        [SplitRow.mk "A" (1 / 2), SplitRow.mk "B" (1 / 2)]).total| ≤ 1 / 100) :=
  ⟨⟨by decide,
    claim_C1_amended.1 ["A", "B"] "A"
      (ItemizedPayload.mk "t" none none [ItemInput.mk "X" 1 ["A", "B"]])
      (Expense.mk "A" "t" 1 1 0 0 1
        [SplitRow.mk "A" (1 / 2), SplitRow.mk "B" (1 / 2)]) (by decide)⟩,
   ⟨by decide,
    claim_C1_amended.2.1 ["A", "B"] "A"
      (SimplePayload.mk "t" 1
        [SplitInput.mk "A" (1 / 2), SplitInput.mk "B" (1 / 2)])
      (Expense.mk "A" "t" 1 0 0 0 1
        [SplitRow.mk "A" (1 / 2), SplitRow.mk "B" (1 / 2)]) (by decide)⟩,
   by decide, by decide,
   claim_C1_amended.2.2.1 ["A", "B"] "A"
     (SimplePayload.mk "t" 1
       [SplitInput.mk "A" (1 / 2), SplitInput.mk "B" (1 / 2)])
     (Expense.mk "A" "t" 1 0 0 0 1
       [SplitRow.mk "A" (1 / 2), SplitRow.mk "B" (1 / 2)])
     (by decide) (by decide) (by decide)⟩

/-! ### C3: the balance fold against the §4.H reference fold -/

theorem applyPayment_eq_spec (bal : List (String × ℚ)) (p : Payment) :
    applyPayment bal p = specApplyPayment bal p := by
  unfold applyPayment specApplyPayment
  by_cases h : p.status = "confirmed"
  · simp [h]
  · simp [h]

theorem applyExpense_eq_spec (bal : List (String × ℚ)) (e : Expense)
    (h : e.amount = e.total) : applyExpense bal e = specApplyExpense bal e := by
  unfold applyExpense specApplyExpense
  rw [h]

/-- C3: whenever every stored expense has `amount = total` (which both
creation paths guarantee), the balance computation used by the trip views
coincides with the reference fold of §4.H; and a payment whose status is not
"confirmed" never changes any balance. -/
theorem claim_C3 (members : List String) (expenses : List Expense)
    (payments : List Payment)
    (hamt : ∀ e ∈ expenses, e.amount = e.total) :
    calculateBalancesWithPayments members expenses payments =
      specBalances members expenses payments ∧
    ∀ (bal : List (String × ℚ)) (p : Payment), p.status ≠ "confirmed" →
      applyPayment bal p = bal := by
  constructor
  · simp only [calculateBalancesWithPayments, specBalances]
    rw [List.foldl_ext applyExpense specApplyExpense _
        (fun a e he => applyExpense_eq_spec a e (hamt e he)),
      List.foldl_ext applyPayment specApplyPayment _
        (fun a p _ => applyPayment_eq_spec a p)]
  · intro bal p h
    unfold applyPayment
    rw [if_pos h]

attribute [local semireducible] Rat.add Rat.mul Rat.sub Rat.inv in
/-- C3 (witness): the equivalence applied to a two-member trip with one
expense and one pending payment. -/
theorem claim_C3_witness :
    (∀ e ∈ [Expense.mk "A" "t" 1 0 0 0 1 [SplitRow.mk "B" 1]],
      e.amount = e.total) ∧
    calculateBalancesWithPayments ["A", "B"]
        [Expense.mk "A" "t" 1 0 0 0 1 [SplitRow.mk "B" 1]]
        [Payment.mk "t1" "B" "A" 1 none "pending" none] =
      specBalances ["A", "B"]
        [Expense.mk "A" "t" 1 0 0 0 1 [SplitRow.mk "B" 1]]
        [Payment.mk "t1" "B" "A" 1 none "pending" none] :=
  ⟨by decide,
   (claim_C3 ["A", "B"] [Expense.mk "A" "t" 1 0 0 0 1 [SplitRow.mk "B" 1]]
     [Payment.mk "t1" "B" "A" 1 none "pending" none] (by decide)).1⟩


/-! ### C8: split user ids of the itemized path -/

theorem mapSet_keys (m : List (String × ℤ)) (u : String) (v : ℤ) :
    ∀ x ∈ (mapSet m u v).map Prod.fst, x ∈ m.map Prod.fst ∨ x = u := by
  induction m with
  | nil =>
      intro x hx
      simp [mapSet] at hx
      exact Or.inr hx
  | cons e es ih =>
      intro x hx
      simp only [mapSet] at hx
      by_cases h : e.1 = u
      · rw [if_pos h] at hx
        simp only [List.map_cons, List.mem_cons] at hx
        rcases hx with rfl | hx
        · exact Or.inl (by simp)
        · exact Or.inl (by simp [hx])
      · rw [if_neg h] at hx
        simp only [List.map_cons, List.mem_cons] at hx
        rcases hx with rfl | hx
        · exact Or.inl (by simp)
        · rcases ih x hx with h2 | h2
          · exact Or.inl (by simp [h2])
          · exact Or.inr h2

theorem distributeItemShares_keys (base : ℤ) (us : List String) :
    ∀ (rem : ℤ) (m : List (String × ℤ)),
      ∀ x ∈ (distributeItemShares base us rem m).map Prod.fst,
        x ∈ m.map Prod.fst ∨ x ∈ us := by
  induction us with
  | nil =>
      intro rem m x hx
      exact Or.inl (by simpa [distributeItemShares] using hx)
  | cons u us ih =>
      intro rem m x hx
      simp only [distributeItemShares] at hx
      rcases ih _ _ x hx with h2 | h2
      · rcases mapSet_keys m u _ x h2 with h3 | rfl
        · exact Or.inl h3
        · exact Or.inr (List.mem_cons_self _ _)
      · exact Or.inr (List.mem_cons_of_mem _ h2)

theorem accumulateItems_keys (its : List ItemInput) :
    ∀ (m : List (String × ℤ)),
      ∀ x ∈ (accumulateItems its m).map Prod.fst,
        x ∈ m.map Prod.fst ∨ ∃ i ∈ its, x ∈ i.assignedUserIds := by
  induction its with
  | nil =>
      intro m x hx
      exact Or.inl (by simpa [accumulateItems] using hx)
  | cons it its ih =>
      intro m x hx
      simp only [accumulateItems] at hx
      rcases ih _ x hx with h2 | h2
      · rcases distributeItemShares_keys _ _ _ _ x h2 with h3 | h3
        · exact Or.inl h3
        · exact Or.inr ⟨it, List.mem_cons_self _ _, h3⟩
      · obtain ⟨i, hi, hx2⟩ := h2
        exact Or.inr ⟨i, List.mem_cons_of_mem _ hi, hx2⟩

theorem applyDeltaFix_userIds (m : List (String × ℤ)) (l : List SplitRow)
    (tc : ℤ) : ∀ s ∈ applyDeltaFix m l tc,
      s.userId ∈ l.map SplitRow.userId := by
  intro s hs
  simp only [applyDeltaFix] at hs
  have hperm := sortSplitsBySubDesc_perm m l
  split at hs
  · split at hs
    · exact absurd hs (List.not_mem_nil s)
    · rename_i hd rest heq
      rw [heq] at hperm
      rcases List.mem_cons.mp hs with rfl | h2
      · have hmem : hd ∈ l := hperm.subset (List.mem_cons_self _ _)
        simpa using List.mem_map_of_mem SplitRow.userId hmem
      · have hmem : s ∈ l := hperm.subset (List.mem_cons_of_mem _ h2)
        exact List.mem_map_of_mem _ hmem
  · exact List.mem_map_of_mem _ hs

/-- C8 (amended): the itemized path persists only member user ids in its
split rows (the schema check of lines 189–198 rejects non-member assignees);
the simple path has no such check — see the counterexample. -/
theorem claim_C8_amended :
    ∀ (members : List String) (paidById : String) (p : ItemizedPayload)
      (e : Expense), createExpenseItemized members paidById p = some e →
      ∀ s ∈ e.splits, s.userId ∈ members := by
  intro members paidById p e hcreate s hs
  unfold createExpenseItemized at hcreate
  split at hcreate
  · exact absurd hcreate (by simp)
  · split at hcreate
    · exact absurd hcreate (by simp)
    · split at hcreate
      · exact absurd hcreate (by simp)
      · rename_i hmem hschema hassign
        rw [not_not] at hassign
        injection hcreate with he
        rw [← he] at hs
        obtain ⟨s0, hs0, rfl⟩ := List.mem_map.mp hs
        show s0.userId ∈ members
        rw [itemizedSplits_def] at hs0
        have h1 := applyDeltaFix_userIds _ _ _ s0 hs0
        rw [List.map_map] at h1
        have h2 : s0.userId ∈ (accumulateItems p.items []).map Prod.fst := by
          simpa using h1
        rcases accumulateItems_keys p.items [] _ h2 with h3 | ⟨i, hi, hu⟩
        · simp at h3
        · exact hassign i hi s0.userId hu

attribute [local semireducible] Rat.add Rat.mul Rat.sub Rat.inv in
/-- C8 (amended, witness): the membership guarantee on a concrete itemized
expense. -/
theorem claim_C8_amended_witness :
    createExpenseItemized ["A", "B"] "A"
        (ItemizedPayload.mk "u" none none [ItemInput.mk "Y" 2 ["A", "B"]]) =
      some (Expense.mk "A" "u" 2 2 0 0 2
        [SplitRow.mk "A" 1, SplitRow.mk "B" 1]) ∧
    ∀ s ∈ (Expense.mk "A" "u" 2 2 0 0 2
        [SplitRow.mk "A" 1, SplitRow.mk "B" 1]).splits,
      s.userId ∈ ["A", "B"] :=
  ⟨by decide,
   claim_C8_amended ["A", "B"] "A"
     (ItemizedPayload.mk "u" none none [ItemInput.mk "Y" 2 ["A", "B"]])
     (Expense.mk "A" "u" 2 2 0 0 2
       [SplitRow.mk "A" 1, SplitRow.mk "B" 1]) (by decide)⟩

/-! ### C10: auto-accept of a reverse pending invite -/

/-- C10: when the target user already has a pending invite towards the
caller, `addFriend` does not reject the request: the invite row is marked
accepted, the two symmetric friend rows are appended in the same update, the
user table is untouched and the call reports success. -/
theorem claim_C10 (st : FriendsState) (callerId username targetId
    newInviteId inviteId : String) (inv : FriendInvite)
    (hresolve : (st.users.find? (fun e => e.2 = username)).map Prod.fst =
      some targetId)
    (hneq : targetId ≠ callerId)
    (hnotfriends : (st.friends.find? (fun e =>
        e.1 = callerId ∧ e.2 = targetId)).isSome = false)
    (hfind : st.invites.find? (pendingBetween callerId targetId) =
      some (inviteId, inv))
    (hrev : inv.senderId = targetId) :
    (addFriend st callerId username newInviteId).1 =
      FriendOutcome.accepted ∧
    (addFriend st callerId username newInviteId).2.friends =
      st.friends ++ [(callerId, targetId), (targetId, callerId)] ∧
    (addFriend st callerId username newInviteId).2.invites =
      st.invites.map (fun e =>
        if e.1 = inviteId then (e.1, { e.2 with status := "accepted" })
        else e) ∧
    (inviteId, { inv with status := "accepted" }) ∈
      (addFriend st callerId username newInviteId).2.invites ∧
    (addFriend st callerId username newInviteId).2.users = st.users := by
  have hstep : addFriend st callerId username newInviteId =
      (FriendOutcome.accepted,
       { st with
          invites := st.invites.map (fun e =>
            if e.1 = inviteId then (e.1, { e.2 with status := "accepted" })
            else e)
          friends := st.friends ++
            [(callerId, targetId), (targetId, callerId)] }) := by
    simp only [addFriend, hresolve, hnotfriends, hfind, hrev]
    rw [if_neg hneq]
    simp
  rw [hstep]
  refine ⟨rfl, rfl, rfl, ?_, rfl⟩
  have hmem : (inviteId, inv) ∈ st.invites := List.mem_of_find?_eq_some hfind
  have := List.mem_map_of_mem (fun e : String × FriendInvite =>
    if e.1 = inviteId then (e.1, { e.2 with status := "accepted" }) else e) hmem
  simpa using this

attribute [local semireducible] Rat.add Rat.mul Rat.sub Rat.inv in
/-- C10 (witness): concrete auto-accept — carol sends a request to alice who
already has a pending invite to carol. -/
theorem claim_C10_witness :
    (addFriend (FriendsState.mk [("a", "alice"), ("c", "carol")] []
        [("i1", FriendInvite.mk "a" "c" "pending")]) "c" "alice" "i9").1 =
      FriendOutcome.accepted ∧
    (addFriend (FriendsState.mk [("a", "alice"), ("c", "carol")] []
        [("i1", FriendInvite.mk "a" "c" "pending")]) "c" "alice" "i9").2.friends
      = [] ++ [("c", "a"), ("a", "c")] ∧
    (addFriend (FriendsState.mk [("a", "alice"), ("c", "carol")] []
        [("i1", FriendInvite.mk "a" "c" "pending")]) "c" "alice" "i9").2.invites
      = [("i1", FriendInvite.mk "a" "c" "pending")].map (fun e =>
          if e.1 = "i1" then (e.1, { e.2 with status := "accepted" }) else e) ∧
    ("i1", FriendInvite.mk "a" "c" "accepted") ∈
      (addFriend (FriendsState.mk [("a", "alice"), ("c", "carol")] []
        [("i1", FriendInvite.mk "a" "c" "pending")]) "c" "alice" "i9").2.invites ∧
    (addFriend (FriendsState.mk [("a", "alice"), ("c", "carol")] []
        [("i1", FriendInvite.mk "a" "c" "pending")]) "c" "alice" "i9").2.users
      = [("a", "alice"), ("c", "carol")] :=
  claim_C10 (FriendsState.mk [("a", "alice"), ("c", "carol")] []
      [("i1", FriendInvite.mk "a" "c" "pending")]) "c" "alice" "a" "i9" "i1"
    (FriendInvite.mk "a" "c" "pending")
    (by decide) (by decide) (by decide) (by decide) (by decide)


/-! ### C5: payment state machine -/

theorem storePayment_status (s : List (String × Payment)) (pid : String)
    (q : Payment) (P : String → Prop) (hs : ∀ e ∈ s, P e.2.status)
    (hq : P q.status) : ∀ e ∈ storePayment s pid q, P e.2.status := by
  intro e he
  obtain ⟨a, ha, rfl⟩ := List.mem_map.mp he
  by_cases h : a.1 = pid
  · simpa [h] using hq
  · simpa [h] using hs a ha

theorem confirmPayment_spec (s : List (String × Payment)) (pid uid : String) :
    ((confirmPayment s pid uid).1 = PayOutcome.ok ↔
      ∃ p, findPayment s pid = some p ∧ p.toUserId = uid ∧
        p.status = "pending") ∧
    (∀ p, findPayment s pid = some p → p.toUserId = uid →
      p.status = "pending" →
      (confirmPayment s pid uid).2 =
        storePayment s pid { p with status := "confirmed" }) ∧
    ((confirmPayment s pid uid).1 ≠ PayOutcome.ok →
      (confirmPayment s pid uid).2 = s) := by
  unfold confirmPayment
  cases hfp : findPayment s pid with
  | none => simp
  | some p =>
      by_cases h1 : p.toUserId = uid
      · by_cases h2 : p.status = "pending"
        · simp [h1, h2]
        · simp [h1, h2]
      · simp [h1]

theorem declinePayment_spec (s : List (String × Payment)) (pid uid : String)
    (note : Option String) :
    ((declinePayment s pid uid note).1 = PayOutcome.ok ↔
      (∀ n ∈ note, n.length ≤ 200) ∧
      ∃ p, findPayment s pid = some p ∧ p.toUserId = uid ∧
        p.status = "pending") ∧
    (∀ p, (∀ n ∈ note, n.length ≤ 200) → findPayment s pid = some p →
      p.toUserId = uid → p.status = "pending" →
      (declinePayment s pid uid note).2 =
        storePayment s pid
          { p with status := "declined", declineNote := note }) ∧
    ((declinePayment s pid uid note).1 ≠ PayOutcome.ok →
      (declinePayment s pid uid note).2 = s) := by
  unfold declinePayment
  by_cases hn : ∀ n ∈ note, n.length ≤ 200
  · have hn' : ∀ (n : String), note = some n → n.length ≤ 200 := hn
    rw [if_neg (not_not_intro hn)]
    cases hfp : findPayment s pid with
    | none => simp
    | some p =>
        by_cases h1 : p.toUserId = uid
        · by_cases h2 : p.status = "pending"
          · simp [h1, h2]
            exact hn'
          · simp [h1, h2]
        · simp [h1]
  · have hn' : ¬ ∀ (n : String), note = some n → n.length ≤ 200 := hn
    rw [if_pos hn]
    simp [hn']

theorem deletePayment_spec (s : List (String × Payment)) (pid uid : String) :
    ((deletePayment s pid uid).1 = PayOutcome.ok ↔
      ∃ p, findPayment s pid = some p ∧ p.fromUserId = uid ∧
        p.status = "pending") ∧
    ((deletePayment s pid uid).1 = PayOutcome.ok →
      (deletePayment s pid uid).2 = s.filter (fun e => e.1 ≠ pid)) ∧
    ((deletePayment s pid uid).1 ≠ PayOutcome.ok →
      (deletePayment s pid uid).2 = s) := by
  unfold deletePayment
  cases hfp : findPayment s pid with
  | none => simp
  | some p =>
      by_cases h1 : p.fromUserId = uid
      · by_cases h2 : p.status = "pending"
        · simp [h1, h2]
        · simp [h1, h2]
      · simp [h1]

theorem createPayment_spec (s : List (String × Payment))
    (users : List (String × String)) (members : List String)
    (tripId fromUserId : String) (toUserId? toUsername? : Option String)
    (amount : ℚ) (method : Option String) (newId : String)
    (s' : List (String × Payment))
    (h : createPayment s users members tripId fromUserId toUserId?
      toUsername? amount method newId = (PayOutcome.ok, s')) :
    ∃ toId, s' = s ++ [(newId,
      { tripId := tripId, fromUserId := fromUserId, toUserId := toId
        amount := amount, method := method, status := "pending"
        declineNote := none })] := by
  simp only [createPayment] at h
  repeat' split at h
  all_goals try exact PayOutcome.noConfusion (congrArg Prod.fst h)
  all_goals exact ⟨_, (congrArg Prod.snd h).symm⟩

/-- C5: every stored status stays in {pending, confirmed, declined} under
create, confirm, decline and delete; confirm succeeds exactly for the
receiver of a pending payment and writes "confirmed"; decline succeeds
exactly for the receiver of a pending payment with an admissible note and
writes "declined"; delete succeeds exactly for the sender of a pending
payment and removes the row; on a payment in a terminal (non-pending) state
all three operations fail and leave the store unchanged; a created payment
starts out "pending". -/
theorem claim_C5 :
    (∀ (s : List (String × Payment)) (pid uid : String)
      (note : Option String),
      (∀ e ∈ s, e.2.status = "pending" ∨ e.2.status = "confirmed" ∨
        e.2.status = "declined") →
      (∀ e ∈ (confirmPayment s pid uid).2, e.2.status = "pending" ∨
        e.2.status = "confirmed" ∨ e.2.status = "declined") ∧
      (∀ e ∈ (declinePayment s pid uid note).2, e.2.status = "pending" ∨
        e.2.status = "confirmed" ∨ e.2.status = "declined") ∧
      (∀ e ∈ (deletePayment s pid uid).2, e.2.status = "pending" ∨
        e.2.status = "confirmed" ∨ e.2.status = "declined")) ∧
    (∀ (s s' : List (String × Payment)) (users : List (String × String))
      (members : List String) (tripId fromUserId : String)
      (toUserId? toUsername? : Option String) (amount : ℚ)
      (method : Option String) (newId : String),
      (∀ e ∈ s, e.2.status = "pending" ∨ e.2.status = "confirmed" ∨
        e.2.status = "declined") →
      createPayment s users members tripId fromUserId toUserId? toUsername?
        amount method newId = (PayOutcome.ok, s') →
      ∀ e ∈ s', e.2.status = "pending" ∨ e.2.status = "confirmed" ∨
        e.2.status = "declined") ∧
    (∀ (s : List (String × Payment)) (pid uid : String),
      (confirmPayment s pid uid).1 = PayOutcome.ok ↔
      ∃ p, findPayment s pid = some p ∧ p.toUserId = uid ∧
        p.status = "pending") ∧
    (∀ (s : List (String × Payment)) (pid uid : String)
      (note : Option String),
      (declinePayment s pid uid note).1 = PayOutcome.ok ↔
      (∀ n ∈ note, n.length ≤ 200) ∧
      ∃ p, findPayment s pid = some p ∧ p.toUserId = uid ∧
        p.status = "pending") ∧
    (∀ (s : List (String × Payment)) (pid uid : String),
      (deletePayment s pid uid).1 = PayOutcome.ok ↔
      ∃ p, findPayment s pid = some p ∧ p.fromUserId = uid ∧
        p.status = "pending") ∧
    (∀ (s : List (String × Payment)) (pid uid : String) (p : Payment),
      findPayment s pid = some p → p.toUserId = uid →
      p.status = "pending" →
      (confirmPayment s pid uid).2 =
        storePayment s pid { p with status := "confirmed" }) ∧
    (∀ (s : List (String × Payment)) (pid uid : String)
      (note : Option String) (p : Payment), (∀ n ∈ note, n.length ≤ 200) →
      findPayment s pid = some p → p.toUserId = uid →
      p.status = "pending" →
      (declinePayment s pid uid note).2 =
        storePayment s pid
          { p with status := "declined", declineNote := note }) ∧
    (∀ (s : List (String × Payment)) (pid uid : String),
      (deletePayment s pid uid).1 = PayOutcome.ok →
      (deletePayment s pid uid).2 = s.filter (fun e => e.1 ≠ pid)) ∧
    (∀ (s : List (String × Payment)) (pid uid : String)
      (note : Option String) (p : Payment),
      findPayment s pid = some p → p.status ≠ "pending" →
      ((confirmPayment s pid uid).1 ≠ PayOutcome.ok ∧
        (confirmPayment s pid uid).2 = s) ∧
      ((declinePayment s pid uid note).1 ≠ PayOutcome.ok ∧
        (declinePayment s pid uid note).2 = s) ∧
      ((deletePayment s pid uid).1 ≠ PayOutcome.ok ∧
        (deletePayment s pid uid).2 = s)) ∧
    (∀ (s s' : List (String × Payment)) (users : List (String × String))
      (members : List String) (tripId fromUserId : String)
      (toUserId? toUsername? : Option String) (amount : ℚ)
      (method : Option String) (newId : String),
      createPayment s users members tripId fromUserId toUserId? toUsername?
        amount method newId = (PayOutcome.ok, s') →
      ∃ p, s' = s ++ [(newId, p)] ∧ p.status = "pending") := by
  refine ⟨?_, ?_, ?_, ?_, ?_, ?_, ?_, ?_, ?_, ?_⟩
  · intro s pid uid note hstat
    refine ⟨?_, ?_, ?_⟩
    · by_cases hok : (confirmPayment s pid uid).1 = PayOutcome.ok
      · obtain ⟨p, hfp, h1, h2⟩ := (confirmPayment_spec s pid uid).1.mp hok
        rw [(confirmPayment_spec s pid uid).2.1 p hfp h1 h2]
        exact storePayment_status s pid _
          (fun st => st = "pending" ∨ st = "confirmed" ∨ st = "declined")
          hstat (Or.inr (Or.inl rfl))
      · rw [(confirmPayment_spec s pid uid).2.2 hok]
        exact hstat
    · by_cases hok : (declinePayment s pid uid note).1 = PayOutcome.ok
      · obtain ⟨hn, p, hfp, h1, h2⟩ :=
          (declinePayment_spec s pid uid note).1.mp hok
        rw [(declinePayment_spec s pid uid note).2.1 p hn hfp h1 h2]
        exact storePayment_status s pid _
          (fun st => st = "pending" ∨ st = "confirmed" ∨ st = "declined")
          hstat (Or.inr (Or.inr rfl))
      · rw [(declinePayment_spec s pid uid note).2.2 hok]
        exact hstat
    · by_cases hok : (deletePayment s pid uid).1 = PayOutcome.ok
      · rw [(deletePayment_spec s pid uid).2.1 hok]
        intro e he
        exact hstat e (List.mem_of_mem_filter he)
      · rw [(deletePayment_spec s pid uid).2.2 hok]
        exact hstat
  · intro s s' users members tripId fromUserId toUserId? toUsername? amount
      method newId hstat hcreate
    obtain ⟨toId, rfl⟩ := createPayment_spec s users members tripId
      fromUserId toUserId? toUsername? amount method newId s' hcreate
    intro e he
    rcases List.mem_append.mp he with h | h
    · exact hstat e h
    · rcases List.mem_singleton.mp h with rfl
      exact Or.inl rfl
  · intro s pid uid
    exact (confirmPayment_spec s pid uid).1
  · intro s pid uid note
    exact (declinePayment_spec s pid uid note).1
  · intro s pid uid
    exact (deletePayment_spec s pid uid).1
  · intro s pid uid p hfp h1 h2
    exact (confirmPayment_spec s pid uid).2.1 p hfp h1 h2
  · intro s pid uid note p hn hfp h1 h2
    exact (declinePayment_spec s pid uid note).2.1 p hn hfp h1 h2
  · intro s pid uid hok
    exact (deletePayment_spec s pid uid).2.1 hok
  · intro s pid uid note p hfp hterm
    have hc : (confirmPayment s pid uid).1 ≠ PayOutcome.ok := by
      intro hok
      obtain ⟨q, hfq, _, h2⟩ := (confirmPayment_spec s pid uid).1.mp hok
      rw [hfp] at hfq
      cases hfq
      exact hterm h2
    have hd : (declinePayment s pid uid note).1 ≠ PayOutcome.ok := by
      intro hok
      obtain ⟨_, q, hfq, _, h2⟩ :=
        (declinePayment_spec s pid uid note).1.mp hok
      rw [hfp] at hfq
      cases hfq
      exact hterm h2
    have he : (deletePayment s pid uid).1 ≠ PayOutcome.ok := by
      intro hok
      obtain ⟨q, hfq, _, h2⟩ := (deletePayment_spec s pid uid).1.mp hok
      rw [hfp] at hfq
      cases hfq
      exact hterm h2
    exact ⟨⟨hc, (confirmPayment_spec s pid uid).2.2 hc⟩,
      ⟨hd, (declinePayment_spec s pid uid note).2.2 hd⟩,
      ⟨he, (deletePayment_spec s pid uid).2.2 he⟩⟩
  · intro s s' users members tripId fromUserId toUserId? toUsername? amount
      method newId hcreate
    obtain ⟨toId, rfl⟩ := createPayment_spec s users members tripId
      fromUserId toUserId? toUsername? amount method newId s' hcreate
    exact ⟨_, rfl, rfl⟩

attribute [local semireducible] Rat.add Rat.mul Rat.sub Rat.inv in
/-- C5 (witness): the closure and terminal-absorption facts applied to a
one-payment store holding a confirmed payment. -/
theorem claim_C5_witness :
    ((∀ e ∈ [("p1", Payment.mk "t" "A" "B" 1 none "confirmed" none)],
      e.2.status = "pending" ∨ e.2.status = "confirmed" ∨
        e.2.status = "declined") ∧
     findPayment [("p1", Payment.mk "t" "A" "B" 1 none "confirmed" none)]
       "p1" = some (Payment.mk "t" "A" "B" 1 none "confirmed" none) ∧
     (Payment.mk "t" "A" "B" 1 none "confirmed" none).status ≠ "pending") ∧
    (∀ e ∈ (confirmPayment
        [("p1", Payment.mk "t" "A" "B" 1 none "confirmed" none)] "p1"
        "B").2, e.2.status = "pending" ∨ e.2.status = "confirmed" ∨
        e.2.status = "declined") ∧
    ((confirmPayment
        [("p1", Payment.mk "t" "A" "B" 1 none "confirmed" none)] "p1"
        "B").1 ≠ PayOutcome.ok ∧
      (confirmPayment
        [("p1", Payment.mk "t" "A" "B" 1 none "confirmed" none)] "p1"
        "B").2 = [("p1", Payment.mk "t" "A" "B" 1 none "confirmed" none)]) ∧
    ((declinePayment
        [("p1", Payment.mk "t" "A" "B" 1 none "confirmed" none)] "p1" "B"
        none).1 ≠ PayOutcome.ok ∧
      (declinePayment
        [("p1", Payment.mk "t" "A" "B" 1 none "confirmed" none)] "p1" "B"
        none).2 = [("p1", Payment.mk "t" "A" "B" 1 none "confirmed" none)]) ∧
    ((deletePayment
        [("p1", Payment.mk "t" "A" "B" 1 none "confirmed" none)] "p1"
        "A").1 ≠ PayOutcome.ok ∧
      (deletePayment
        [("p1", Payment.mk "t" "A" "B" 1 none "confirmed" none)] "p1"
        "A").2 = [("p1", Payment.mk "t" "A" "B" 1 none "confirmed" none)]) :=
  ⟨⟨by decide, by decide, by decide⟩,
   (claim_C5.1 [("p1", Payment.mk "t" "A" "B" 1 none "confirmed" none)]
     "p1" "B" none (by decide)).1,
   (claim_C5.2.2.2.2.2.2.2.2.1
     [("p1", Payment.mk "t" "A" "B" 1 none "confirmed" none)] "p1" "B" none
     (Payment.mk "t" "A" "B" 1 none "confirmed" none)
     (by decide) (by decide)).1,
   (claim_C5.2.2.2.2.2.2.2.2.1
     [("p1", Payment.mk "t" "A" "B" 1 none "confirmed" none)] "p1" "B" none
     (Payment.mk "t" "A" "B" 1 none "confirmed" none)
     (by decide) (by decide)).2.1,
   (claim_C5.2.2.2.2.2.2.2.2.1
     [("p1", Payment.mk "t" "A" "B" 1 none "confirmed" none)] "p1" "A" none
     (Payment.mk "t" "A" "B" 1 none "confirmed" none)
     (by decide) (by decide)).2.2⟩


/-! ### C4: zero-sum of balances in the whole-cent regime -/

theorem IsCents_add {a b : ℚ} (ha : IsCents a) (hb : IsCents b) :
    IsCents (a + b) := by
  obtain ⟨j, rfl⟩ := ha
  obtain ⟨k, rfl⟩ := hb
  exact ⟨j + k, by push_cast; ring⟩

theorem IsCents_neg {a : ℚ} (ha : IsCents a) : IsCents (-a) := by
  obtain ⟨j, rfl⟩ := ha
  exact ⟨-j, by push_cast; ring⟩

theorem bumpIfPresent_fst (m : List (String × ℚ)) (u : String) (d : ℚ) :
    (bumpIfPresent m u d).map Prod.fst = m.map Prod.fst := by
  unfold bumpIfPresent
  rw [List.map_map]
  apply List.map_congr_left
  intro e _
  by_cases h : e.1 = u <;> simp [h]

theorem bumpIfPresent_not_mem (m : List (String × ℚ)) (u : String) (d : ℚ)
    (h : u ∉ m.map Prod.fst) : bumpIfPresent m u d = m := by
  induction m with
  | nil => rfl
  | cons e es ih =>
      simp only [List.map_cons, List.mem_cons, not_or] at h
      show (if e.1 = u then (e.1, e.2 + d) else e) :: bumpIfPresent es u d =
        e :: es
      rw [if_neg (fun hh => h.1 hh.symm), ih h.2]

theorem bumpIfPresent_sum : ∀ (m : List (String × ℚ)) (u : String) (d : ℚ),
    (m.map Prod.fst).Nodup → u ∈ m.map Prod.fst →
    ((bumpIfPresent m u d).map Prod.snd).sum = (m.map Prod.snd).sum + d := by
  intro m u d
  induction m with
  | nil =>
      intro _ hu
      simp at hu
  | cons e es ih =>
      intro hnd hu
      simp only [List.map_cons, List.nodup_cons] at hnd
      show (((if e.1 = u then (e.1, e.2 + d) else e) ::
        bumpIfPresent es u d).map Prod.snd).sum =
        ((e :: es).map Prod.snd).sum + d
      by_cases h : e.1 = u
      · rw [if_pos h]
        subst h
        rw [bumpIfPresent_not_mem es e.1 d hnd.1]
        simp only [List.map_cons, List.sum_cons]
        ring
      · have hu2 : u ∈ es.map Prod.fst := by
          rcases List.mem_cons.mp hu with h2 | h2
          · exact absurd h2.symm h
          · exact h2
        rw [if_neg h]
        simp only [List.map_cons, List.sum_cons]
        rw [ih hnd.2 hu2]
        ring

theorem bumpIfPresent_cents (m : List (String × ℚ)) (u : String) (d : ℚ)
    (hm : ∀ e ∈ m, IsCents e.2) (hd : IsCents d) :
    ∀ e ∈ bumpIfPresent m u d, IsCents e.2 := by
  intro e he
  obtain ⟨a, ha, rfl⟩ := List.mem_map.mp he
  by_cases h : a.1 = u
  · simpa [h] using IsCents_add (hm a ha) hd
  · simpa [h] using hm a ha

theorem foldl_bump_fst : ∀ (splits : List SplitRow) (bal : List (String × ℚ)),
    (splits.foldl (fun b s => bumpIfPresent b s.userId (-s.share))
      bal).map Prod.fst = bal.map Prod.fst := by
  intro splits
  induction splits with
  | nil => intro bal; rfl
  | cons s ss ih =>
      intro bal
      simp only [List.foldl_cons]
      rw [ih, bumpIfPresent_fst]

theorem foldl_bump_sum : ∀ (splits : List SplitRow) (bal : List (String × ℚ)),
    (bal.map Prod.fst).Nodup →
    (∀ s ∈ splits, s.userId ∈ bal.map Prod.fst) →
    ((splits.foldl (fun b s => bumpIfPresent b s.userId (-s.share))
      bal).map Prod.snd).sum =
      (bal.map Prod.snd).sum - (splits.map SplitRow.share).sum := by
  intro splits
  induction splits with
  | nil =>
      intro bal _ _
      simp
  | cons s ss ih =>
      intro bal hnd hmem
      simp only [List.foldl_cons, List.map_cons, List.sum_cons]
      rw [ih _ ?_ ?_]
      · rw [bumpIfPresent_sum bal s.userId _ hnd
          (hmem s (List.mem_cons_self _ _))]
        ring
      · rw [bumpIfPresent_fst]
        exact hnd
      · intro t ht
        rw [bumpIfPresent_fst]
        exact hmem t (List.mem_cons_of_mem _ ht)

theorem foldl_bump_cents : ∀ (splits : List SplitRow)
    (bal : List (String × ℚ)), (∀ e ∈ bal, IsCents e.2) →
    (∀ s ∈ splits, IsCents s.share) →
    ∀ e ∈ splits.foldl (fun b s => bumpIfPresent b s.userId (-s.share)) bal,
      IsCents e.2 := by
  intro splits
  induction splits with
  | nil =>
      intro bal hc _
      exact hc
  | cons s ss ih =>
      intro bal hc hs
      simp only [List.foldl_cons]
      refine ih _ ?_ (fun t ht => hs t (List.mem_cons_of_mem _ ht))
      exact bumpIfPresent_cents bal s.userId _ hc
        (IsCents_neg (hs s (List.mem_cons_self _ _)))

theorem balances_expenses_inv : ∀ (expenses : List Expense)
    (bal : List (String × ℚ)), (bal.map Prod.fst).Nodup →
    (∀ ex ∈ expenses, ex.paidById ∈ bal.map Prod.fst ∧
      (∀ s ∈ ex.splits, s.userId ∈ bal.map Prod.fst) ∧
      (ex.splits.map SplitRow.share).sum = ex.amount ∧
      IsCents ex.amount ∧ ∀ s ∈ ex.splits, IsCents s.share) →
    (∀ e ∈ bal, IsCents e.2) →
    (expenses.foldl applyExpense bal).map Prod.fst = bal.map Prod.fst ∧
    ((expenses.foldl applyExpense bal).map Prod.snd).sum =
      (bal.map Prod.snd).sum ∧
    ∀ e ∈ expenses.foldl applyExpense bal, IsCents e.2 := by
  intro expenses
  induction expenses with
  | nil =>
      intro bal _ _ hc
      exact ⟨rfl, rfl, hc⟩
  | cons ex exs ih =>
      intro bal hnd hexp hc
      simp only [List.foldl_cons]
      obtain ⟨hpay, hsplit, hsum, hca, hcs⟩ := hexp ex (List.mem_cons_self _ _)
      have hfst : (applyExpense bal ex).map Prod.fst = bal.map Prod.fst := by
        unfold applyExpense
        rw [foldl_bump_fst, bumpIfPresent_fst]
      have hsum2 : ((applyExpense bal ex).map Prod.snd).sum =
          (bal.map Prod.snd).sum := by
        unfold applyExpense
        rw [foldl_bump_sum _ _ ?_ ?_]
        · rw [bumpIfPresent_sum bal ex.paidById _ hnd hpay, hsum]
          ring
        · rw [bumpIfPresent_fst]
          exact hnd
        · intro t ht
          rw [bumpIfPresent_fst]
          exact hsplit t ht
      have hcents2 : ∀ e ∈ applyExpense bal ex, IsCents e.2 := by
        unfold applyExpense
        exact foldl_bump_cents _ _
          (bumpIfPresent_cents bal ex.paidById ex.amount hc hca) hcs
      obtain ⟨h1, h2, h3⟩ := ih (applyExpense bal ex)
        (by rw [hfst]; exact hnd)
        (fun ex2 hex2 => by
          rw [hfst]
          exact hexp ex2 (List.mem_cons_of_mem _ hex2)) hcents2
      exact ⟨h1.trans hfst, h2.trans hsum2, h3⟩

theorem applyPayment_fst (bal : List (String × ℚ)) (p : Payment) :
    (applyPayment bal p).map Prod.fst = bal.map Prod.fst := by
  unfold applyPayment
  by_cases h : p.status = "confirmed"
  · rw [if_neg (not_not_intro h), bumpIfPresent_fst, bumpIfPresent_fst]
  · rw [if_pos h]

theorem balances_payments_inv : ∀ (payments : List Payment)
    (bal : List (String × ℚ)), (bal.map Prod.fst).Nodup →
    (∀ p ∈ payments, p.fromUserId ∈ bal.map Prod.fst ∧
      p.toUserId ∈ bal.map Prod.fst ∧ IsCents p.amount) →
    (∀ e ∈ bal, IsCents e.2) →
    (payments.foldl applyPayment bal).map Prod.fst = bal.map Prod.fst ∧
    ((payments.foldl applyPayment bal).map Prod.snd).sum =
      (bal.map Prod.snd).sum ∧
    ∀ e ∈ payments.foldl applyPayment bal, IsCents e.2 := by
  intro payments
  induction payments with
  | nil =>
      intro bal _ _ hc
      exact ⟨rfl, rfl, hc⟩
  | cons p ps ih =>
      intro bal hnd hpay hc
      simp only [List.foldl_cons]
      obtain ⟨hfrom, hto, hcp⟩ := hpay p (List.mem_cons_self _ _)
      have hfst := applyPayment_fst bal p
      have hsum2 : ((applyPayment bal p).map Prod.snd).sum =
          (bal.map Prod.snd).sum := by
        unfold applyPayment
        by_cases h : p.status = "confirmed"
        · rw [if_neg (not_not_intro h)]
          rw [bumpIfPresent_sum _ p.toUserId _
            (by rw [bumpIfPresent_fst]; exact hnd)
            (by rw [bumpIfPresent_fst]; exact hto),
            bumpIfPresent_sum bal p.fromUserId _ hnd hfrom]
          ring
        · rw [if_pos h]
      have hcents2 : ∀ e ∈ applyPayment bal p, IsCents e.2 := by
        unfold applyPayment
        by_cases h : p.status = "confirmed"
        · rw [if_neg (not_not_intro h)]
          exact bumpIfPresent_cents _ p.toUserId _
            (bumpIfPresent_cents bal p.fromUserId _ hc hcp)
            (IsCents_neg hcp)
        · rw [if_pos h]
          exact hc
      obtain ⟨h1, h2, h3⟩ := ih (applyPayment bal p)
        (by rw [hfst]; exact hnd)
        (fun q hq => by
          rw [hfst]
          exact hpay q (List.mem_cons_of_mem _ hq)) hcents2
      exact ⟨h1.trans hfst, h2.trans hsum2, h3⟩

theorem init_keys (l : List String) :
    (l.map (fun u => (u, (0 : ℚ)))).map Prod.fst = l := by
  induction l with
  | nil => rfl
  | cons x xs ih =>
      simp only [List.map_cons]
      rw [ih]

theorem init_sum (l : List String) :
    ((l.map (fun u => (u, (0 : ℚ)))).map Prod.snd).sum = 0 := by
  induction l with
  | nil => rfl
  | cons x xs ih =>
      simp only [List.map_cons, List.sum_cons]
      rw [ih]
      ring

theorem round2_map_sum : ∀ (m : List (String × ℚ)),
    (∀ e ∈ m, IsCents e.2) →
    ((m.map (fun e => (e.1, round2 e.2))).map Prod.snd).sum =
      (m.map Prod.snd).sum := by
  intro m
  induction m with
  | nil => intro _; rfl
  | cons e es ih =>
      intro h
      simp only [List.map_cons, List.sum_cons]
      rw [round2_of_isCents (h e (List.mem_cons_self _ _)),
        ih (fun x hx => h x (List.mem_cons_of_mem _ hx))]

/-- C4 (amended): the balances sum to 0 to the cent whenever the member list
has no duplicates, every expense names members (payer and split holders) with
whole-cent amounts whose splits sum to the expense amount, and every payment
is between members for a whole-cent amount.  (The counterexample shows the
unconditional claim fails for a reachable state.) -/
theorem claim_C4_amended (members : List String) (expenses : List Expense)
    (payments : List Payment)
    (hnd : members.Nodup)
    (hexp : ∀ e ∈ expenses, e.paidById ∈ members ∧
      (∀ s ∈ e.splits, s.userId ∈ members) ∧
      (e.splits.map SplitRow.share).sum = e.amount ∧
      IsCents e.amount ∧ ∀ s ∈ e.splits, IsCents s.share)
    (hpay : ∀ p ∈ payments, p.fromUserId ∈ members ∧
      p.toUserId ∈ members ∧ IsCents p.amount) :
    ((calculateBalancesWithPayments members expenses payments).map
      Prod.snd).sum = 0 := by
  simp only [calculateBalancesWithPayments]
  have hkeys : (members.map (fun u => (u, (0 : ℚ)))).map Prod.fst =
      members := init_keys members
  have hsum0 : ((members.map (fun u => (u, (0 : ℚ)))).map Prod.snd).sum =
      0 := init_sum members
  have hcents0 : ∀ e ∈ members.map (fun u => (u, (0 : ℚ))), IsCents e.2 := by
    intro e he
    obtain ⟨u, _, rfl⟩ := List.mem_map.mp he
    exact ⟨0, by norm_num⟩
  obtain ⟨hk1, hs1, hc1⟩ := balances_expenses_inv expenses
    (members.map (fun u => (u, (0 : ℚ))))
    (by rw [hkeys]; exact hnd)
    (fun ex hex => by rw [hkeys]; exact hexp ex hex) hcents0
  obtain ⟨hk2, hs2, hc2⟩ := balances_payments_inv payments
    (expenses.foldl applyExpense (members.map (fun u => (u, (0 : ℚ)))))
    (by rw [hk1, hkeys]; exact hnd)
    (fun q hq => by rw [hk1, hkeys]; exact hpay q hq) hc1
  rw [round2_map_sum _ hc2, hs2, hs1, hsum0]

attribute [local semireducible] Rat.add Rat.mul Rat.sub Rat.inv in
/-- C4 (amended, witness): the zero-sum fact on a two-member trip with one
well-formed expense and one confirmed whole-cent payment. -/
theorem claim_C4_amended_witness :
    (["A", "B"].Nodup ∧
     (∀ e ∈ [Expense.mk "A" "t" 1 0 0 0 1 [SplitRow.mk "B" 1]],
       e.paidById ∈ ["A", "B"] ∧
       (∀ s ∈ e.splits, s.userId ∈ ["A", "B"]) ∧
       (e.splits.map SplitRow.share).sum = e.amount ∧
       IsCents e.amount ∧ ∀ s ∈ e.splits, IsCents s.share) ∧
     (∀ p ∈ [Payment.mk "t" "B" "A" (1 / 2) none "confirmed" none],
       p.fromUserId ∈ ["A", "B"] ∧ p.toUserId ∈ ["A", "B"] ∧
       IsCents p.amount)) ∧
    ((calculateBalancesWithPayments ["A", "B"]
        [Expense.mk "A" "t" 1 0 0 0 1 [SplitRow.mk "B" 1]]
        [Payment.mk "t" "B" "A" (1 / 2) none "confirmed" none]).map
      Prod.snd).sum = 0 :=
  ⟨⟨by decide, by decide, by decide⟩,
   claim_C4_amended ["A", "B"]
     [Expense.mk "A" "t" 1 0 0 0 1 [SplitRow.mk "B" 1]]
     [Payment.mk "t" "B" "A" (1 / 2) none "confirmed" none]
     (by decide) (by decide) (by decide)⟩


/-! ### C6: the settlement planner -/

unseal greedySettle in
attribute [local semireducible] Rat.add Rat.mul Rat.sub Rat.inv in
/-- C6 (counterexample): three accepted simple-split expenses produce the
balance map A ↦ −0.07, B ↦ +0.05, C ↦ +0.01, D ↦ +0.01.  C and D fail the
`balance > 0.01` creditor test, so only 0.05 of credit is listed against
0.07 of debt; the planner emits the single transfer A→B 0.05 and A is left
stranded at −0.02 — outside ±1 cent.  Every comparison in this trace is
slack by at least a cent (0.05 > 0.01; the residual 0.02 against 0.01;
0 < 0.01) or an exact tie of identically computed values (stored 0.01
against the 0.01 literal), so IEEE-double evaluation of the source takes
the same path and emits the same single transfer. -/
theorem claim_C6_counterexample :
    createExpenseSimple ["A", "B", "C", "D"] "B"
        (SimplePayload.mk "t" (5 / 100) [SplitInput.mk "A" (5 / 100)]) =
      some (Expense.mk "B" "t" (5 / 100) 0 0 0 (5 / 100)
        [SplitRow.mk "A" (5 / 100)]) ∧
    createExpenseSimple ["A", "B", "C", "D"] "C"
        (SimplePayload.mk "t" (1 / 100) [SplitInput.mk "A" (1 / 100)]) =
      some (Expense.mk "C" "t" (1 / 100) 0 0 0 (1 / 100)
        [SplitRow.mk "A" (1 / 100)]) ∧
    createExpenseSimple ["A", "B", "C", "D"] "D"
        (SimplePayload.mk "t" (1 / 100) [SplitInput.mk "A" (1 / 100)]) =
      some (Expense.mk "D" "t" (1 / 100) 0 0 0 (1 / 100)
        [SplitRow.mk "A" (1 / 100)]) ∧
    calculateBalancesWithPayments ["A", "B", "C", "D"]
        [Expense.mk "B" "t" (5 / 100) 0 0 0 (5 / 100)
          [SplitRow.mk "A" (5 / 100)],
         Expense.mk "C" "t" (1 / 100) 0 0 0 (1 / 100)
          [SplitRow.mk "A" (1 / 100)],
         Expense.mk "D" "t" (1 / 100) 0 0 0 (1 / 100)
          [SplitRow.mk "A" (1 / 100)]] [] =
      [("A", -(7 / 100)), ("B", 5 / 100), ("C", 1 / 100), ("D", 1 / 100)] ∧
    planSettlements [("A", -(7 / 100)), ("B", 5 / 100), ("C", 1 / 100),
        ("D", 1 / 100)] = [Settlement.mk "A" "B" (5 / 100)] ∧
    balanceAfterTransfers (-(7 / 100))
      (planSettlements [("A", -(7 / 100)), ("B", 5 / 100), ("C", 1 / 100),
        ("D", 1 / 100)]) "A" = -(2 / 100) ∧
    ¬ |(-(2 / 100) : ℚ)| ≤ 1 / 100 := by
  decide

/-! Whole-cent arithmetic facts used by the planner analysis. -/

theorem IsCents_sub {a b : ℚ} (ha : IsCents a) (hb : IsCents b) :
    IsCents (a - b) := by
  obtain ⟨j, rfl⟩ := ha
  obtain ⟨k, rfl⟩ := hb
  exact ⟨j - k, by push_cast; ring⟩

theorem IsCents_min {a b : ℚ} (ha : IsCents a) (hb : IsCents b) :
    IsCents (min a b) := by
  rcases le_total a b with h | h
  · rw [min_eq_left h]; exact ha
  · rw [min_eq_right h]; exact hb

theorem IsCents_abs {a : ℚ} (ha : IsCents a) : IsCents |a| := by
  obtain ⟨j, rfl⟩ := ha
  refine ⟨|j|, ?_⟩
  rw [abs_div, Int.cast_abs]
  norm_num

theorem IsCents_eq_zero_of_lt_cent {x : ℚ} (hx : IsCents x) (h0 : 0 ≤ x)
    (h1 : x < 1 / 100) : x = 0 := by
  obtain ⟨k, rfl⟩ := hx
  have hr : ((k : ℚ)) = 100 * ((k : ℚ) / 100) := by ring
  have hk0 : (0 : ℤ) ≤ k := by
    have : (0 : ℚ) ≤ (k : ℚ) := by rw [hr]; linarith
    exact_mod_cast this
  have hk1 : k < 1 := by
    have : ((k : ℚ)) < 1 := by rw [hr]; linarith
    exact_mod_cast this
  have : k = 0 := by omega
  subst this
  norm_num

theorem IsCents_cent_le_of_pos {x : ℚ} (hx : IsCents x) (h : 0 < x) :
    1 / 100 ≤ x := by
  by_contra hcon
  rw [not_le] at hcon
  exact absurd (IsCents_eq_zero_of_lt_cent hx h.le hcon) h.ne'

theorem IsCents_two_le_of_gt_cent {x : ℚ} (hx : IsCents x)
    (h : 1 / 100 < x) : 2 / 100 ≤ x := by
  have h2 : 0 < x - 1 / 100 := by linarith
  have hc2 : IsCents (x - 1 / 100) := IsCents_sub hx ⟨1, by norm_num⟩
  have := IsCents_cent_le_of_pos hc2 h2
  linarith

/-! Transfer accounting. -/

theorem sentBy_nil (u : String) : sentBy [] u = 0 := rfl

theorem receivedBy_nil (u : String) : receivedBy [] u = 0 := rfl

theorem sentBy_append (ts1 ts2 : List Settlement) (u : String) :
    sentBy (ts1 ++ ts2) u = sentBy ts1 u + sentBy ts2 u := by
  simp [sentBy, List.filter_append]

theorem receivedBy_append (ts1 ts2 : List Settlement) (u : String) :
    receivedBy (ts1 ++ ts2) u = receivedBy ts1 u + receivedBy ts2 u := by
  simp [receivedBy, List.filter_append]

theorem sentBy_single (t : Settlement) (u : String) :
    sentBy [t] u = if t.fromId = u then t.amount else 0 := by
  by_cases h : t.fromId = u <;> simp [sentBy, h]

theorem receivedBy_single (t : Settlement) (u : String) :
    receivedBy [t] u = if t.toId = u then t.amount else 0 := by
  by_cases h : t.toId = u <;> simp [receivedBy, h]

theorem sentBy_eq_zero : ∀ (ts : List Settlement) (u : String),
    (∀ t ∈ ts, t.fromId ≠ u) → sentBy ts u = 0 := by
  intro ts u
  induction ts with
  | nil => intro _; rfl
  | cons t ts ih =>
      intro h
      have h1 : t.fromId ≠ u := h t (List.mem_cons_self _ _)
      show sentBy ([t] ++ ts) u = 0
      rw [sentBy_append, sentBy_single, if_neg h1,
        ih (fun x hx => h x (List.mem_cons_of_mem _ hx))]
      ring

theorem receivedBy_eq_zero : ∀ (ts : List Settlement) (u : String),
    (∀ t ∈ ts, t.toId ≠ u) → receivedBy ts u = 0 := by
  intro ts u
  induction ts with
  | nil => intro _; rfl
  | cons t ts ih =>
      intro h
      have h1 : t.toId ≠ u := h t (List.mem_cons_self _ _)
      show receivedBy ([t] ++ ts) u = 0
      rw [receivedBy_append, receivedBy_single, if_neg h1,
        ih (fun x hx => h x (List.mem_cons_of_mem _ hx))]
      ring

/-! Sorted party lists. -/

theorem insertAmtDesc_perm (x : Party) (l : List Party) :
    (insertAmtDesc x l).Perm (x :: l) := by
  induction l with
  | nil => simp [insertAmtDesc]
  | cons y ys ih =>
      simp only [insertAmtDesc]
      by_cases h : x.amount > y.amount
      · rw [if_pos h]
      · rw [if_neg h]
        exact (ih.cons y).trans (List.Perm.swap x y ys)

theorem sortAmtDesc_perm_aux (l : List Party) :
    ∀ acc : List Party,
      (l.foldl (fun a x => insertAmtDesc x a) acc).Perm (acc ++ l) := by
  induction l with
  | nil => intro acc; simp
  | cons x xs ih =>
      intro acc
      simp only [List.foldl_cons]
      refine (ih (insertAmtDesc x acc)).trans ?_
      refine ((insertAmtDesc_perm x acc).append_right xs).trans ?_
      simpa using List.perm_middle.symm

theorem sortAmtDesc_perm (l : List Party) : (sortAmtDesc l).Perm l := by
  unfold sortAmtDesc
  simpa using sortAmtDesc_perm_aux l []


theorem debtorsOf_cons (e : String × ℚ) (l : List (String × ℚ)) :
    debtorsOf (e :: l) =
      if e.2 < -(1 / 100) then Party.mk e.1 |e.2| :: debtorsOf l
      else debtorsOf l := by
  simp only [debtorsOf, List.filterMap_cons]
  by_cases h : e.2 < -(1 / 100)
  · rw [if_pos h, if_pos h]
  · rw [if_neg h, if_neg h]

theorem creditorsOf_cons (e : String × ℚ) (l : List (String × ℚ)) :
    creditorsOf (e :: l) =
      if e.2 > 1 / 100 then Party.mk e.1 e.2 :: creditorsOf l
      else creditorsOf l := by
  simp only [creditorsOf, List.filterMap_cons]
  by_cases h : e.2 > 1 / 100
  · rw [if_pos h, if_pos h]
  · rw [if_neg h, if_neg h]

theorem debtorsOf_pids_sublist : ∀ bal : List (String × ℚ),
    ((debtorsOf bal).map Party.pid).Sublist (bal.map Prod.fst) := by
  intro bal
  induction bal with
  | nil => simp [debtorsOf]
  | cons e l ih =>
      rw [debtorsOf_cons]
      by_cases h : e.2 < -(1 / 100)
      · rw [if_pos h]
        simp only [List.map_cons]
        exact List.Sublist.cons₂ _ ih
      · rw [if_neg h]
        simp only [List.map_cons]
        exact List.Sublist.cons _ ih

theorem creditorsOf_pids_sublist : ∀ bal : List (String × ℚ),
    ((creditorsOf bal).map Party.pid).Sublist (bal.map Prod.fst) := by
  intro bal
  induction bal with
  | nil => simp [creditorsOf]
  | cons e l ih =>
      rw [creditorsOf_cons]
      by_cases h : e.2 > 1 / 100
      · rw [if_pos h]
        simp only [List.map_cons]
        exact List.Sublist.cons₂ _ ih
      · rw [if_neg h]
        simp only [List.map_cons]
        exact List.Sublist.cons _ ih

theorem debtorsOf_sound : ∀ (bal : List (String × ℚ)) (p : Party),
    p ∈ debtorsOf bal →
    ∃ b : ℚ, (p.pid, b) ∈ bal ∧ b < -(1 / 100) ∧ p.amount = |b| := by
  intro bal
  induction bal with
  | nil =>
      intro p h
      simp [debtorsOf] at h
  | cons e l ih =>
      intro p h
      rw [debtorsOf_cons] at h
      by_cases hc : e.2 < -(1 / 100)
      · rw [if_pos hc] at h
        rcases List.mem_cons.mp h with rfl | h2
        · exact ⟨e.2, by simp, hc, rfl⟩
        · obtain ⟨b, hb, h1, h2'⟩ := ih p h2
          exact ⟨b, List.mem_cons_of_mem _ hb, h1, h2'⟩
      · rw [if_neg hc] at h
        obtain ⟨b, hb, h1, h2'⟩ := ih p h
        exact ⟨b, List.mem_cons_of_mem _ hb, h1, h2'⟩

theorem creditorsOf_sound : ∀ (bal : List (String × ℚ)) (p : Party),
    p ∈ creditorsOf bal →
    ∃ b : ℚ, (p.pid, b) ∈ bal ∧ b > 1 / 100 ∧ p.amount = b := by
  intro bal
  induction bal with
  | nil =>
      intro p h
      simp [creditorsOf] at h
  | cons e l ih =>
      intro p h
      rw [creditorsOf_cons] at h
      by_cases hc : e.2 > 1 / 100
      · rw [if_pos hc] at h
        rcases List.mem_cons.mp h with rfl | h2
        · exact ⟨e.2, by simp, hc, rfl⟩
        · obtain ⟨b, hb, h1, h2'⟩ := ih p h2
          exact ⟨b, List.mem_cons_of_mem _ hb, h1, h2'⟩
      · rw [if_neg hc] at h
        obtain ⟨b, hb, h1, h2'⟩ := ih p h
        exact ⟨b, List.mem_cons_of_mem _ hb, h1, h2'⟩

theorem mem_debtorsOf : ∀ (bal : List (String × ℚ)) (u : String) (b : ℚ),
    (u, b) ∈ bal → b < -(1 / 100) → Party.mk u |b| ∈ debtorsOf bal := by
  intro bal
  induction bal with
  | nil =>
      intro u b h _
      simp at h
  | cons e l ih =>
      intro u b h hlt
      rw [debtorsOf_cons]
      rcases List.mem_cons.mp h with heq | h2
      · rw [← heq]
        rw [if_pos hlt]
        exact List.mem_cons_self _ _
      · by_cases hc : e.2 < -(1 / 100)
        · rw [if_pos hc]
          exact List.mem_cons_of_mem _ (ih u b h2 hlt)
        · rw [if_neg hc]
          exact ih u b h2 hlt

theorem mem_creditorsOf : ∀ (bal : List (String × ℚ)) (u : String) (b : ℚ),
    (u, b) ∈ bal → b > 1 / 100 → Party.mk u b ∈ creditorsOf bal := by
  intro bal
  induction bal with
  | nil =>
      intro u b h _
      simp at h
  | cons e l ih =>
      intro u b h hgt
      rw [creditorsOf_cons]
      rcases List.mem_cons.mp h with heq | h2
      · rw [← heq]
        rw [if_pos hgt]
        exact List.mem_cons_self _ _
      · by_cases hc : e.2 > 1 / 100
        · rw [if_pos hc]
          exact List.mem_cons_of_mem _ (ih u b h2 hgt)
        · rw [if_neg hc]
          exact ih u b h2 hgt

theorem keys_nodup_unique : ∀ (bal : List (String × ℚ)),
    (bal.map Prod.fst).Nodup → ∀ (u : String) (b1 b2 : ℚ),
    (u, b1) ∈ bal → (u, b2) ∈ bal → b1 = b2 := by
  intro bal
  induction bal with
  | nil =>
      intro _ u b1 b2 h
      simp at h
  | cons e l ih =>
      intro hnd u b1 b2 h1 h2
      simp only [List.map_cons, List.nodup_cons] at hnd
      rcases List.mem_cons.mp h1 with heq1 | h1'
      · rcases List.mem_cons.mp h2 with heq2 | h2'
        · rw [← heq1] at heq2
          injection heq2 with _ hb
          exact hb.symm
        · exfalso
          apply hnd.1
          rw [← heq1]
          simpa using List.mem_map_of_mem Prod.fst h2'
      · rcases List.mem_cons.mp h2 with heq2 | h2'
        · exfalso
          apply hnd.1
          rw [← heq2]
          simpa using List.mem_map_of_mem Prod.fst h1'
        · exact ih hnd.2 u b1 b2 h1' h2'

theorem debtors_creditors_sum : ∀ bal : List (String × ℚ),
    (∀ e ∈ bal, e.2 = 0 ∨ 1 / 100 < |e.2|) →
    ((creditorsOf bal).map Party.amount).sum -
      ((debtorsOf bal).map Party.amount).sum = (bal.map Prod.snd).sum := by
  intro bal
  induction bal with
  | nil =>
      intro _
      simp [debtorsOf, creditorsOf]
  | cons e l ih =>
      intro hbig
      have ihl := ih (fun x hx => hbig x (List.mem_cons_of_mem _ hx))
      simp only [List.map_cons, List.sum_cons]
      rcases hbig e (List.mem_cons_self _ _) with h0 | hbig2
      · rw [debtorsOf_cons, if_neg (by rw [h0]; norm_num),
          creditorsOf_cons, if_neg (by rw [h0]; norm_num), h0]
        linarith
      · rcases lt_or_le e.2 0 with hneg | hpos
        · have hlt : e.2 < -(1 / 100) := by
            rw [abs_of_neg hneg] at hbig2
            linarith
          rw [debtorsOf_cons, if_pos hlt, creditorsOf_cons,
            if_neg (by simp only [gt_iff_lt, not_lt]; linarith)]
          simp only [List.map_cons, List.sum_cons]
          rw [abs_of_neg hneg]
          linarith
        · have habs : |e.2| = e.2 := abs_of_nonneg hpos
          have hgt : e.2 > 1 / 100 := by
            rw [habs] at hbig2
            exact hbig2
          rw [debtorsOf_cons, if_neg (by simp only [not_lt]; linarith),
            creditorsOf_cons, if_pos hgt]
          simp only [List.map_cons, List.sum_cons]
          linarith

theorem party_sum_pos (l : List Party)
    (h : ∀ p ∈ l, 1 / 100 ≤ p.amount) (hne : l ≠ []) :
    0 < (l.map Party.amount).sum := by
  cases l with
  | nil => exact absurd rfl hne
  | cons p ps =>
      simp only [List.map_cons, List.sum_cons]
      have h1 := h p (List.mem_cons_self _ _)
      have h2 : 0 ≤ (ps.map Party.amount).sum := by
        apply List.sum_nonneg
        intro x hx
        obtain ⟨q, hq, rfl⟩ := List.mem_map.mp hx
        have := h q (List.mem_cons_of_mem _ hq)
        linarith
      linarith


theorem sentBy_mk_append (f g : String) (a : ℚ) (ts : List Settlement)
    (u : String) : sentBy (Settlement.mk f g a :: ts) u =
      (if f = u then a else 0) + sentBy ts u := by
  show sentBy ([Settlement.mk f g a] ++ ts) u = _
  rw [sentBy_append, sentBy_single]

theorem receivedBy_mk_append (f g : String) (a : ℚ) (ts : List Settlement)
    (u : String) : receivedBy (Settlement.mk f g a :: ts) u =
      (if g = u then a else 0) + receivedBy ts u := by
  show receivedBy ([Settlement.mk f g a] ++ ts) u = _
  rw [receivedBy_append, receivedBy_single]

theorem greedySettle_cons_eq (d c : Party) (ds cs : List Party) :
    greedySettle (d :: ds) (c :: cs) =
      if d.amount - min d.amount c.amount < 1 / 100 then
        if c.amount - min d.amount c.amount < 1 / 100 then
          (if min d.amount c.amount > 1 / 100
            then [Settlement.mk d.pid c.pid (round2 (min d.amount c.amount))]
            else []) ++ greedySettle ds cs
        else
          (if min d.amount c.amount > 1 / 100
            then [Settlement.mk d.pid c.pid (round2 (min d.amount c.amount))]
            else []) ++ greedySettle ds
              (Party.mk c.pid (c.amount - min d.amount c.amount) :: cs)
      else
        if c.amount - min d.amount c.amount < 1 / 100 then
          (if min d.amount c.amount > 1 / 100
            then [Settlement.mk d.pid c.pid (round2 (min d.amount c.amount))]
            else []) ++ greedySettle
              (Party.mk d.pid (d.amount - min d.amount c.amount) :: ds) cs
        else
          (if min d.amount c.amount > 1 / 100
            then [Settlement.mk d.pid c.pid (round2 (min d.amount c.amount))]
            else []) ++ greedySettle
              (Party.mk d.pid (d.amount - min d.amount c.amount) :: ds)
              (Party.mk c.pid (c.amount - min d.amount c.amount) :: cs) := by
  rw [greedySettle.eq_def]
  rfl

set_option maxHeartbeats 1600000 in
/-- The budget induction for the greedy settlement loop: on whole-cent party
lists whose heads hold at least one cent, whose tails hold at least two
cents, with distinct ids and equal totals, every debtor is settled to within
two cents (one cent when the opposite head is not exactly one cent), and
symmetrically for creditors; transfers only name listed parties. -/
theorem greedySettle_budget : ∀ (n : ℕ) (ds cs : List Party),
    ds.length + cs.length ≤ n →
    (∀ p ∈ ds, IsCents p.amount ∧ 1 / 100 ≤ p.amount) →
    (∀ p ∈ cs, IsCents p.amount ∧ 1 / 100 ≤ p.amount) →
    (∀ p ∈ ds.tail, 2 / 100 ≤ p.amount) →
    (∀ p ∈ cs.tail, 2 / 100 ≤ p.amount) →
    (ds.map Party.pid).Nodup →
    (cs.map Party.pid).Nodup →
    (∀ p ∈ ds, ∀ q ∈ cs, p.pid ≠ q.pid) →
    (ds.map Party.amount).sum = (cs.map Party.amount).sum →
    (∀ t ∈ greedySettle ds cs,
      t.fromId ∈ ds.map Party.pid ∧ t.toId ∈ cs.map Party.pid) ∧
    (∀ p ∈ ds, 0 ≤ p.amount - sentBy (greedySettle ds cs) p.pid ∧
      p.amount - sentBy (greedySettle ds cs) p.pid ≤ 2 / 100) ∧
    (∀ d ds2 c cs2, ds = d :: ds2 → cs = c :: cs2 → c.amount ≠ 1 / 100 →
      d.amount - sentBy (greedySettle ds cs) d.pid ≤ 1 / 100) ∧
    (∀ p ∈ cs, 0 ≤ p.amount - receivedBy (greedySettle ds cs) p.pid ∧
      p.amount - receivedBy (greedySettle ds cs) p.pid ≤ 2 / 100) ∧
    (∀ c cs2 d ds2, cs = c :: cs2 → ds = d :: ds2 → d.amount ≠ 1 / 100 →
      c.amount - receivedBy (greedySettle ds cs) c.pid ≤ 1 / 100) := by
  intro n
  induction n with
  | zero =>
      intro ds cs hlen hds hcs hdt hct hdd hcc hdisj hsum
      have hds0 : ds = [] := by
        cases ds with
        | nil => rfl
        | cons d ds2 => simp at hlen
      have hcs0 : cs = [] := by
        cases cs with
        | nil => rfl
        | cons c cs2 =>
            rw [hds0] at hlen
            simp at hlen
      subst hds0
      subst hcs0
      refine ⟨?_, ?_, ?_, ?_, ?_⟩
      · intro t ht
        simp [greedySettle] at ht
      · intro p hp
        simp at hp
      · intro d ds2 c cs2 h
        simp at h
      · intro p hp
        simp at hp
      · intro c cs2 d ds2 h
        simp at h
  | succ n ih =>
      intro ds cs hlen hds hcs hdt hct hdd hcc hdisj hsum
      cases ds with
      | nil =>
          have hcs0 : cs = [] := by
            by_contra hne
            have hpos := party_sum_pos cs (fun p hp => (hcs p hp).2) hne
            rw [← hsum] at hpos
            simp at hpos
          subst hcs0
          refine ⟨?_, ?_, ?_, ?_, ?_⟩
          · intro t ht
            simp [greedySettle] at ht
          · intro p hp
            simp at hp
          · intro d ds2 c cs2 h
            simp at h
          · intro p hp
            simp at hp
          · intro c cs2 d ds2 h
            simp at h
      | cons d ds2 =>
          cases cs with
          | nil =>
              exfalso
              have hpos := party_sum_pos (d :: ds2)
                (fun p hp => (hds p hp).2) (by simp)
              rw [hsum] at hpos
              simp at hpos
          | cons c cs2 =>
              have hdm := hds d (List.mem_cons_self _ _)
              have hcm := hcs c (List.mem_cons_self _ _)
              have hm_cents : IsCents (min d.amount c.amount) :=
                IsCents_min hdm.1 hcm.1
              have hm_ge : 1 / 100 ≤ min d.amount c.amount :=
                le_min hdm.2 hcm.2
              have hmd : min d.amount c.amount ≤ d.amount := min_le_left _ _
              have hmc : min d.amount c.amount ≤ c.amount := min_le_right _ _
              have hround : round2 (min d.amount c.amount) =
                  min d.amount c.amount := round2_of_isCents hm_cents
              have hlen2 : ds2.length + cs2.length ≤ n := by
                simp only [List.length_cons] at hlen
                omega
              have hsum2 : d.amount + (ds2.map Party.amount).sum =
                  c.amount + (cs2.map Party.amount).sum := by
                simpa using hsum
              have hdd2 : d.pid ∉ ds2.map Party.pid ∧
                  (ds2.map Party.pid).Nodup := by
                simpa [List.nodup_cons] using hdd
              have hcc2 : c.pid ∉ cs2.map Party.pid ∧
                  (cs2.map Party.pid).Nodup := by
                simpa [List.nodup_cons] using hcc
              have hds2good : ∀ p ∈ ds2, IsCents p.amount ∧
                  1 / 100 ≤ p.amount := fun p hp =>
                ⟨(hds p (List.mem_cons_of_mem _ hp)).1, by linarith [hdt p hp]⟩
              have hcs2good : ∀ p ∈ cs2, IsCents p.amount ∧
                  1 / 100 ≤ p.amount := fun p hp =>
                ⟨(hcs p (List.mem_cons_of_mem _ hp)).1, by linarith [hct p hp]⟩
              have hds2tail : ∀ p ∈ ds2.tail, 2 / 100 ≤ p.amount :=
                fun p hp => hdt p (List.mem_of_mem_tail hp)
              have hcs2tail : ∀ p ∈ cs2.tail, 2 / 100 ≤ p.amount :=
                fun p hp => hct p (List.mem_of_mem_tail hp)
              have hds2nn : 0 ≤ (ds2.map Party.amount).sum :=
                List.sum_nonneg (fun x hx => by
                  obtain ⟨q, hq, rfl⟩ := List.mem_map.mp hx
                  linarith [(hds2good q hq).2])
              have hcs2nn : 0 ≤ (cs2.map Party.amount).sum :=
                List.sum_nonneg (fun x hx => by
                  obtain ⟨q, hq, rfl⟩ := List.mem_map.mp hx
                  linarith [(hcs2good q hq).2])
              by_cases hd1 : d.amount - min d.amount c.amount < 1 / 100
              · by_cases hc1 : c.amount - min d.amount c.amount < 1 / 100
                · -- both heads consumed
                  have hda : d.amount = min d.amount c.amount := by
                    have h0 : 0 ≤ d.amount - min d.amount c.amount := by
                      linarith
                    have hz := IsCents_eq_zero_of_lt_cent
                      (IsCents_sub hdm.1 hm_cents) h0 hd1
                    linarith
                  have hca : c.amount = min d.amount c.amount := by
                    have h0 : 0 ≤ c.amount - min d.amount c.amount := by
                      linarith
                    have hz := IsCents_eq_zero_of_lt_cent
                      (IsCents_sub hcm.1 hm_cents) h0 hc1
                    linarith
                  obtain ⟨F2, D2, Dh2, C2, Ch2⟩ := ih ds2 cs2 hlen2
                    hds2good hcs2good hds2tail hcs2tail hdd2.2 hcc2.2
                    (fun p hp q hq => hdisj p (List.mem_cons_of_mem _ hp) q
                      (List.mem_cons_of_mem _ hq))
                    (by linarith [hsum2])
                  have hsent0 : sentBy (greedySettle ds2 cs2) d.pid = 0 :=
                    sentBy_eq_zero _ _ (fun t ht hcontra =>
                      hdd2.1 (hcontra ▸ (F2 t ht).1))
                  have hrecv0 : receivedBy (greedySettle ds2 cs2) c.pid = 0 :=
                    receivedBy_eq_zero _ _ (fun t ht hcontra =>
                      hcc2.1 (hcontra ▸ (F2 t ht).2))
                  by_cases hemit : 1 / 100 < min d.amount c.amount
                  · have hgs : greedySettle (d :: ds2) (c :: cs2) =
                        Settlement.mk d.pid c.pid (min d.amount c.amount) ::
                          greedySettle ds2 cs2 := by
                      rw [greedySettle_cons_eq, if_pos hd1, if_pos hc1,
                        if_pos hemit, hround, List.singleton_append]
                    rw [hgs]
                    refine ⟨?_, ?_, ?_, ?_, ?_⟩
                    · intro t ht
                      rcases List.mem_cons.mp ht with rfl | h1
                      · exact ⟨List.mem_cons_self _ _, List.mem_cons_self _ _⟩
                      · exact ⟨List.mem_cons_of_mem _ (F2 t h1).1,
                          List.mem_cons_of_mem _ (F2 t h1).2⟩
                    · intro p hp
                      rcases List.mem_cons.mp hp with rfl | hp2
                      · rw [sentBy_mk_append, if_pos rfl, hsent0]
                        constructor <;> linarith [hda]
                      · have hne : d.pid ≠ p.pid := fun h =>
                          hdd2.1 (h ▸ List.mem_map_of_mem Party.pid hp2)
                        rw [sentBy_mk_append, if_neg hne]
                        have hb := D2 p hp2
                        constructor <;> linarith [hb.1, hb.2]
                    · intro d3 ds3 c3 cs3 heqd heqc hcne
                      injection heqd with h1 h2
                      subst h1
                      rw [sentBy_mk_append, if_pos rfl, hsent0]
                      linarith [hda]
                    · intro q hq
                      rcases List.mem_cons.mp hq with rfl | hq2
                      · rw [receivedBy_mk_append, if_pos rfl, hrecv0]
                        constructor <;> linarith [hca]
                      · have hne : c.pid ≠ q.pid := fun h =>
                          hcc2.1 (h ▸ List.mem_map_of_mem Party.pid hq2)
                        rw [receivedBy_mk_append, if_neg hne]
                        have hb := C2 q hq2
                        constructor <;> linarith [hb.1, hb.2]
                    · intro c3 cs3 d3 ds3 heqc heqd hdne
                      injection heqc with h1 h2
                      subst h1
                      rw [receivedBy_mk_append, if_pos rfl, hrecv0]
                      linarith [hca]
                  · have hm1 : min d.amount c.amount = 1 / 100 :=
                      le_antisymm (not_lt.mp hemit) hm_ge
                    have hgs : greedySettle (d :: ds2) (c :: cs2) =
                        greedySettle ds2 cs2 := by
                      rw [greedySettle_cons_eq, if_pos hd1, if_pos hc1,
                        if_neg hemit, List.nil_append]
                    rw [hgs]
                    refine ⟨?_, ?_, ?_, ?_, ?_⟩
                    · intro t ht
                      exact ⟨List.mem_cons_of_mem _ (F2 t ht).1,
                        List.mem_cons_of_mem _ (F2 t ht).2⟩
                    · intro p hp
                      rcases List.mem_cons.mp hp with rfl | hp2
                      · rw [hsent0]
                        constructor <;> linarith [hda, hm1]
                      · exact D2 p hp2
                    · intro d3 ds3 c3 cs3 heqd heqc hcne
                      injection heqd with h1 h2
                      subst h1
                      rw [hsent0]
                      linarith [hda, hm1]
                    · intro q hq
                      rcases List.mem_cons.mp hq with rfl | hq2
                      · rw [hrecv0]
                        constructor <;> linarith [hca, hm1]
                      · exact C2 q hq2
                    · intro c3 cs3 d3 ds3 heqc heqd hdne
                      injection heqc with h1 h2
                      subst h1
                      rw [hrecv0]
                      linarith [hca, hm1]
                · -- debtor head consumed, creditor head survives
                  have hda : d.amount = min d.amount c.amount := by
                    have h0 : 0 ≤ d.amount - min d.amount c.amount := by
                      linarith
                    have hz := IsCents_eq_zero_of_lt_cent
                      (IsCents_sub hdm.1 hm_cents) h0 hd1
                    linarith
                  have hcge : 1 / 100 ≤ c.amount - min d.amount c.amount :=
                    not_lt.mp hc1
                  have hds2ne : ds2 ≠ [] := by
                    intro h0
                    subst h0
                    simp only [List.map_nil, List.sum_nil] at hsum2
                    linarith [hda, hcge, hcs2nn]
                  obtain ⟨d2, ds3, hds2eq⟩ : ∃ d2 ds3, ds2 = d2 :: ds3 := by
                    cases ds2 with
                    | nil => exact absurd rfl hds2ne
                    | cons a b => exact ⟨a, b, rfl⟩
                  obtain ⟨F2, D2, Dh2, C2, Ch2⟩ := ih ds2
                    (Party.mk c.pid (c.amount - min d.amount c.amount) :: cs2)
                    (by simp only [List.length_cons] at hlen ⊢; omega)
                    hds2good
                    (by intro p hp
                        rcases List.mem_cons.mp hp with rfl | hp2
                        · exact ⟨IsCents_sub hcm.1 hm_cents, hcge⟩
                        · exact hcs2good p hp2)
                    hds2tail
                    (by intro p hp
                        exact hct p hp)
                    hdd2.2
                    (by simpa [List.nodup_cons] using hcc)
                    (by intro p hp q hq
                        rcases List.mem_cons.mp hq with rfl | hq2
                        · exact hdisj p (List.mem_cons_of_mem _ hp) c
                            (List.mem_cons_self _ _)
                        · exact hdisj p (List.mem_cons_of_mem _ hp) q
                            (List.mem_cons_of_mem _ hq2))
                    (by simp only [List.map_cons, List.sum_cons]
                        linarith [hsum2, hda])
                  have hsent0 : sentBy (greedySettle ds2
                      (Party.mk c.pid (c.amount - min d.amount c.amount) ::
                        cs2)) d.pid = 0 :=
                    sentBy_eq_zero _ _ (fun t ht hcontra =>
                      hdd2.1 (hcontra ▸ (F2 t ht).1))
                  have hcd0 : 0 ≤ (c.amount - min d.amount c.amount) -
                      receivedBy (greedySettle ds2
                        (Party.mk c.pid (c.amount - min d.amount c.amount) ::
                          cs2)) c.pid :=
                    (C2 (Party.mk c.pid (c.amount - min d.amount c.amount))
                      (List.mem_cons_self _ _)).1
                  have hcd1 : (c.amount - min d.amount c.amount) -
                      receivedBy (greedySettle ds2
                        (Party.mk c.pid (c.amount - min d.amount c.amount) ::
                          cs2)) c.pid ≤ 1 / 100 := by
                    have h2ne : d2.amount ≠ 1 / 100 := by
                      have h2 := hdt d2 (by
                        rw [hds2eq]
                        exact List.mem_cons_self _ _)
                      intro hx
                      rw [hx] at h2
                      norm_num at h2
                    exact Ch2 (Party.mk c.pid
                        (c.amount - min d.amount c.amount)) cs2 d2 ds3 rfl
                      hds2eq h2ne
                  by_cases hemit : 1 / 100 < min d.amount c.amount
                  · have hgs : greedySettle (d :: ds2) (c :: cs2) =
                        Settlement.mk d.pid c.pid (min d.amount c.amount) ::
                          greedySettle ds2 (Party.mk c.pid
                            (c.amount - min d.amount c.amount) :: cs2) := by
                      rw [greedySettle_cons_eq, if_pos hd1, if_neg hc1,
                        if_pos hemit, hround, List.singleton_append]
                    rw [hgs]
                    refine ⟨?_, ?_, ?_, ?_, ?_⟩
                    · intro t ht
                      rcases List.mem_cons.mp ht with rfl | h1
                      · exact ⟨List.mem_cons_self _ _, List.mem_cons_self _ _⟩
                      · refine ⟨List.mem_cons_of_mem _ (F2 t h1).1, ?_⟩
                        exact (F2 t h1).2
                    · intro p hp
                      rcases List.mem_cons.mp hp with rfl | hp2
                      · rw [sentBy_mk_append, if_pos rfl, hsent0]
                        constructor <;> linarith [hda]
                      · have hne : d.pid ≠ p.pid := fun h =>
                          hdd2.1 (h ▸ List.mem_map_of_mem Party.pid hp2)
                        rw [sentBy_mk_append, if_neg hne]
                        have hb := D2 p hp2
                        constructor <;> linarith [hb.1, hb.2]
                    · intro d3 ds4 c3 cs4 heqd heqc hcne
                      injection heqd with h1 h2
                      subst h1
                      rw [sentBy_mk_append, if_pos rfl, hsent0]
                      linarith [hda]
                    · intro q hq
                      rcases List.mem_cons.mp hq with rfl | hq2
                      · rw [receivedBy_mk_append, if_pos rfl]
                        constructor <;> linarith [hcd0, hcd1]
                      · have hne : c.pid ≠ q.pid := fun h =>
                          hcc2.1 (h ▸ List.mem_map_of_mem Party.pid hq2)
                        rw [receivedBy_mk_append, if_neg hne]
                        have hb := C2 q (List.mem_cons_of_mem _ hq2)
                        constructor <;> linarith [hb.1, hb.2]
                    · intro c3 cs4 d3 ds4 heqc heqd hdne
                      injection heqc with h1 h2
                      subst h1
                      rw [receivedBy_mk_append, if_pos rfl]
                      linarith [hcd1]
                  · have hm1 : min d.amount c.amount = 1 / 100 :=
                      le_antisymm (not_lt.mp hemit) hm_ge
                    have hda1 : d.amount = 1 / 100 := by
                      rw [hda, hm1]
                    have hgs : greedySettle (d :: ds2) (c :: cs2) =
                        greedySettle ds2 (Party.mk c.pid
                          (c.amount - min d.amount c.amount) :: cs2) := by
                      rw [greedySettle_cons_eq, if_pos hd1, if_neg hc1,
                        if_neg hemit, List.nil_append]
                    rw [hgs]
                    refine ⟨?_, ?_, ?_, ?_, ?_⟩
                    · intro t ht
                      refine ⟨List.mem_cons_of_mem _ (F2 t ht).1, ?_⟩
                      exact (F2 t ht).2
                    · intro p hp
                      rcases List.mem_cons.mp hp with rfl | hp2
                      · rw [hsent0]
                        constructor <;> linarith [hda1]
                      · exact D2 p hp2
                    · intro d3 ds4 c3 cs4 heqd heqc hcne
                      injection heqd with h1 h2
                      subst h1
                      rw [hsent0]
                      linarith [hda1]
                    · intro q hq
                      rcases List.mem_cons.mp hq with rfl | hq2
                      · constructor <;> linarith [hcd0, hcd1, hm1]
                      · exact C2 q (List.mem_cons_of_mem _ hq2)
                    · intro c3 cs4 d3 ds4 heqc heqd hdne
                      injection heqd with h1 h2
                      subst h1
                      exact absurd hda1 hdne
              · by_cases hc1 : c.amount - min d.amount c.amount < 1 / 100
                · -- creditor head consumed, debtor head survives
                  have hca : c.amount = min d.amount c.amount := by
                    have h0 : 0 ≤ c.amount - min d.amount c.amount := by
                      linarith
                    have hz := IsCents_eq_zero_of_lt_cent
                      (IsCents_sub hcm.1 hm_cents) h0 hc1
                    linarith
                  have hdge : 1 / 100 ≤ d.amount - min d.amount c.amount :=
                    not_lt.mp hd1
                  have hcs2ne : cs2 ≠ [] := by
                    intro h0
                    subst h0
                    simp only [List.map_nil, List.sum_nil] at hsum2
                    linarith [hca, hdge, hds2nn]
                  obtain ⟨c2, cs3, hcs2eq⟩ : ∃ c2 cs3, cs2 = c2 :: cs3 := by
                    cases cs2 with
                    | nil => exact absurd rfl hcs2ne
                    | cons a b => exact ⟨a, b, rfl⟩
                  obtain ⟨F2, D2, Dh2, C2, Ch2⟩ := ih
                    (Party.mk d.pid (d.amount - min d.amount c.amount) :: ds2)
                    cs2
                    (by simp only [List.length_cons] at hlen ⊢; omega)
                    (by intro p hp
                        rcases List.mem_cons.mp hp with rfl | hp2
                        · exact ⟨IsCents_sub hdm.1 hm_cents, hdge⟩
                        · exact hds2good p hp2)
                    hcs2good
                    (by intro p hp
                        exact hdt p hp)
                    hcs2tail
                    (by simpa [List.nodup_cons] using hdd)
                    hcc2.2
                    (by intro p hp q hq
                        rcases List.mem_cons.mp hp with rfl | hp2
                        · exact hdisj d (List.mem_cons_self _ _) q
                            (List.mem_cons_of_mem _ hq)
                        · exact hdisj p (List.mem_cons_of_mem _ hp2) q
                            (List.mem_cons_of_mem _ hq))
                    (by simp only [List.map_cons, List.sum_cons]
                        linarith [hsum2, hca])
                  have hrecv0 : receivedBy (greedySettle
                      (Party.mk d.pid (d.amount - min d.amount c.amount) ::
                        ds2) cs2) c.pid = 0 :=
                    receivedBy_eq_zero _ _ (fun t ht hcontra =>
                      hcc2.1 (hcontra ▸ (F2 t ht).2))
                  have hdd0 : 0 ≤ (d.amount - min d.amount c.amount) -
                      sentBy (greedySettle (Party.mk d.pid
                        (d.amount - min d.amount c.amount) :: ds2) cs2)
                        d.pid :=
                    (D2 (Party.mk d.pid (d.amount - min d.amount c.amount))
                      (List.mem_cons_self _ _)).1
                  have hdd1 : (d.amount - min d.amount c.amount) -
                      sentBy (greedySettle (Party.mk d.pid
                        (d.amount - min d.amount c.amount) :: ds2) cs2)
                        d.pid ≤ 1 / 100 := by
                    have h2ne : c2.amount ≠ 1 / 100 := by
                      have h2 := hct c2 (by
                        rw [hcs2eq]
                        exact List.mem_cons_self _ _)
                      intro hx
                      rw [hx] at h2
                      norm_num at h2
                    exact Dh2 (Party.mk d.pid
                        (d.amount - min d.amount c.amount)) ds2 c2 cs3 rfl
                      hcs2eq h2ne
                  by_cases hemit : 1 / 100 < min d.amount c.amount
                  · have hgs : greedySettle (d :: ds2) (c :: cs2) =
                        Settlement.mk d.pid c.pid (min d.amount c.amount) ::
                          greedySettle (Party.mk d.pid
                            (d.amount - min d.amount c.amount) :: ds2)
                            cs2 := by
                      rw [greedySettle_cons_eq, if_neg hd1, if_pos hc1,
                        if_pos hemit, hround, List.singleton_append]
                    rw [hgs]
                    refine ⟨?_, ?_, ?_, ?_, ?_⟩
                    · intro t ht
                      rcases List.mem_cons.mp ht with rfl | h1
                      · exact ⟨List.mem_cons_self _ _, List.mem_cons_self _ _⟩
                      · refine ⟨?_, List.mem_cons_of_mem _ (F2 t h1).2⟩
                        exact (F2 t h1).1
                    · intro p hp
                      rcases List.mem_cons.mp hp with rfl | hp2
                      · rw [sentBy_mk_append, if_pos rfl]
                        constructor <;> linarith [hdd0, hdd1]
                      · have hne : d.pid ≠ p.pid := fun h =>
                          hdd2.1 (h ▸ List.mem_map_of_mem Party.pid hp2)
                        rw [sentBy_mk_append, if_neg hne]
                        have hb := D2 p (List.mem_cons_of_mem _ hp2)
                        constructor <;> linarith [hb.1, hb.2]
                    · intro d3 ds4 c3 cs4 heqd heqc hcne
                      injection heqd with h1 h2
                      subst h1
                      rw [sentBy_mk_append, if_pos rfl]
                      linarith [hdd1]
                    · intro q hq
                      rcases List.mem_cons.mp hq with rfl | hq2
                      · rw [receivedBy_mk_append, if_pos rfl, hrecv0]
                        constructor <;> linarith [hca]
                      · have hne : c.pid ≠ q.pid := fun h =>
                          hcc2.1 (h ▸ List.mem_map_of_mem Party.pid hq2)
                        rw [receivedBy_mk_append, if_neg hne]
                        have hb := C2 q hq2
                        constructor <;> linarith [hb.1, hb.2]
                    · intro c3 cs4 d3 ds4 heqc heqd hdne
                      injection heqc with h1 h2
                      subst h1
                      rw [receivedBy_mk_append, if_pos rfl, hrecv0]
                      linarith [hca]
                  · have hm1 : min d.amount c.amount = 1 / 100 :=
                      le_antisymm (not_lt.mp hemit) hm_ge
                    have hca1 : c.amount = 1 / 100 := by
                      rw [hca, hm1]
                    have hgs : greedySettle (d :: ds2) (c :: cs2) =
                        greedySettle (Party.mk d.pid
                          (d.amount - min d.amount c.amount) :: ds2) cs2 := by
                      rw [greedySettle_cons_eq, if_neg hd1, if_pos hc1,
                        if_neg hemit, List.nil_append]
                    rw [hgs]
                    refine ⟨?_, ?_, ?_, ?_, ?_⟩
                    · intro t ht
                      refine ⟨?_, List.mem_cons_of_mem _ (F2 t ht).2⟩
                      exact (F2 t ht).1
                    · intro p hp
                      rcases List.mem_cons.mp hp with rfl | hp2
                      · constructor <;> linarith [hdd0, hdd1, hm1]
                      · exact D2 p (List.mem_cons_of_mem _ hp2)
                    · intro d3 ds4 c3 cs4 heqd heqc hcne
                      injection heqc with h1 h2
                      subst h1
                      exact absurd hca1 hcne
                    · intro q hq
                      rcases List.mem_cons.mp hq with rfl | hq2
                      · rw [hrecv0]
                        constructor <;> linarith [hca1]
                      · exact C2 q hq2
                    · intro c3 cs4 d3 ds4 heqc heqd hdne
                      injection heqc with h1 h2
                      subst h1
                      rw [hrecv0]
                      linarith [hca1]
                · exfalso
                  rcases le_total d.amount c.amount with h | h
                  · have hx := not_lt.mp hd1
                    rw [min_eq_left h] at hx
                    linarith
                  · have hx := not_lt.mp hc1
                    rw [min_eq_right h] at hx
                    linarith


set_option maxHeartbeats 800000 in
/-- C6 (amended): on a balance map with no duplicate users, whole-cent
values summing to zero and no entry strictly between 0 and one cent in
magnitude, applying the planner's transfers leaves every user within ±2
cents of zero.  The bound is established for the exact-rational reading of
the loop's thresholds, under which an exact one-cent match reduces both
sides without being emitted; double arithmetic can resolve such one-cent
ties either way. -/
theorem claim_C6_amended (bal : List (String × ℚ))
    (hcents : ∀ e ∈ bal, IsCents e.2)
    (hnd : (bal.map Prod.fst).Nodup)
    (hsum : (bal.map Prod.snd).sum = 0)
    (hbig : ∀ e ∈ bal, e.2 = 0 ∨ 1 / 100 < |e.2|) :
    ∀ e ∈ bal,
      |balanceAfterTransfers e.2 (planSettlements bal) e.1| ≤ 2 / 100 := by
  have hdperm : (sortAmtDesc (debtorsOf bal)).Perm (debtorsOf bal) :=
    sortAmtDesc_perm _
  have hcperm : (sortAmtDesc (creditorsOf bal)).Perm (creditorsOf bal) :=
    sortAmtDesc_perm _
  have hdgood : ∀ p ∈ sortAmtDesc (debtorsOf bal),
      IsCents p.amount ∧ 2 / 100 ≤ p.amount := by
    intro p hp
    obtain ⟨b, hb, hlt, hamt⟩ := debtorsOf_sound bal p (hdperm.subset hp)
    have hbc : IsCents b := hcents (p.pid, b) hb
    constructor
    · rw [hamt]
      exact IsCents_abs hbc
    · rw [hamt]
      have h1 : 1 / 100 < |b| := by
        rw [abs_of_neg (by linarith)]
        linarith
      exact IsCents_two_le_of_gt_cent (IsCents_abs hbc) h1
  have hcgood : ∀ p ∈ sortAmtDesc (creditorsOf bal),
      IsCents p.amount ∧ 2 / 100 ≤ p.amount := by
    intro p hp
    obtain ⟨b, hb, hgt, hamt⟩ := creditorsOf_sound bal p (hcperm.subset hp)
    have hbc : IsCents b := hcents (p.pid, b) hb
    constructor
    · rw [hamt]
      exact hbc
    · rw [hamt]
      exact IsCents_two_le_of_gt_cent hbc hgt
  have hdpids : ∀ p ∈ sortAmtDesc (debtorsOf bal),
      ∃ b, (p.pid, b) ∈ bal ∧ b < -(1 / 100) := by
    intro p hp
    obtain ⟨b, hb, hlt, _⟩ := debtorsOf_sound bal p (hdperm.subset hp)
    exact ⟨b, hb, hlt⟩
  have hcpids : ∀ p ∈ sortAmtDesc (creditorsOf bal),
      ∃ b, (p.pid, b) ∈ bal ∧ b > 1 / 100 := by
    intro p hp
    obtain ⟨b, hb, hgt, _⟩ := creditorsOf_sound bal p (hcperm.subset hp)
    exact ⟨b, hb, hgt⟩
  have hdnd : ((sortAmtDesc (debtorsOf bal)).map Party.pid).Nodup :=
    ((hdperm.map Party.pid).nodup_iff).mpr
      (hnd.sublist (debtorsOf_pids_sublist bal))
  have hcnd : ((sortAmtDesc (creditorsOf bal)).map Party.pid).Nodup :=
    ((hcperm.map Party.pid).nodup_iff).mpr
      (hnd.sublist (creditorsOf_pids_sublist bal))
  have hdisj : ∀ p ∈ sortAmtDesc (debtorsOf bal),
      ∀ q ∈ sortAmtDesc (creditorsOf bal), p.pid ≠ q.pid := by
    intro p hp q hq heq
    obtain ⟨b1, hb1, hlt⟩ := hdpids p hp
    obtain ⟨b2, hb2, hgt⟩ := hcpids q hq
    rw [heq] at hb1
    have := keys_nodup_unique bal hnd q.pid b1 b2 hb1 hb2
    linarith
  have hsums : ((sortAmtDesc (debtorsOf bal)).map Party.amount).sum =
      ((sortAmtDesc (creditorsOf bal)).map Party.amount).sum := by
    have h1 := debtors_creditors_sum bal hbig
    rw [hsum] at h1
    have h2 := (hdperm.map Party.amount).sum_eq
    have h3 := (hcperm.map Party.amount).sum_eq
    linarith
  obtain ⟨F0, D0, Dh0, C0, Ch0⟩ := greedySettle_budget
    ((sortAmtDesc (debtorsOf bal)).length +
      (sortAmtDesc (creditorsOf bal)).length)
    (sortAmtDesc (debtorsOf bal)) (sortAmtDesc (creditorsOf bal)) le_rfl
    (fun p hp => ⟨(hdgood p hp).1, by linarith [(hdgood p hp).2]⟩)
    (fun p hp => ⟨(hcgood p hp).1, by linarith [(hcgood p hp).2]⟩)
    (fun p hp => (hdgood p (List.mem_of_mem_tail hp)).2)
    (fun p hp => (hcgood p (List.mem_of_mem_tail hp)).2)
    hdnd hcnd hdisj hsums
  intro e he
  show |e.2 + sentBy (greedySettle (sortAmtDesc (debtorsOf bal))
      (sortAmtDesc (creditorsOf bal))) e.1 -
    receivedBy (greedySettle (sortAmtDesc (debtorsOf bal))
      (sortAmtDesc (creditorsOf bal))) e.1| ≤ 2 / 100
  rcases hbig e he with h0 | hbig2
  · have hsent : sentBy (greedySettle (sortAmtDesc (debtorsOf bal))
        (sortAmtDesc (creditorsOf bal))) e.1 = 0 := by
      apply sentBy_eq_zero
      intro t ht hcontra
      obtain ⟨p, hpmem, hpid⟩ := List.mem_map.mp (F0 t ht).1
      obtain ⟨b, hb, hblt⟩ := hdpids p hpmem
      rw [hpid, hcontra] at hb
      have := keys_nodup_unique bal hnd e.1 b e.2 hb he
      rw [h0] at this
      linarith
    have hrecv : receivedBy (greedySettle (sortAmtDesc (debtorsOf bal))
        (sortAmtDesc (creditorsOf bal))) e.1 = 0 := by
      apply receivedBy_eq_zero
      intro t ht hcontra
      obtain ⟨p, hpmem, hpid⟩ := List.mem_map.mp (F0 t ht).2
      obtain ⟨b, hb, hbgt⟩ := hcpids p hpmem
      rw [hpid, hcontra] at hb
      have := keys_nodup_unique bal hnd e.1 b e.2 hb he
      rw [h0] at this
      linarith
    rw [hsent, hrecv, h0]
    norm_num
  · rcases lt_or_le e.2 0 with hneg | hpos
    · have hlt : e.2 < -(1 / 100) := by
        rw [abs_of_neg hneg] at hbig2
        linarith
      have hpmem2 : Party.mk e.1 |e.2| ∈ sortAmtDesc (debtorsOf bal) :=
        hdperm.mem_iff.mpr (mem_debtorsOf bal e.1 e.2 he hlt)
      have hD1 : 0 ≤ |e.2| - sentBy (greedySettle
          (sortAmtDesc (debtorsOf bal))
          (sortAmtDesc (creditorsOf bal))) e.1 :=
        (D0 (Party.mk e.1 |e.2|) hpmem2).1
      have hD2 : |e.2| - sentBy (greedySettle
          (sortAmtDesc (debtorsOf bal))
          (sortAmtDesc (creditorsOf bal))) e.1 ≤ 2 / 100 :=
        (D0 (Party.mk e.1 |e.2|) hpmem2).2
      have hrecv : receivedBy (greedySettle (sortAmtDesc (debtorsOf bal))
          (sortAmtDesc (creditorsOf bal))) e.1 = 0 := by
        apply receivedBy_eq_zero
        intro t ht hcontra
        obtain ⟨p, hpmem, hpid⟩ := List.mem_map.mp (F0 t ht).2
        obtain ⟨b, hb, hbgt⟩ := hcpids p hpmem
        rw [hpid, hcontra] at hb
        have := keys_nodup_unique bal hnd e.1 b e.2 hb he
        linarith
      rw [hrecv]
      rw [abs_of_neg hneg] at hD1 hD2
      rw [abs_le]
      constructor <;> linarith
    · have hgt : e.2 > 1 / 100 := by
        rw [abs_of_nonneg hpos] at hbig2
        exact hbig2
      have hpmem2 : Party.mk e.1 e.2 ∈ sortAmtDesc (creditorsOf bal) :=
        hcperm.mem_iff.mpr (mem_creditorsOf bal e.1 e.2 he hgt)
      have hC1 : 0 ≤ e.2 - receivedBy (greedySettle
          (sortAmtDesc (debtorsOf bal))
          (sortAmtDesc (creditorsOf bal))) e.1 :=
        (C0 (Party.mk e.1 e.2) hpmem2).1
      have hC2 : e.2 - receivedBy (greedySettle
          (sortAmtDesc (debtorsOf bal))
          (sortAmtDesc (creditorsOf bal))) e.1 ≤ 2 / 100 :=
        (C0 (Party.mk e.1 e.2) hpmem2).2
      have hsent : sentBy (greedySettle (sortAmtDesc (debtorsOf bal))
          (sortAmtDesc (creditorsOf bal))) e.1 = 0 := by
        apply sentBy_eq_zero
        intro t ht hcontra
        obtain ⟨p, hpmem, hpid⟩ := List.mem_map.mp (F0 t ht).1
        obtain ⟨b, hb, hblt⟩ := hdpids p hpmem
        rw [hpid, hcontra] at hb
        have := keys_nodup_unique bal hnd e.1 b e.2 hb he
        linarith
      rw [hsent, abs_le]
      constructor <;> linarith

unseal greedySettle in
attribute [local semireducible] Rat.add Rat.mul Rat.sub Rat.inv in
/-- C6 (amended, witness): the ±2-cent guarantee on a two-user whole-cent
balance map summing to zero. -/
theorem claim_C6_amended_witness :
    ((∀ e ∈ [("a", -(2 / 100)), ("b", (2 : ℚ) / 100)], IsCents e.2) ∧
     ([("a", -(2 / 100)), ("b", (2 : ℚ) / 100)].map Prod.fst).Nodup ∧
     ([("a", -(2 / 100)), ("b", (2 : ℚ) / 100)].map Prod.snd).sum = 0 ∧
     (∀ e ∈ [("a", -(2 / 100)), ("b", (2 : ℚ) / 100)],
       e.2 = 0 ∨ 1 / 100 < |e.2|)) ∧
    ∀ e ∈ [("a", -(2 / 100)), ("b", (2 : ℚ) / 100)],
      |balanceAfterTransfers e.2
        (planSettlements [("a", -(2 / 100)), ("b", (2 : ℚ) / 100)]) e.1| ≤
        2 / 100 :=
  ⟨⟨by decide, by decide, by decide, by decide⟩,
   claim_C6_amended [("a", -(2 / 100)), ("b", (2 : ℚ) / 100)]
     (by decide) (by decide) (by decide) (by decide)⟩

end TripSplit
